import Mathlib

/-!
# UartEvent: DMA driven UART transceiver (`utility/Uart2Event.cpp`)

A shallow embedding of the transmit and receive ring buffers of `Uart2Event`
and of the two DMA completion handlers, followed by the properties proved
about them.

Conventions of the embedding

* The statics of the translation unit and the hardware registers the code
  touches are the fields of `State`; every function of the source becomes a
  function on `State` (returning the C return value next to the new state
  when there is one).
* `TX_BUFFER_SIZE` and `RX_BUFFER_SIZE` come from a header that defines
  `TX1_BUFFER_SIZE` and `RX1_BUFFER_SIZE`; they are the two fields of `Config`.
* `uint32_t` arithmetic is written with `add32` and `sub32` (reduction modulo
  `2 ^ 32`); stores into the `uint8_t`/`uint16_t` index variables go through
  `txIndex`/`rxIndex`, which reduce modulo the width selected by the
  `#if ..._BUFFER_SIZE > 255` blocks of the source.
* The build without `SERIAL_9BIT_SUPPORT` is embedded: `BUFTYPE` is `uint8_t`,
  so a ring slot is a `Byte`.
-/

namespace UartEvent

/-! ## Data model -/

/-- One ring slot: `BUFTYPE` is `uint8_t`. -/
abbrev Byte := Fin 256

/-- The two compile-time capacities. -/
structure Config where
  TX_BUFFER_SIZE : Nat
  RX_BUFFER_SIZE : Nat

/-- The statics of `Uart2Event.cpp` together with the hardware state the
handlers read and write.

* `tx_CITER`, `tx_BITER`, `tx_enabled`: `tx.TCD->CITER` (the same register as
  `tx.TCD->CITER_ELINKNO`), `tx.TCD->BITER` and the enable bit set by
  `tx.enable()`.
  These registers are declared outside the source; `CITER` and `BITER` are
  16 bits wide, so every store into them goes through `reg16` (reduction
  modulo `2 ^ 16`) and the handler reads back what was stored.
* `tx_saddr`: ring index the transmit DMA channel reads next
  (`tx.sourceCircular( tx_buffer, TX_BUFFER_SIZE )`).
* `rx_elink`: the register `elink` points to, `rx.TCD->CITER_ELINKNO`.
* `rx_daddr`: ring index the receive DMA channel writes next
  (`rx.destinationCircular( rx_buffer+1, RX_BUFFER_SIZE )`).
* `transmit_pin`: `NULL` (`none`) or the pin whose output register it points
  to; `pin_output` is the level of each pin output register.
* `pending_UART1_ERROR`, `pending_UART1_STATUS`: the NVIC pending bits set by
  `NVIC_SET_PENDING`. -/
structure State where
  tx_buffer : Nat → Byte
  rx_buffer : Nat → Byte
  tx_buffer_head : Nat
  tx_buffer_tail : Nat
  tx_buffer_empty : Bool
  rx_buffer_head : Nat
  rx_buffer_tail : Nat
  transmitting : Bool
  transmit_pin : Option Nat
  pin_output : Nat → Bool
  rxTermCharacterTrigger : Int
  rxBufferSizeTrigger : Int
  tx_CITER : Nat
  tx_BITER : Nat
  tx_enabled : Bool
  tx_saddr : Nat
  rx_elink : Nat
  rx_enabled : Bool
  rx_daddr : Nat
  pending_UART1_ERROR : Bool
  pending_UART1_STATUS : Bool
  irq_UART1_STATUS_enabled : Bool
  SIM_SCGC7_DMA : Bool
  SIM_SCGC6_DMAMUX : Bool
  SIM_SCGC4_UART1 : Bool
  UART1_C5_dma : Bool

/-- Zero-initialised statics: the state before any function has run. The DMA
and DMAMUX clock gates are taken as enabled (the two static `DMAChannel`
objects exist), the UART clock gate as not yet enabled. -/
def init : State where
  tx_buffer := fun _ => 0
  rx_buffer := fun _ => 0
  tx_buffer_head := 0
  tx_buffer_tail := 0
  tx_buffer_empty := true
  rx_buffer_head := 0
  rx_buffer_tail := 0
  transmitting := false
  transmit_pin := none
  pin_output := fun _ => false
  rxTermCharacterTrigger := 0
  rxBufferSizeTrigger := 0
  tx_CITER := 0
  tx_BITER := 0
  tx_enabled := false
  tx_saddr := 0
  rx_elink := 0
  rx_enabled := false
  rx_daddr := 0
  pending_UART1_ERROR := false
  pending_UART1_STATUS := false
  irq_UART1_STATUS_enabled := false
  SIM_SCGC7_DMA := true
  SIM_SCGC6_DMAMUX := true
  SIM_SCGC4_UART1 := false
  UART1_C5_dma := false

/-! ## Machine arithmetic -/

/-- Addition of two `uint32_t` values. -/
def add32 (a b : Nat) : Nat := (a + b) % 4294967296

/-- Subtraction of two `uint32_t` values (wraps below zero). -/
def sub32 (a b : Nat) : Nat := (a % 4294967296 + 4294967296 - b % 4294967296) % 4294967296

/-- Store into `tx_buffer_head`/`tx_buffer_tail`: `uint16_t` when
`TX_BUFFER_SIZE > 255`, `uint8_t` otherwise. -/
def txIndex (cfg : Config) (v : Nat) : Nat :=
  if cfg.TX_BUFFER_SIZE > 255 then v % 65536 else v % 256

/-- Store into `rx_buffer_head`/`rx_buffer_tail`: `uint16_t` when
`RX_BUFFER_SIZE > 255`, `uint8_t` otherwise. -/
def rxIndex (cfg : Config) (v : Nat) : Nat :=
  if cfg.RX_BUFFER_SIZE > 255 then v % 65536 else v % 256

/-- Store into the 16-bit fields `CITER` and `BITER` of the transmit channel's
transfer control descriptor. -/
def reg16 (v : Nat) : Nat := v % 65536

/-- Modelled from the spec: `memcpy_fast` of `utility/memcpy.h`, which is not
among the sources; the write operation "copies bytes into the ring", so it is
a plain copy of `n` bytes from `src` to the slots `dst, dst+1, ..` of `mem`. -/
def memcpy_fast (mem : Nat → Byte) (dst : Nat) (src : Nat → Byte) (n : Nat) : Nat → Byte :=
  fun j => if dst ≤ j ∧ j < dst + n then src (j - dst) else mem j

/-! ## Transmit side -/

/-- Source function `Uart2Event::serial_dma_write_buffer_free` (the 32-bit value that is
returned as `int`). -/
def serial_dma_write_buffer_free (cfg : Config) (s : State) : Nat :=
  let head := s.tx_buffer_head
  let tail := s.tx_buffer_tail
  if head = tail ∧ s.tx_buffer_empty = false then 0
  else if head ≥ tail then add32 (sub32 cfg.TX_BUFFER_SIZE head) tail
  else sub32 tail head

/-- Source function `Uart2Event::serial_dma_write`; `buf` is the memory `buf` points to
(`buf i` is the byte at offset `i`), the result is the returned count and the
new state. `tx.TCD->CITER = tx.TCD->BITER = cnt` stores the 32-bit `cnt` into
the two 16-bit fields. -/
def serial_dma_write (cfg : Config) (s : State) (buf : Nat → Byte) (count : Nat) : Nat × State :=
  if count = 0 then (0, s)
  else
    let head := s.tx_buffer_head
    let free := serial_dma_write_buffer_free cfg s
    let cnt := if count > free then free else count
    let next := add32 head cnt
    let s1 : State :=
      if next ≥ cfg.TX_BUFFER_SIZE then
        let over := sub32 next cfg.TX_BUFFER_SIZE
        let under := sub32 cfg.TX_BUFFER_SIZE head
        { s with
          tx_buffer := memcpy_fast (memcpy_fast s.tx_buffer head buf under) 0
                         (fun i => buf (under + i)) over
          tx_buffer_head := txIndex cfg over }
      else
        { s with
          tx_buffer := memcpy_fast s.tx_buffer head buf cnt
          tx_buffer_head := txIndex cfg (add32 head cnt) }
    let s2 : State := { s1 with tx_buffer_empty := false }
    let s3 : State :=
      if s2.transmitting = false then
        { s2 with
          transmitting := true, tx_CITER := reg16 cnt, tx_BITER := reg16 cnt, tx_enabled := true }
      else s2
    (cnt, s3)

/-- Source function `Uart2Event::serial_dma_tx_isr`. `tx.clearInterrupt( )` and
the interrupt masking around the reprogramming touch nothing of the model and
are left out; `tx.TCD->CITER_ELINKNO` is the register `tx_CITER`, and
`tx.TCD->CITER = tx.TCD->BITER = size` stores `size` into the two 16-bit
fields. -/
def serial_dma_tx_isr (cfg : Config) (s : State) : State :=
  let head := s.tx_buffer_head
  let tail0 := s.tx_buffer_tail
  let ELINKNO := s.tx_CITER
  let tail :=
    if add32 tail0 ELINKNO ≥ cfg.TX_BUFFER_SIZE then add32 tail0 (sub32 ELINKNO cfg.TX_BUFFER_SIZE)
    else add32 tail0 ELINKNO
  let s1 : State := if tail = head then { s with tx_buffer_empty := true } else s
  let s2 : State :=
    if s1.tx_buffer_empty = false then
      let size :=
        if tail > head then add32 (sub32 cfg.TX_BUFFER_SIZE tail) head else sub32 head tail
      { s1 with
        transmitting := true, tx_CITER := reg16 size, tx_BITER := reg16 size, tx_enabled := true }
    else
      { s1 with transmitting := false, pending_UART1_ERROR := true }
  let s3 : State :=
    match s2.transmit_pin with
    | some p => { s2 with pin_output := fun q => if q = p then false else s2.pin_output q }
    | none => s2
  { s3 with tx_buffer_tail := txIndex cfg tail }

/-- Modelled from the spec: one completed transfer of the transmit DMA channel
(hardware, configured by `serial_dma_begin` with `disableOnCompletion`). When
the channel is enabled it emits the programmed number of bytes (`CITER`) from
the ring, starting at its read position and wrapping modulo the capacity,
disables itself and runs `serial_dma_tx_isr`. The result is the emitted bytes
and the new state. -/
def dma_tx_complete (cfg : Config) (s : State) : List Byte × State :=
  if s.tx_enabled = true then
    let out := (List.range s.tx_CITER).map
      (fun i => s.tx_buffer ((s.tx_saddr + i) % cfg.TX_BUFFER_SIZE))
    let s1 : State :=
      { s with tx_saddr := (s.tx_saddr + s.tx_CITER) % cfg.TX_BUFFER_SIZE, tx_enabled := false }
    (out, serial_dma_tx_isr cfg s1)
  else ([], s)

/-! ## Receive side -/

/-- The part of `Uart2Event::serial_dma_rx_isr` after the size trigger block
(source lines 146-156); `head` is the local variable of the handler. -/
def rx_isr_term (s1 : State) (head : Nat) (term_trigger : Int) : State :=
  if term_trigger ≠ -1 then
    let current : Int := ((s1.rx_buffer head).val : Int)
    let s2 : State :=
      if current = term_trigger then { s1 with pending_UART1_STATUS := true } else s1
    { s2 with rx_elink := 1 }
  else
    { s1 with pending_UART1_STATUS := true, rx_elink := 1 }

/-- Source function `Uart2Event::serial_dma_rx_isr`. `char current` is unsigned (ARM EABI, the
target of this driver), so it holds the slot value unchanged. -/
def serial_dma_rx_isr (cfg : Config) (s : State) : State :=
  let head := (add32 s.rx_buffer_head 1) &&& (cfg.RX_BUFFER_SIZE - 1)
  let s1 : State := { s with rx_buffer_head := rxIndex cfg head }
  let term_trigger := s1.rxTermCharacterTrigger
  let size_trigger := s1.rxBufferSizeTrigger
  if size_trigger ≠ -1 then
    let tail := s1.rx_buffer_tail
    let bufferFree : Nat :=
      if head ≥ tail then (sub32 head tail) % 65536
      else (sub32 (add32 cfg.RX_BUFFER_SIZE head) tail) % 65536
    if (bufferFree : Int) ≥ size_trigger then
      { s1 with pending_UART1_STATUS := true, rx_elink := 1 }
    else if term_trigger = -1 then
      { s1 with rx_elink := 1 }
    else rx_isr_term s1 head term_trigger
  else rx_isr_term s1 head term_trigger

/-- Source function `Uart2Event::serial_dma_available` (the 32-bit value that is returned). -/
def serial_dma_available (cfg : Config) (s : State) : Nat :=
  let head := s.rx_buffer_head
  let tail := s.rx_buffer_tail
  if head ≥ tail then sub32 head tail
  else sub32 (add32 cfg.RX_BUFFER_SIZE head) tail

/-- Source function `Uart2Event::serial_dma_getchar`: the returned `int` and the new state. -/
def serial_dma_getchar (cfg : Config) (s : State) : Int × State :=
  let head := s.rx_buffer_head
  let tail := s.rx_buffer_tail
  if head = tail then (-1, s)
  else
    let tail := (add32 tail 1) &&& (cfg.RX_BUFFER_SIZE - 1)
    let c : Int := ((s.rx_buffer tail).val : Int)
    (c, { s with rx_buffer_tail := rxIndex cfg tail })

/-- Source function `Uart2Event::serial_dma_peek`: the returned `int` and the (untouched)
state. -/
def serial_dma_peek (cfg : Config) (s : State) : Int × State :=
  let head := s.rx_buffer_head
  let tail := s.rx_buffer_tail
  if head = tail then (-1, s)
  else
    let tail := (add32 tail 1) &&& (cfg.RX_BUFFER_SIZE - 1)
    (((s.rx_buffer tail).val : Int), s)

/-- Source function `Uart2Event::serial_dma_clear`. -/
def serial_dma_clear (s : State) : State :=
  { s with rx_buffer_tail := s.rx_buffer_head }

/-- Source function `Uart2Event::serial_dma_begin`, restricted to the state of this model: the
UART clock gate, the DMA request enable (`UART1_C5`), the source position of
the transmit channel (`tx_buffer`), the destination position of the receive
channel (`rx_buffer+1`), `*elink = 1` and `rx.enable( )`. Pin routing, baud
divisor, FIFO watermarks, the UART control register `UART1_C2` (whose value
`C2_TX_INACTIVE` is defined outside the source) and interrupt priorities are
not part of the model. -/
def serial_dma_begin (s : State) : State :=
  { s with
    SIM_SCGC4_UART1 := true
    UART1_C5_dma := true
    tx_saddr := 0
    rx_daddr := 1
    irq_UART1_STATUS_enabled := true
    rx_elink := 1
    rx_enabled := true }

/-- Modelled from the spec: one byte received by the receive DMA channel
(hardware, configured by `serial_dma_begin` for continuous circular operation
with a reload count of one element). The engine stores the byte at its
destination position, advances that position modulo the capacity, and the
completion runs `serial_dma_rx_isr`. -/
def dma_rx_deliver (cfg : Config) (s : State) (b : Byte) : State :=
  let s1 : State :=
    { s with
      rx_buffer := fun j => if j = s.rx_daddr then b else s.rx_buffer j
      rx_daddr := (s.rx_daddr + 1) % cfg.RX_BUFFER_SIZE }
  serial_dma_rx_isr cfg s1

/-! ## Demonstration values -/

/-- Capacity 8 for both rings, the configuration of the scenarios. -/
def cfg8 : Config := { TX_BUFFER_SIZE := 8, RX_BUFFER_SIZE := 8 }

/-- The state `s` with the receive triggers set to size trigger `N` and
terminator `t` (`-1` disables either). -/
def withTriggers (N t : Int) (s : State) : State :=
  { s with rxBufferSizeTrigger := N, rxTermCharacterTrigger := t }

/-! ## Runs of the receive side -/

/-- A run of completions with no reads: the DMA engine delivers the bytes of
`bs` one after the other. -/
def rx_deliver_all (cfg : Config) (s : State) (bs : List Byte) : State :=
  bs.foldl (dma_rx_deliver cfg) s

/-- What can happen on the receive side: the DMA engine delivers a byte (and
the completion handler runs), or the application calls `serial_dma_getchar`,
`serial_dma_peek` or `serial_dma_clear`. -/
inductive RxEvent where
  | deliver (b : Byte)
  | getchar
  | peek
  | clear

/-- One receive-side event on the code: the new state and, for a read, the
value it returned. -/
def rxStep (cfg : Config) (s : State) : RxEvent → State × Option Int
  | RxEvent.deliver b => (dma_rx_deliver cfg s b, none)
  | RxEvent.getchar => ((serial_dma_getchar cfg s).2, some (serial_dma_getchar cfg s).1)
  | RxEvent.peek => ((serial_dma_peek cfg s).2, some (serial_dma_peek cfg s).1)
  | RxEvent.clear => (serial_dma_clear s, none)

/-- A sequence of receive-side events on the code: the final state and the
values returned by the reads, in order. -/
def rxRun (cfg : Config) : State → List RxEvent → State × List Int
  | s, [] => (s, [])
  | s, e :: es =>
    ((rxRun cfg (rxStep cfg s e).1 es).1,
     (rxStep cfg s e).2.toList ++ (rxRun cfg (rxStep cfg s e).1 es).2)

/-- Reference FIFO of unread bytes, oldest first: a delivery appends, `getchar`
removes and returns the oldest byte (or returns `-1` when there is none),
`peek` returns it without removing, `clear` drops everything. -/
def fifoStep (q : List Byte) : RxEvent → List Byte × Option Int
  | RxEvent.deliver b => (q ++ [b], none)
  | RxEvent.getchar =>
    match q with
    | [] => ([], some (-1))
    | x :: rest => (rest, some ((x.val : Nat) : Int))
  | RxEvent.peek =>
    match q with
    | [] => ([], some (-1))
    | x :: rest => (x :: rest, some ((x.val : Nat) : Int))
  | RxEvent.clear => ([], none)

/-- A sequence of events on the reference FIFO: the final queue and the values
returned by the reads, in order. -/
def fifoRun : List Byte → List RxEvent → List Byte × List Int
  | q, [] => (q, [])
  | q, e :: es =>
    ((fifoRun (fifoStep q e).1 es).1, (fifoStep q e).2.toList ++ (fifoRun (fifoStep q e).1 es).2)

/-- The number of unread bytes never exceeds `n` along the run. -/
def fifoBounded (n : Nat) : List Byte → List RxEvent → Prop
  | q, [] => q.length ≤ n
  | q, e :: es => q.length ≤ n ∧ fifoBounded n (fifoStep q e).1 es

/-- The receive ring `s` holds exactly the unread bytes `q`: tail is a ring
index, head is `q.length` positions after tail, the DMA engine writes next at
the slot after head, and the slots after tail hold `q` in order. -/
def RxHolds (cfg : Config) (s : State) (q : List Byte) : Prop :=
  s.rx_buffer_tail < cfg.RX_BUFFER_SIZE ∧
  q.length < cfg.RX_BUFFER_SIZE ∧
  s.rx_buffer_head = (s.rx_buffer_tail + q.length) % cfg.RX_BUFFER_SIZE ∧
  s.rx_daddr = (s.rx_buffer_head + 1) % cfg.RX_BUFFER_SIZE ∧
  q = (List.range q.length).map
        (fun i => s.rx_buffer ((s.rx_buffer_tail + 1 + i) % cfg.RX_BUFFER_SIZE))

/-- The receive indices agree with the DMA engine: head and tail are ring
indices and the engine writes next at the slot after head. -/
def RxSync (cfg : Config) (s : State) : Prop :=
  s.rx_buffer_tail < cfg.RX_BUFFER_SIZE ∧
  s.rx_buffer_head < cfg.RX_BUFFER_SIZE ∧
  s.rx_daddr = (s.rx_buffer_head + 1) % cfg.RX_BUFFER_SIZE

/-- Eight deliver-then-read cycles, delivering the bytes 1 to 8. -/
def eightCycles : List RxEvent :=
  [RxEvent.deliver 1, RxEvent.getchar, RxEvent.deliver 2, RxEvent.getchar,
   RxEvent.deliver 3, RxEvent.getchar, RxEvent.deliver 4, RxEvent.getchar,
   RxEvent.deliver 5, RxEvent.getchar, RxEvent.deliver 6, RxEvent.getchar,
   RxEvent.deliver 7, RxEvent.getchar, RxEvent.deliver 8, RxEvent.getchar]

/-! ## Runs of the transmit side -/

/-- What can happen on the transmit side: the application calls
`serial_dma_write`, or the DMA engine completes the programmed transfer. -/
inductive TxEvent where
  | write (buf : Nat → Byte) (count : Nat)
  | complete

/-- A transmit state together with the history of the run that led to it: the
bytes accepted by the writes so far (for each write the first returned-count
bytes of its buffer) and the bytes emitted by the DMA engine so far. -/
structure TxTrace where
  st : State
  accepted : List Byte
  emitted : List Byte

/-- One transmit-side event. -/
def txStep (cfg : Config) (t : TxTrace) : TxEvent → TxTrace
  | TxEvent.write buf count =>
    { st := (serial_dma_write cfg t.st buf count).2
      accepted := t.accepted ++ (List.range (serial_dma_write cfg t.st buf count).1).map buf
      emitted := t.emitted }
  | TxEvent.complete =>
    { st := (dma_tx_complete cfg t.st).2
      accepted := t.accepted
      emitted := t.emitted ++ (dma_tx_complete cfg t.st).1 }

/-- A sequence of transmit-side events. -/
def txRun (cfg : Config) (t : TxTrace) (evs : List TxEvent) : TxTrace :=
  evs.foldl (txStep cfg) t

/-- The run starts in the initial state with nothing accepted or emitted. -/
def txStart : TxTrace := { st := init, accepted := [], emitted := [] }

/-- The transmit ring `s` holds exactly the undrained bytes `q`, oldest first:
head and tail are ring indices, head is `q.length` positions after tail, the
empty flag and `transmitting` say whether `q` is empty, the DMA channel is
enabled exactly while transmitting, its programmed length is between 1 and
`q.length`, it reads next at tail, and the slots from tail on hold `q`. -/
def TxHolds (cfg : Config) (s : State) (q : List Byte) : Prop :=
  s.tx_buffer_head < cfg.TX_BUFFER_SIZE ∧
  s.tx_buffer_tail < cfg.TX_BUFFER_SIZE ∧
  q.length ≤ cfg.TX_BUFFER_SIZE ∧
  (s.tx_buffer_head = s.tx_buffer_tail + q.length ∨
    s.tx_buffer_head + cfg.TX_BUFFER_SIZE = s.tx_buffer_tail + q.length) ∧
  (s.tx_buffer_empty = true ↔ q.length = 0) ∧
  (s.transmitting = true ↔ q.length ≠ 0) ∧
  s.tx_enabled = s.transmitting ∧
  (s.transmitting = true → 1 ≤ s.tx_CITER ∧ s.tx_CITER ≤ q.length) ∧
  s.tx_saddr = s.tx_buffer_tail ∧
  q = (List.range q.length).map
        (fun i => s.tx_buffer ((s.tx_buffer_tail + i) % cfg.TX_BUFFER_SIZE))

/-- The run so far is consistent: the ring holds some byte sequence `q`, and
the accepted bytes are the emitted bytes followed by `q`. -/
def TxTraceOk (cfg : Config) (t : TxTrace) : Prop :=
  ∃ q : List Byte, TxHolds cfg t.st q ∧ t.accepted = t.emitted ++ q

/-- The indices of the transmit ring `s` describe `n` slots in use: head and
tail are ring indices, head is `n` positions after tail, the empty flag and
`transmitting` say whether `n` is zero, the DMA channel is enabled exactly
while transmitting, and its programmed length is at most `n` and is zero only
when all `TX_BUFFER_SIZE` slots are in use. Nothing is said about the content
of the slots. -/
def TxIdx (cfg : Config) (s : State) (n : Nat) : Prop :=
  s.tx_buffer_head < cfg.TX_BUFFER_SIZE ∧
  s.tx_buffer_tail < cfg.TX_BUFFER_SIZE ∧
  n ≤ cfg.TX_BUFFER_SIZE ∧
  (s.tx_buffer_head = s.tx_buffer_tail + n ∨
    s.tx_buffer_head + cfg.TX_BUFFER_SIZE = s.tx_buffer_tail + n) ∧
  (s.tx_buffer_empty = true ↔ n = 0) ∧
  (s.transmitting = true ↔ n ≠ 0) ∧
  s.tx_enabled = s.transmitting ∧
  (s.transmitting = true → s.tx_CITER ≤ n ∧ (s.tx_CITER = 0 → n = cfg.TX_BUFFER_SIZE))

/-- The bytes handed to a sequence of writes: for each write the first `count`
bytes of its buffer, concatenated in call order. -/
def written : List ((Nat → Byte) × Nat) → List Byte
  | [] => []
  | w :: ws => (List.range w.2).map w.1 ++ written ws

/-- The state after `n` DMA completions (what was emitted is not recorded). -/
def tx_completions (cfg : Config) : Nat → State → State
  | 0, s => s
  | n + 1, s => tx_completions cfg n (dma_tx_complete cfg s).2

/-- First loop of `Uart2Event::serial_dma_flush`:
`while ( serial_dma_write_buffer_free() != TX_BUFFER_SIZE ) yield();`.
Each `yield()` lets DMA completions run and nothing else: `sched` lists, for
the successive yields, how many completions run during each. The result is the
state on leaving the loop and the part of the schedule not used, or `none`
when the schedule ends while the loop is still waiting. -/
def flush_wait_free (cfg : Config) : List Nat → State → Option (State × List Nat)
  | [], s => if serial_dma_write_buffer_free cfg s ≠ cfg.TX_BUFFER_SIZE then none else some (s, [])
  | n :: sched, s =>
    if serial_dma_write_buffer_free cfg s ≠ cfg.TX_BUFFER_SIZE then
      flush_wait_free cfg sched (tx_completions cfg n s)
    else some (s, n :: sched)

/-- Second loop of `Uart2Event::serial_dma_flush`:
`while ( transmitting ) yield( );`, with the same model of `yield()`. -/
def flush_wait_idle (cfg : Config) : List Nat → State → Option (State × List Nat)
  | [], s => if s.transmitting = true then none else some (s, [])
  | n :: sched, s =>
    if s.transmitting = true then flush_wait_idle cfg sched (tx_completions cfg n s)
    else some (s, n :: sched)

/-- Source function `Uart2Event::serial_dma_flush`: the two waiting loops one after the other.
The result is the state in which flush returns and the unused part of the
schedule of yields, or `none` when flush is still waiting at the end of the
schedule. -/
def serial_dma_flush (cfg : Config) (sched : List Nat) (s : State) : Option (State × List Nat) :=
  match flush_wait_free cfg sched s with
  | none => none
  | some r => flush_wait_idle cfg r.2 r.1

/-- A buffer holding the bytes `A B C D E` (65 to 69) at offsets 0 to 4. -/
def bufABCDE : Nat → Byte := fun i => if i < 5 then ⟨65 + i % 5, by omega⟩ else 0

/-- Source function `Uart2Event::serial_dma_end`. The three clock-gate tests
return early; otherwise the receive notification vector is disabled, `flush( )`
(which is `serial_dma_flush`, with the same schedule of yields) waits for the
transmit ring to drain, the DMA requests are disabled (`UART1_C5`), and
`tx_buffer_head`, `tx_buffer_tail` and `tx_buffer_empty` are reset. Pin routing
and the UART control register `UART1_C2` are not part of the model. The result
is `none` when the flush is still waiting at the end of the schedule. -/
def serial_dma_end (cfg : Config) (sched : List Nat) (s : State) : Option (State × List Nat) :=
  if s.SIM_SCGC7_DMA = false then some (s, sched)
  else if s.SIM_SCGC6_DMAMUX = false then some (s, sched)
  else if s.SIM_SCGC4_UART1 = false then some (s, sched)
  else
    match serial_dma_flush cfg sched { s with irq_UART1_STATUS_enabled := false } with
    | none => none
    | some r =>
      some ({ r.1 with
              UART1_C5_dma := false
              tx_buffer_head := 0
              tx_buffer_tail := 0
              tx_buffer_empty := true }, r.2)

/-- Source function `Uart2Event::serial_dma_set_transmit_pin`:
`while ( transmitting ) yield();` (the loop `flush_wait_idle`), then the pin is
made an output and written low (`digitalWrite( pin, LOW )`), and
`transmit_pin` points to its output register. -/
def serial_dma_set_transmit_pin (cfg : Config) (sched : List Nat) (s : State) (pin : Nat) :
    Option (State × List Nat) :=
  match flush_wait_idle cfg sched s with
  | none => none
  | some r =>
    some ({ r.1 with
            pin_output := fun p => if p = pin then false else r.1.pin_output p
            transmit_pin := some pin }, r.2)

/-! ## Counting on the receive side -/

/-- Whether the event is a delivery by the DMA engine. -/
def isDelivery : RxEvent → Bool
  | RxEvent.deliver _ => true
  | _ => false

/-- Along a run of receive-side events from `s`: the number of completions and
the number of successful reads (calls of `serial_dma_getchar` that returned a
byte rather than `-1`). -/
def rxTally (cfg : Config) : State → List RxEvent → Nat × Nat
  | _, [] => (0, 0)
  | s, RxEvent.deliver b :: es =>
    ((rxTally cfg (dma_rx_deliver cfg s b) es).1 + 1, (rxTally cfg (dma_rx_deliver cfg s b) es).2)
  | s, RxEvent.getchar :: es =>
    ((rxTally cfg (serial_dma_getchar cfg s).2 es).1,
     (rxTally cfg (serial_dma_getchar cfg s).2 es).2
       + (if (serial_dma_getchar cfg s).1 = -1 then 0 else 1))
  | s, RxEvent.peek :: es => rxTally cfg (serial_dma_peek cfg s).2 es
  | s, RxEvent.clear :: es => rxTally cfg (serial_dma_clear s) es

/-- Whether the event is a call of `serial_dma_clear`. -/
def isClear : RxEvent → Bool
  | RxEvent.clear => true
  | _ => false

/-- Two writes on the transmit side, `A B C` and then `D E`, with no
completion between them. -/
def twoWriteEvents : List TxEvent :=
  [TxEvent.write bufABCDE 3, TxEvent.write (fun i => bufABCDE (3 + i)) 2]

/-! ## Arithmetic lemmas -/

theorem rx_size_pos (cfg : Config) (k : Nat) (hk : cfg.RX_BUFFER_SIZE = 2 ^ k) :
    0 < cfg.RX_BUFFER_SIZE := by
  rw [hk]; exact Nat.pos_pow_of_pos k (by decide)

theorem rx_size_le (cfg : Config) (k : Nat) (hk : cfg.RX_BUFFER_SIZE = 2 ^ k) (hk16 : k ≤ 16) :
    cfg.RX_BUFFER_SIZE ≤ 65536 := by
  rw [hk]
  calc 2 ^ k ≤ 2 ^ 16 := Nat.pow_le_pow_right (by decide) hk16
    _ = 65536 := by norm_num

theorem rx_mask (cfg : Config) (k : Nat) (hk : cfg.RX_BUFFER_SIZE = 2 ^ k) (hk16 : k ≤ 16)
    (x : Nat) : (add32 x 1) &&& (cfg.RX_BUFFER_SIZE - 1) = (x + 1) % cfg.RX_BUFFER_SIZE := by
  have hdvd : 2 ^ k ∣ 4294967296 := by
    have h32 : (4294967296 : Nat) = 2 ^ 32 := by norm_num
    rw [h32]
    exact pow_dvd_pow 2 (by omega)
  rw [hk, Nat.and_pow_two_sub_one_eq_mod]
  unfold add32
  exact Nat.mod_mod_of_dvd _ hdvd

theorem rxIndex_of_lt (cfg : Config) (k : Nat) (hk : cfg.RX_BUFFER_SIZE = 2 ^ k) (hk16 : k ≤ 16)
    (v : Nat) (hv : v < cfg.RX_BUFFER_SIZE) : rxIndex cfg v = v := by
  have hle := rx_size_le cfg k hk hk16
  unfold rxIndex
  split
  · exact Nat.mod_eq_of_lt (by omega)
  · exact Nat.mod_eq_of_lt (by omega)

theorem rx_next (cfg : Config) (k : Nat) (hk : cfg.RX_BUFFER_SIZE = 2 ^ k) (hk16 : k ≤ 16)
    (x : Nat) :
    rxIndex cfg ((add32 x 1) &&& (cfg.RX_BUFFER_SIZE - 1)) = (x + 1) % cfg.RX_BUFFER_SIZE := by
  rw [rx_mask cfg k hk hk16]
  exact rxIndex_of_lt cfg k hk hk16 _ (Nat.mod_lt _ (rx_size_pos cfg k hk))

/-! ## Receive side: reads -/

theorem getchar_eq (cfg : Config) (k : Nat) (hk : cfg.RX_BUFFER_SIZE = 2 ^ k) (hk16 : k ≤ 16)
    (s : State) :
    serial_dma_getchar cfg s =
      if s.rx_buffer_head = s.rx_buffer_tail then (-1, s)
      else (((s.rx_buffer ((s.rx_buffer_tail + 1) % cfg.RX_BUFFER_SIZE)).val : Int),
            { s with rx_buffer_tail := (s.rx_buffer_tail + 1) % cfg.RX_BUFFER_SIZE }) := by
  have hm := rx_mask cfg k hk hk16 s.rx_buffer_tail
  have hn := rx_next cfg k hk hk16 s.rx_buffer_tail
  unfold serial_dma_getchar
  simp only []
  rw [hn, hm]

theorem peek_eq (cfg : Config) (k : Nat) (hk : cfg.RX_BUFFER_SIZE = 2 ^ k) (hk16 : k ≤ 16)
    (s : State) :
    serial_dma_peek cfg s =
      if s.rx_buffer_head = s.rx_buffer_tail then (-1, s)
      else (((s.rx_buffer ((s.rx_buffer_tail + 1) % cfg.RX_BUFFER_SIZE)).val : Int), s) := by
  have hm := rx_mask cfg k hk hk16 s.rx_buffer_tail
  unfold serial_dma_peek
  simp only []
  rw [hm]

theorem peek_state (cfg : Config) (s : State) : (serial_dma_peek cfg s).2 = s := by
  unfold serial_dma_peek
  simp only []
  split <;> rfl

/-- C4. In every receive state `serial_dma_getchar` returns `-1` and leaves the
state unchanged exactly when head equals tail; otherwise it moves tail to
`(tail + 1) mod RX_BUFFER_SIZE` and returns the byte stored there, a value in
`0..255`, touching nothing else. `serial_dma_peek` returns the value the next
`serial_dma_getchar` would return and changes nothing. -/
theorem getchar_peek_spec (cfg : Config) (k : Nat) (hk : cfg.RX_BUFFER_SIZE = 2 ^ k)
    (hk16 : k ≤ 16) (s : State) :
    (((serial_dma_getchar cfg s).1 = -1 ∧ (serial_dma_getchar cfg s).2 = s)
        ↔ s.rx_buffer_head = s.rx_buffer_tail) ∧
    (s.rx_buffer_head ≠ s.rx_buffer_tail →
      (serial_dma_getchar cfg s).2
          = { s with rx_buffer_tail := (s.rx_buffer_tail + 1) % cfg.RX_BUFFER_SIZE } ∧
      (serial_dma_getchar cfg s).1
          = ((s.rx_buffer ((serial_dma_getchar cfg s).2.rx_buffer_tail)).val : Int) ∧
      0 ≤ (serial_dma_getchar cfg s).1 ∧ (serial_dma_getchar cfg s).1 ≤ 255) ∧
    (serial_dma_peek cfg s).1 = (serial_dma_getchar cfg s).1 ∧
    (serial_dma_peek cfg s).2 = s := by
  rw [getchar_eq cfg k hk hk16 s, peek_eq cfg k hk hk16 s]
  by_cases h : s.rx_buffer_head = s.rx_buffer_tail
  · simp [h]
  · have hb := (s.rx_buffer ((s.rx_buffer_tail + 1) % cfg.RX_BUFFER_SIZE)).isLt
    rw [if_neg h, if_neg h]
    refine ⟨?_, ?_, rfl, rfl⟩
    · constructor
      · rintro ⟨h1, -⟩
        simp only at h1
        omega
      · intro h2
        exact absurd h2 h
    · intro _
      refine ⟨rfl, rfl, ?_, ?_⟩
      · simp only
        omega
      · simp only
        omega

/-- C4, instance: capacity 8, head 2, tail 1, slot 2 holding 65. -/
theorem getchar_peek_spec_witness :
    (cfg8.RX_BUFFER_SIZE = 2 ^ 3 ∧ 3 ≤ 16) ∧
    (serial_dma_getchar cfg8
        { init with rx_buffer_head := 2, rx_buffer_tail := 1,
                    rx_buffer := fun j => if j = 2 then 65 else 0 }).1 = 65 ∧
    (serial_dma_peek cfg8
        { init with rx_buffer_head := 2, rx_buffer_tail := 1,
                    rx_buffer := fun j => if j = 2 then 65 else 0 }).1 = 65 := by
  have h := getchar_peek_spec cfg8 3 (by decide) (by decide)
    { init with rx_buffer_head := 2, rx_buffer_tail := 1,
                rx_buffer := fun j => if j = 2 then 65 else 0 }
  refine ⟨⟨by decide, by decide⟩, by decide, ?_⟩
  rw [h.2.2.1]
  decide

/-! ## Receive side: completion handler -/

theorem rx_bufferFree_eq (n h t : Nat) (hh : h < n) (ht : t < n) (hle : n ≤ 65536) :
    (((if h ≥ t then (sub32 h t) % 65536 else (sub32 (add32 n h) t) % 65536 : Nat)) : Int)
      = ((h : Int) - (t : Int)) % (n : Int) := by
  by_cases hc : h ≥ t
  · rw [if_pos hc]
    have h1 : (sub32 h t) % 65536 = h - t := by
      unfold sub32
      omega
    rw [h1, Int.emod_eq_of_lt (by omega) (by omega)]
    omega
  · rw [if_neg hc]
    have h1 : (sub32 (add32 n h) t) % 65536 = n + h - t := by
      unfold sub32 add32
      omega
    have h2 : ((h : Int) - (t : Int)) % (n : Int) = ((h : Int) - (t : Int) + (n : Int)) % (n : Int) := by
      rw [Int.add_emod_self]
    rw [h1, h2, Int.emod_eq_of_lt (by omega) (by omega)]
    omega

theorem rx_isr_frame (cfg : Config) (k : Nat) (hk : cfg.RX_BUFFER_SIZE = 2 ^ k) (hk16 : k ≤ 16)
    (s : State) :
    (serial_dma_rx_isr cfg s).rx_elink = 1 ∧
    (serial_dma_rx_isr cfg s).rx_buffer_head = (s.rx_buffer_head + 1) % cfg.RX_BUFFER_SIZE ∧
    (serial_dma_rx_isr cfg s).rx_buffer_tail = s.rx_buffer_tail ∧
    (serial_dma_rx_isr cfg s).rx_buffer = s.rx_buffer ∧
    (serial_dma_rx_isr cfg s).rx_daddr = s.rx_daddr ∧
    (serial_dma_rx_isr cfg s).rxBufferSizeTrigger = s.rxBufferSizeTrigger ∧
    (serial_dma_rx_isr cfg s).rxTermCharacterTrigger = s.rxTermCharacterTrigger := by
  have hn := rx_next cfg k hk hk16 s.rx_buffer_head
  unfold serial_dma_rx_isr rx_isr_term
  simp only []
  split_ifs <;> simp [hn]

/-- C9. Every run of `serial_dma_rx_isr`, on every path, ends with the reload
count register `*elink` equal to 1 and with the receive head advanced by one
position modulo `RX_BUFFER_SIZE`; tail and the buffer contents are unchanged. -/
theorem rx_isr_rearms (cfg : Config) (k : Nat) (hk : cfg.RX_BUFFER_SIZE = 2 ^ k)
    (hk16 : k ≤ 16) (s : State) :
    (serial_dma_rx_isr cfg s).rx_elink = 1 ∧
    (serial_dma_rx_isr cfg s).rx_buffer_head = (s.rx_buffer_head + 1) % cfg.RX_BUFFER_SIZE ∧
    (serial_dma_rx_isr cfg s).rx_buffer_tail = s.rx_buffer_tail ∧
    (serial_dma_rx_isr cfg s).rx_buffer = s.rx_buffer := by
  have h := rx_isr_frame cfg k hk hk16 s
  exact ⟨h.1, h.2.1, h.2.2.1, h.2.2.2.1⟩

/-- C9, instance: capacity 8, head 7 wraps to 0 and the register is re-armed
from 0 to 1, with size trigger 3 and terminator 10 configured. -/
theorem rx_isr_rearms_witness :
    (cfg8.RX_BUFFER_SIZE = 2 ^ 3 ∧ 3 ≤ 16) ∧
    (serial_dma_rx_isr cfg8 (withTriggers 3 10 { init with rx_buffer_head := 7 })).rx_elink = 1 ∧
    (serial_dma_rx_isr cfg8 (withTriggers 3 10 { init with rx_buffer_head := 7 })).rx_buffer_head
      = 0 :=
  ⟨⟨by decide, by decide⟩,
   (rx_isr_rearms cfg8 3 (by decide) (by decide)
      (withTriggers 3 10 { init with rx_buffer_head := 7 })).1,
   (rx_isr_rearms cfg8 3 (by decide) (by decide)
      (withTriggers 3 10 { init with rx_buffer_head := 7 })).2.1⟩

theorem rx_isr_pending (cfg : Config) (k : Nat) (hk : cfg.RX_BUFFER_SIZE = 2 ^ k)
    (hk16 : k ≤ 16) (s : State) (ht : s.rx_buffer_tail < cfg.RX_BUFFER_SIZE) :
    ((serial_dma_rx_isr cfg s).pending_UART1_STATUS = true ↔
      (s.pending_UART1_STATUS = true ∨
       (s.rxBufferSizeTrigger ≠ -1 ∧
          s.rxBufferSizeTrigger ≤
            ((((s.rx_buffer_head + 1) % cfg.RX_BUFFER_SIZE : Nat) : Int)
              - (s.rx_buffer_tail : Int)) % (cfg.RX_BUFFER_SIZE : Int)) ∨
       (s.rxTermCharacterTrigger ≠ -1 ∧
          ((s.rx_buffer ((s.rx_buffer_head + 1) % cfg.RX_BUFFER_SIZE)).val : Int)
            = s.rxTermCharacterTrigger) ∨
       (s.rxBufferSizeTrigger = -1 ∧ s.rxTermCharacterTrigger = -1))) := by
  have hm := rx_mask cfg k hk hk16 s.rx_buffer_head
  have hpos := rx_size_pos cfg k hk
  have hlt : (s.rx_buffer_head + 1) % cfg.RX_BUFFER_SIZE < cfg.RX_BUFFER_SIZE := Nat.mod_lt _ hpos
  have hbf := rx_bufferFree_eq cfg.RX_BUFFER_SIZE ((s.rx_buffer_head + 1) % cfg.RX_BUFFER_SIZE)
    s.rx_buffer_tail hlt ht (rx_size_le cfg k hk hk16)
  unfold serial_dma_rx_isr rx_isr_term
  simp only []
  rw [hm, hbf]
  split_ifs <;> simp_all

/-- C6. One run of `serial_dma_rx_isr`, started with the data-ready bit
(`IRQ_UART1_STATUS` pending) clear, sets it exactly when the size trigger `N`
is active and the occupied count `(new head - tail) mod RX_BUFFER_SIZE` is at
least `N`, or the terminator `t` is active and the byte at the new head equals
`t`, or both are disabled. With both disabled every completion notifies; with
both configured a met size threshold notifies whatever the byte is, and the
terminator decides only when the threshold is not met. -/
theorem rx_isr_notifies (cfg : Config) (k : Nat) (hk : cfg.RX_BUFFER_SIZE = 2 ^ k)
    (hk16 : k ≤ 16) (s : State) (ht : s.rx_buffer_tail < cfg.RX_BUFFER_SIZE)
    (hp : s.pending_UART1_STATUS = false) :
    ((serial_dma_rx_isr cfg s).pending_UART1_STATUS = true ↔
       ((s.rxBufferSizeTrigger ≠ -1 ∧
          s.rxBufferSizeTrigger ≤
            ((((s.rx_buffer_head + 1) % cfg.RX_BUFFER_SIZE : Nat) : Int)
              - (s.rx_buffer_tail : Int)) % (cfg.RX_BUFFER_SIZE : Int)) ∨
        (s.rxTermCharacterTrigger ≠ -1 ∧
          ((s.rx_buffer ((s.rx_buffer_head + 1) % cfg.RX_BUFFER_SIZE)).val : Int)
            = s.rxTermCharacterTrigger) ∨
        (s.rxBufferSizeTrigger = -1 ∧ s.rxTermCharacterTrigger = -1))) ∧
    (s.rxBufferSizeTrigger = -1 → s.rxTermCharacterTrigger = -1 →
       (serial_dma_rx_isr cfg s).pending_UART1_STATUS = true) ∧
    (s.rxBufferSizeTrigger ≠ -1 →
       s.rxBufferSizeTrigger ≤
            ((((s.rx_buffer_head + 1) % cfg.RX_BUFFER_SIZE : Nat) : Int)
              - (s.rx_buffer_tail : Int)) % (cfg.RX_BUFFER_SIZE : Int) →
       (serial_dma_rx_isr cfg s).pending_UART1_STATUS = true) ∧
    (s.rxBufferSizeTrigger ≠ -1 → s.rxTermCharacterTrigger ≠ -1 →
       ((((s.rx_buffer_head + 1) % cfg.RX_BUFFER_SIZE : Nat) : Int)
              - (s.rx_buffer_tail : Int)) % (cfg.RX_BUFFER_SIZE : Int) < s.rxBufferSizeTrigger →
       ((serial_dma_rx_isr cfg s).pending_UART1_STATUS = true ↔
          ((s.rx_buffer ((s.rx_buffer_head + 1) % cfg.RX_BUFFER_SIZE)).val : Int)
            = s.rxTermCharacterTrigger)) := by
  have h := rx_isr_pending cfg k hk hk16 s ht
  rw [hp] at h
  simp only [Bool.false_eq_true, false_or] at h
  refine ⟨h, ?_, ?_, ?_⟩
  · intro h1 h2
    exact h.mpr (Or.inr (Or.inr ⟨h1, h2⟩))
  · intro h1 h2
    exact h.mpr (Or.inl ⟨h1, h2⟩)
  · intro h1 h2 h3
    rw [h]
    constructor
    · rintro (⟨-, h4⟩ | ⟨-, h4⟩ | ⟨h4, -⟩)
      · omega
      · exact h4
      · exact absurd h4 h1
    · intro h4
      exact Or.inr (Or.inl ⟨h2, h4⟩)

/-- C6, instance: capacity 8, size trigger 3 and terminator 10 configured,
head 0, tail 0, slot 1 holding 10: the occupied count 1 is below 3 and the
terminator match raises the notification. -/
theorem rx_isr_notifies_witness :
    (cfg8.RX_BUFFER_SIZE = 2 ^ 3 ∧ 3 ≤ 16 ∧
      (withTriggers 3 10 { init with rx_buffer := fun j => if j = 1 then 10 else 0 }).rx_buffer_tail
        < cfg8.RX_BUFFER_SIZE ∧
      (withTriggers 3 10
        { init with rx_buffer := fun j => if j = 1 then 10 else 0 }).pending_UART1_STATUS = false) ∧
    (serial_dma_rx_isr cfg8
      (withTriggers 3 10
        { init with rx_buffer := fun j => if j = 1 then 10 else 0 })).pending_UART1_STATUS
      = true :=
  ⟨⟨by decide, by decide, by decide, rfl⟩,
   ((rx_isr_notifies cfg8 3 (by decide) (by decide)
      (withTriggers 3 10 { init with rx_buffer := fun j => if j = 1 then 10 else 0 })
      (by decide) rfl).2.2.2 (by decide) (by decide) (by decide)).mpr (by decide)⟩

/-! ## Receive side: runs of completions -/

theorem int_occ_mod (n h0 m : Nat) :
    ((((h0 + m) % n : Nat) : Int) - (h0 : Int)) % (n : Int) = ((m : Nat) : Int) % (n : Int) := by
  rw [Int.natCast_mod, Int.sub_emod, Int.emod_emod, ← Int.sub_emod]
  congr 1
  push_cast
  ring

theorem rx_deliver_frame (cfg : Config) (k : Nat) (hk : cfg.RX_BUFFER_SIZE = 2 ^ k)
    (hk16 : k ≤ 16) (s : State) (b : Byte) :
    (dma_rx_deliver cfg s b).rx_buffer_head = (s.rx_buffer_head + 1) % cfg.RX_BUFFER_SIZE ∧
    (dma_rx_deliver cfg s b).rx_buffer_tail = s.rx_buffer_tail ∧
    (dma_rx_deliver cfg s b).rx_buffer = (fun j => if j = s.rx_daddr then b else s.rx_buffer j) ∧
    (dma_rx_deliver cfg s b).rx_daddr = (s.rx_daddr + 1) % cfg.RX_BUFFER_SIZE ∧
    (dma_rx_deliver cfg s b).rxBufferSizeTrigger = s.rxBufferSizeTrigger ∧
    (dma_rx_deliver cfg s b).rxTermCharacterTrigger = s.rxTermCharacterTrigger ∧
    (dma_rx_deliver cfg s b).rx_elink = 1 := by
  unfold dma_rx_deliver
  simp only []
  have h := rx_isr_frame cfg k hk hk16
    { s with
      rx_buffer := fun j => if j = s.rx_daddr then b else s.rx_buffer j
      rx_daddr := (s.rx_daddr + 1) % cfg.RX_BUFFER_SIZE }
  exact ⟨h.2.1, h.2.2.1, h.2.2.2.1, h.2.2.2.2.1, h.2.2.2.2.2.1, h.2.2.2.2.2.2, h.1⟩

theorem rx_deliver_all_snoc (cfg : Config) (s : State) (bs : List Byte) (b : Byte) :
    rx_deliver_all cfg s (bs ++ [b]) = dma_rx_deliver cfg (rx_deliver_all cfg s bs) b := by
  unfold rx_deliver_all
  rw [List.foldl_append]
  rfl

theorem rx_deliver_all_frame (cfg : Config) (k : Nat) (hk : cfg.RX_BUFFER_SIZE = 2 ^ k)
    (hk16 : k ≤ 16) (s : State) (bs : List Byte) :
    (rx_deliver_all cfg s bs).rx_buffer_head
      = (s.rx_buffer_head + bs.length) % cfg.RX_BUFFER_SIZE ∨
      (bs = [] ∧ (rx_deliver_all cfg s bs).rx_buffer_head = s.rx_buffer_head) := by
  induction bs using List.reverseRecOn with
  | nil => right; exact ⟨rfl, rfl⟩
  | append_singleton bs b ih =>
    left
    rw [rx_deliver_all_snoc, (rx_deliver_frame cfg k hk hk16 _ b).1]
    rcases ih with ih | ⟨h1, h2⟩
    · rw [ih, Nat.mod_add_mod, List.length_append, List.length_singleton, Nat.add_assoc]
    · rw [h2, h1]
      rfl

theorem rx_deliver_all_keeps (cfg : Config) (k : Nat) (hk : cfg.RX_BUFFER_SIZE = 2 ^ k)
    (hk16 : k ≤ 16) (s : State) (bs : List Byte) :
    (rx_deliver_all cfg s bs).rx_buffer_tail = s.rx_buffer_tail ∧
    (rx_deliver_all cfg s bs).rxBufferSizeTrigger = s.rxBufferSizeTrigger ∧
    (rx_deliver_all cfg s bs).rxTermCharacterTrigger = s.rxTermCharacterTrigger := by
  induction bs using List.reverseRecOn with
  | nil => exact ⟨rfl, rfl, rfl⟩
  | append_singleton bs b ih =>
    have h := rx_deliver_frame cfg k hk hk16 (rx_deliver_all cfg s bs) b
    rw [rx_deliver_all_snoc, h.2.1, h.2.2.2.2.1, h.2.2.2.2.2.1]
    exact ih

theorem rx_deliver_pending (cfg : Config) (k : Nat) (hk : cfg.RX_BUFFER_SIZE = 2 ^ k)
    (hk16 : k ≤ 16) (s : State) (b : Byte) (ht : s.rx_buffer_tail < cfg.RX_BUFFER_SIZE) :
    ((dma_rx_deliver cfg s b).pending_UART1_STATUS = true ↔
      (s.pending_UART1_STATUS = true ∨
       (s.rxBufferSizeTrigger ≠ -1 ∧
          s.rxBufferSizeTrigger ≤
            ((((s.rx_buffer_head + 1) % cfg.RX_BUFFER_SIZE : Nat) : Int)
              - (s.rx_buffer_tail : Int)) % (cfg.RX_BUFFER_SIZE : Int)) ∨
       (s.rxTermCharacterTrigger ≠ -1 ∧
          (((if (s.rx_buffer_head + 1) % cfg.RX_BUFFER_SIZE = s.rx_daddr then b
             else s.rx_buffer ((s.rx_buffer_head + 1) % cfg.RX_BUFFER_SIZE)).val : Nat) : Int)
            = s.rxTermCharacterTrigger) ∨
       (s.rxBufferSizeTrigger = -1 ∧ s.rxTermCharacterTrigger = -1))) := by
  unfold dma_rx_deliver
  simp only []
  exact rx_isr_pending cfg k hk hk16
    { s with
      rx_buffer := fun j => if j = s.rx_daddr then b else s.rx_buffer j
      rx_daddr := (s.rx_daddr + 1) % cfg.RX_BUFFER_SIZE } ht

theorem rx_run_occ (cfg : Config) (k : Nat) (hk : cfg.RX_BUFFER_SIZE = 2 ^ k) (hk16 : k ≤ 16)
    (s : State) (bs : List Byte) (heq : s.rx_buffer_head = s.rx_buffer_tail)
    (hl : bs.length + 1 < cfg.RX_BUFFER_SIZE) :
    (((((rx_deliver_all cfg s bs).rx_buffer_head + 1) % cfg.RX_BUFFER_SIZE : Nat) : Int)
        - ((rx_deliver_all cfg s bs).rx_buffer_tail : Int)) % (cfg.RX_BUFFER_SIZE : Int)
      = ((bs.length + 1 : Nat) : Int) := by
  have hmod : (((bs.length + 1 : Nat) : Int)) % (cfg.RX_BUFFER_SIZE : Int)
      = ((bs.length + 1 : Nat) : Int) := Int.emod_eq_of_lt (by omega) (by omega)
  rw [(rx_deliver_all_keeps cfg k hk hk16 s bs).1]
  rcases rx_deliver_all_frame cfg k hk hk16 s bs with h | ⟨h1, h2⟩
  · rw [h, Nat.mod_add_mod, Nat.add_assoc, heq, int_occ_mod, hmod]
  · subst h1
    rw [h2, heq, int_occ_mod]
    exact hmod

theorem rx_run_quiet (cfg : Config) (k : Nat) (hk : cfg.RX_BUFFER_SIZE = 2 ^ k) (hk16 : k ≤ 16)
    (s : State) (ht : s.rx_buffer_tail < cfg.RX_BUFFER_SIZE)
    (hp : s.pending_UART1_STATUS = false) (hN : s.rxBufferSizeTrigger ≠ -1)
    (hT : s.rxTermCharacterTrigger = -1) (heq : s.rx_buffer_head = s.rx_buffer_tail)
    (bs : List Byte) (hl : bs.length < cfg.RX_BUFFER_SIZE)
    (hb : (bs.length : Int) < s.rxBufferSizeTrigger) :
    (rx_deliver_all cfg s bs).pending_UART1_STATUS = false := by
  induction bs using List.reverseRecOn with
  | nil => exact hp
  | append_singleton bs b ih =>
    rw [List.length_append, List.length_singleton] at hl hb
    have ih1 := ih (by omega) (by push_cast at hb; omega)
    have hkeep := rx_deliver_all_keeps cfg k hk hk16 s bs
    have hocc := rx_run_occ cfg k hk hk16 s bs heq hl
    have hpend := rx_deliver_pending cfg k hk hk16 (rx_deliver_all cfg s bs) b
      (by rw [hkeep.1]; exact ht)
    rw [hocc, hkeep.2.1, hkeep.2.2, ih1, hT] at hpend
    rw [rx_deliver_all_snoc]
    by_contra hc
    have hc1 : (dma_rx_deliver cfg (rx_deliver_all cfg s bs) b).pending_UART1_STATUS = true := by
      simpa using hc
    rcases hpend.mp hc1 with h | ⟨-, h⟩ | ⟨h, -⟩ | ⟨h, -⟩
    · exact absurd h (by decide)
    · omega
    · exact h rfl
    · exact hN h

theorem rx_run_fires (cfg : Config) (k : Nat) (hk : cfg.RX_BUFFER_SIZE = 2 ^ k) (hk16 : k ≤ 16)
    (s : State) (ht : s.rx_buffer_tail < cfg.RX_BUFFER_SIZE)
    (hN : s.rxBufferSizeTrigger ≠ -1)
    (heq : s.rx_buffer_head = s.rx_buffer_tail)
    (bs : List Byte) (hne : bs ≠ []) (hl : bs.length < cfg.RX_BUFFER_SIZE)
    (hb : (bs.length : Int) = s.rxBufferSizeTrigger) :
    (rx_deliver_all cfg s bs).pending_UART1_STATUS = true := by
  induction bs using List.reverseRecOn with
  | nil => exact absurd rfl hne
  | append_singleton bs b _ =>
    rw [List.length_append, List.length_singleton] at hl hb
    have hkeep := rx_deliver_all_keeps cfg k hk hk16 s bs
    have hocc := rx_run_occ cfg k hk hk16 s bs heq hl
    have hpend := rx_deliver_pending cfg k hk hk16 (rx_deliver_all cfg s bs) b
      (by rw [hkeep.1]; exact ht)
    rw [hocc, hkeep.2.1, hkeep.2.2] at hpend
    rw [rx_deliver_all_snoc]
    exact hpend.mpr (Or.inr (Or.inl ⟨hN, by omega⟩))

/-- C7. With a size trigger `N` (not `-1`) and the terminator disabled, a
completion started with the data-ready bit clear raises the notification
exactly when the occupied count after it, `(head - tail) mod RX_BUFFER_SIZE`,
is at least `N`, and leaves the bit clear when the count is below `N`. In a run
of completions with no reads from an empty ring nothing is raised while the
number of delivered bytes (the occupied count) is below `N`, and the completion
that brings it to `N` raises the notification. -/
theorem size_trigger_alone (cfg : Config) (k : Nat) (hk : cfg.RX_BUFFER_SIZE = 2 ^ k)
    (hk16 : k ≤ 16) (s : State) (ht : s.rx_buffer_tail < cfg.RX_BUFFER_SIZE)
    (hp : s.pending_UART1_STATUS = false) (hN : s.rxBufferSizeTrigger ≠ -1)
    (hT : s.rxTermCharacterTrigger = -1) :
    ((serial_dma_rx_isr cfg s).pending_UART1_STATUS = true ↔
       s.rxBufferSizeTrigger ≤
         ((((s.rx_buffer_head + 1) % cfg.RX_BUFFER_SIZE : Nat) : Int)
            - (s.rx_buffer_tail : Int)) % (cfg.RX_BUFFER_SIZE : Int)) ∧
    (((((s.rx_buffer_head + 1) % cfg.RX_BUFFER_SIZE : Nat) : Int)
            - (s.rx_buffer_tail : Int)) % (cfg.RX_BUFFER_SIZE : Int) < s.rxBufferSizeTrigger →
       (serial_dma_rx_isr cfg s).pending_UART1_STATUS = false) ∧
    (s.rx_buffer_head = s.rx_buffer_tail →
       ∀ bs : List Byte, bs.length < cfg.RX_BUFFER_SIZE →
         (bs.length : Int) < s.rxBufferSizeTrigger →
         (rx_deliver_all cfg s bs).pending_UART1_STATUS = false) ∧
    (s.rx_buffer_head = s.rx_buffer_tail →
       ∀ bs : List Byte, bs ≠ [] → bs.length < cfg.RX_BUFFER_SIZE →
         (bs.length : Int) = s.rxBufferSizeTrigger →
         (rx_deliver_all cfg s bs).pending_UART1_STATUS = true) := by
  have h := rx_isr_pending cfg k hk hk16 s ht
  rw [hp, hT] at h
  have hiff : (serial_dma_rx_isr cfg s).pending_UART1_STATUS = true ↔
       s.rxBufferSizeTrigger ≤
         ((((s.rx_buffer_head + 1) % cfg.RX_BUFFER_SIZE : Nat) : Int)
            - (s.rx_buffer_tail : Int)) % (cfg.RX_BUFFER_SIZE : Int) := by
    rw [h]
    constructor
    · rintro (h1 | ⟨-, h1⟩ | ⟨h1, -⟩ | ⟨h1, -⟩)
      · exact absurd h1 (by decide)
      · exact h1
      · exact absurd rfl h1
      · exact absurd h1 hN
    · intro h1
      exact Or.inr (Or.inl ⟨hN, h1⟩)
  refine ⟨hiff, ?_, ?_, ?_⟩
  · intro hlt
    by_contra hc
    have hc1 : (serial_dma_rx_isr cfg s).pending_UART1_STATUS = true := by simpa using hc
    have := hiff.mp hc1
    omega
  · intro heq bs hl hb
    exact rx_run_quiet cfg k hk hk16 s ht hp hN hT heq bs hl hb
  · intro heq bs hne hl hb
    exact rx_run_fires cfg k hk hk16 s ht hN heq bs hne hl hb

/-- C7, instance: capacity 8, size trigger 3, terminator disabled, empty ring
at index 0: two deliveries raise nothing, the third raises the notification. -/
theorem size_trigger_alone_witness :
    (cfg8.RX_BUFFER_SIZE = 2 ^ 3 ∧ 3 ≤ 16 ∧
      (withTriggers 3 (-1) (serial_dma_begin init)).rx_buffer_tail < cfg8.RX_BUFFER_SIZE ∧
      (withTriggers 3 (-1) (serial_dma_begin init)).pending_UART1_STATUS = false ∧
      (withTriggers 3 (-1) (serial_dma_begin init)).rxBufferSizeTrigger ≠ -1 ∧
      (withTriggers 3 (-1) (serial_dma_begin init)).rxTermCharacterTrigger = -1) ∧
    (rx_deliver_all cfg8 (withTriggers 3 (-1) (serial_dma_begin init))
        [1, 2]).pending_UART1_STATUS = false ∧
    (rx_deliver_all cfg8 (withTriggers 3 (-1) (serial_dma_begin init))
        [1, 2, 3]).pending_UART1_STATUS = true :=
  ⟨⟨by decide, by decide, by decide, rfl, by decide, rfl⟩,
   (size_trigger_alone cfg8 3 (by decide) (by decide)
      (withTriggers 3 (-1) (serial_dma_begin init)) (by decide) rfl (by decide) rfl).2.2.1
      rfl [1, 2] (by decide) (by decide),
   (size_trigger_alone cfg8 3 (by decide) (by decide)
      (withTriggers 3 (-1) (serial_dma_begin init)) (by decide) rfl (by decide) rfl).2.2.2
      rfl [1, 2, 3] (by decide) (by decide) (by decide)⟩

/-! ## Receive side: the ring is a FIFO -/

theorem mod_inj_of_lt (n a b : Nat) (hab : a ≤ b) (hlt : b < a + n)
    (h : a % n = b % n) : a = b := by
  have h0 : (b - a) % n = 0 := Nat.sub_mod_eq_zero_of_mod_eq h.symm
  have h1 : (b - a) % n = b - a := Nat.mod_eq_of_lt (by omega)
  omega

theorem rxHolds_begin (cfg : Config) (k : Nat) (hk : cfg.RX_BUFFER_SIZE = 2 ^ k) (hk1 : 1 ≤ k)
    (N t : Int) : RxHolds cfg (withTriggers N t (serial_dma_begin init)) [] := by
  have h2 : 2 ≤ cfg.RX_BUFFER_SIZE := by
    rw [hk]
    calc 2 = 2 ^ 1 := by norm_num
      _ ≤ 2 ^ k := Nat.pow_le_pow_right (by decide) hk1
  refine ⟨?_, ?_, ?_, ?_, ?_⟩
  · show 0 < cfg.RX_BUFFER_SIZE
    omega
  · show 0 < cfg.RX_BUFFER_SIZE
    omega
  · show 0 = (0 + 0) % cfg.RX_BUFFER_SIZE
    simp
  · show 1 = (0 + 1) % cfg.RX_BUFFER_SIZE
    rw [Nat.mod_eq_of_lt (by omega)]
  · rfl

theorem rxHolds_deliver (cfg : Config) (k : Nat) (hk : cfg.RX_BUFFER_SIZE = 2 ^ k)
    (hk16 : k ≤ 16) (s : State) (q : List Byte) (b : Byte) (h : RxHolds cfg s q)
    (hroom : q.length + 1 < cfg.RX_BUFFER_SIZE) :
    RxHolds cfg (dma_rx_deliver cfg s b) (q ++ [b]) := by
  obtain ⟨ht, _, hh, hd, hq⟩ := h
  have hf := rx_deliver_frame cfg k hk hk16 s b
  have hdaddr : s.rx_daddr = (s.rx_buffer_tail + 1 + q.length) % cfg.RX_BUFFER_SIZE := by
    rw [hd, hh, Nat.mod_add_mod]
    congr 1
    omega
  refine ⟨?_, ?_, ?_, ?_, ?_⟩
  · rw [hf.2.1]; exact ht
  · rw [List.length_append, List.length_singleton]; exact hroom
  · rw [hf.1, hf.2.1, hh, Nat.mod_add_mod, List.length_append, List.length_singleton,
      Nat.add_assoc]
  · rw [hf.2.2.2.1, hf.1, hd]
  · rw [hf.2.2.1, hf.2.1, List.length_append, List.length_singleton, List.range_succ,
      List.map_append, List.map_singleton]
    congr 1
    · nth_rewrite 1 [hq]
      apply List.map_congr_left
      intro i hi
      rw [List.mem_range] at hi
      have hne : (s.rx_buffer_tail + 1 + i) % cfg.RX_BUFFER_SIZE ≠ s.rx_daddr := by
        rw [hdaddr]
        intro hc
        have := mod_inj_of_lt cfg.RX_BUFFER_SIZE (s.rx_buffer_tail + 1 + i)
          (s.rx_buffer_tail + 1 + q.length) (by omega) (by omega) hc
        omega
      simp only [hne, if_false]
    · simp only [hdaddr, if_true]

theorem rx_empty_iff (cfg : Config) (s : State) (q : List Byte) (h : RxHolds cfg s q) :
    s.rx_buffer_head = s.rx_buffer_tail ↔ q = [] := by
  obtain ⟨ht, hl, hh, _, _⟩ := h
  constructor
  · intro heq
    rw [hh] at heq
    have h1 : s.rx_buffer_tail % cfg.RX_BUFFER_SIZE = s.rx_buffer_tail := Nat.mod_eq_of_lt ht
    have := mod_inj_of_lt cfg.RX_BUFFER_SIZE s.rx_buffer_tail (s.rx_buffer_tail + q.length)
      (by omega) (by omega) (by rw [h1, heq])
    exact List.length_eq_zero.mp (by omega)
  · intro hq
    rw [hh, hq, List.length_nil, Nat.add_zero, Nat.mod_eq_of_lt ht]

theorem rxHolds_getchar (cfg : Config) (k : Nat) (hk : cfg.RX_BUFFER_SIZE = 2 ^ k)
    (hk16 : k ≤ 16) (s : State) (x : Byte) (q : List Byte) (h : RxHolds cfg s (x :: q)) :
    (serial_dma_getchar cfg s).1 = ((x.val : Nat) : Int) ∧
    (serial_dma_peek cfg s).1 = ((x.val : Nat) : Int) ∧
    RxHolds cfg (serial_dma_getchar cfg s).2 q := by
  have hne : ¬ s.rx_buffer_head = s.rx_buffer_tail := by
    rw [rx_empty_iff cfg s (x :: q) h]
    exact List.cons_ne_nil x q
  obtain ⟨_, hl, hh, hd, hq⟩ := h
  have hpos := rx_size_pos cfg k hk
  rw [getchar_eq cfg k hk hk16 s, peek_eq cfg k hk hk16 s, if_neg hne, if_neg hne]
  rw [List.length_cons] at hl hh hq
  rw [List.range_succ_eq_map, List.map_cons, List.map_map] at hq
  have hx := (List.cons.inj hq).1
  have hrest := (List.cons.inj hq).2
  refine ⟨?_, ?_, ?_, ?_, ?_, ?_, ?_⟩
  · show (((s.rx_buffer ((s.rx_buffer_tail + 1) % cfg.RX_BUFFER_SIZE)).val : Nat) : Int) = _
    rw [hx]
  · show (((s.rx_buffer ((s.rx_buffer_tail + 1) % cfg.RX_BUFFER_SIZE)).val : Nat) : Int) = _
    rw [hx]
  · exact Nat.mod_lt _ hpos
  · omega
  · show s.rx_buffer_head = ((s.rx_buffer_tail + 1) % cfg.RX_BUFFER_SIZE + q.length)
        % cfg.RX_BUFFER_SIZE
    rw [hh, Nat.mod_add_mod]
    congr 1
    omega
  · exact hd
  · show q = (List.range q.length).map
        (fun i => s.rx_buffer (((s.rx_buffer_tail + 1) % cfg.RX_BUFFER_SIZE + 1 + i)
          % cfg.RX_BUFFER_SIZE))
    nth_rewrite 1 [hrest]
    apply List.map_congr_left
    intro i _
    show s.rx_buffer ((s.rx_buffer_tail + 1 + (i + 1)) % cfg.RX_BUFFER_SIZE) = _
    congr 1
    rw [Nat.add_assoc ((s.rx_buffer_tail + 1) % cfg.RX_BUFFER_SIZE), Nat.mod_add_mod]
    congr 1
    omega

theorem rxHolds_step (cfg : Config) (k : Nat) (hk : cfg.RX_BUFFER_SIZE = 2 ^ k)
    (hk16 : k ≤ 16) (s : State) (q : List Byte) (e : RxEvent) (h : RxHolds cfg s q)
    (hroom : (fifoStep q e).1.length < cfg.RX_BUFFER_SIZE) :
    RxHolds cfg (rxStep cfg s e).1 (fifoStep q e).1 ∧ (rxStep cfg s e).2 = (fifoStep q e).2 := by
  cases e with
  | deliver b =>
    refine ⟨rxHolds_deliver cfg k hk hk16 s q b h ?_, rfl⟩
    simpa [fifoStep] using hroom
  | getchar =>
    cases q with
    | nil =>
      have he := (rx_empty_iff cfg s [] h).mpr rfl
      have hg : serial_dma_getchar cfg s = (-1, s) := by
        rw [getchar_eq cfg k hk hk16 s, if_pos he]
      simp only [rxStep, fifoStep, hg]
      exact ⟨h, trivial⟩
    | cons x q =>
      have hg := rxHolds_getchar cfg k hk hk16 s x q h
      simp only [rxStep, fifoStep, hg.1]
      exact ⟨hg.2.2, trivial⟩
  | peek =>
    have hp2 : (serial_dma_peek cfg s).2 = s := peek_state cfg s
    cases q with
    | nil =>
      have he := (rx_empty_iff cfg s [] h).mpr rfl
      have hg : serial_dma_peek cfg s = (-1, s) := by
        rw [peek_eq cfg k hk hk16 s, if_pos he]
      simp only [rxStep, fifoStep, hg]
      exact ⟨h, trivial⟩
    | cons x q =>
      have hg := rxHolds_getchar cfg k hk hk16 s x q h
      simp only [rxStep, fifoStep, hg.2.1, hp2]
      exact ⟨h, trivial⟩
  | clear =>
    obtain ⟨_, _, hh, hd, _⟩ := h
    have hpos := rx_size_pos cfg k hk
    have hlt : s.rx_buffer_head < cfg.RX_BUFFER_SIZE := by
      rw [hh]; exact Nat.mod_lt _ hpos
    refine ⟨⟨hlt, hpos, ?_, hd, rfl⟩, rfl⟩
    show s.rx_buffer_head = (s.rx_buffer_head + 0) % cfg.RX_BUFFER_SIZE
    rw [Nat.add_zero, Nat.mod_eq_of_lt hlt]

theorem fifoBounded_head (n : Nat) (q : List Byte) (es : List RxEvent)
    (h : fifoBounded n q es) : q.length ≤ n := by
  cases es with
  | nil => exact h
  | cons e es => exact h.1

theorem rx_fifo_general (cfg : Config) (k : Nat) (hk : cfg.RX_BUFFER_SIZE = 2 ^ k)
    (hk16 : k ≤ 16) (evs : List RxEvent) :
    ∀ (s : State) (q : List Byte), RxHolds cfg s q →
      fifoBounded (cfg.RX_BUFFER_SIZE - 1) q evs →
      (rxRun cfg s evs).2 = (fifoRun q evs).2 ∧
      RxHolds cfg (rxRun cfg s evs).1 (fifoRun q evs).1 := by
  have hpos := rx_size_pos cfg k hk
  induction evs with
  | nil =>
    intro s q h _
    exact ⟨rfl, h⟩
  | cons e es ih =>
    intro s q h hb
    have hnext := fifoBounded_head _ _ _ hb.2
    have hst := rxHolds_step cfg k hk hk16 s q e h (by omega)
    have hrec := ih (rxStep cfg s e).1 (fifoStep q e).1 hst.1 hb.2
    simp only [rxRun, fifoRun]
    exact ⟨by rw [hst.2, hrec.1], hrec.2⟩

/-- C5. From the state after `serial_dma_begin` on the initial state, for every
interleaving of deliveries and reads in which the number of unread bytes never
exceeds `RX_BUFFER_SIZE - 1`, the reads of the code return exactly what the
reference FIFO returns (each successful `serial_dma_getchar` the oldest unread
byte, `-1` when there is none), the ring holds the unread bytes in arrival
order, and head and tail stay below `RX_BUFFER_SIZE`. -/
theorem rx_ring_is_fifo (cfg : Config) (k : Nat) (hk : cfg.RX_BUFFER_SIZE = 2 ^ k)
    (hk1 : 1 ≤ k) (hk16 : k ≤ 16) (N t : Int) (evs : List RxEvent)
    (hb : fifoBounded (cfg.RX_BUFFER_SIZE - 1) [] evs) :
    (rxRun cfg (withTriggers N t (serial_dma_begin init)) evs).2 = (fifoRun [] evs).2 ∧
    RxHolds cfg (rxRun cfg (withTriggers N t (serial_dma_begin init)) evs).1
      (fifoRun [] evs).1 ∧
    (rxRun cfg (withTriggers N t (serial_dma_begin init)) evs).1.rx_buffer_head
      < cfg.RX_BUFFER_SIZE ∧
    (rxRun cfg (withTriggers N t (serial_dma_begin init)) evs).1.rx_buffer_tail
      < cfg.RX_BUFFER_SIZE := by
  have h := rx_fifo_general cfg k hk hk16 evs (withTriggers N t (serial_dma_begin init)) []
    (rxHolds_begin cfg k hk hk1 N t) hb
  refine ⟨h.1, h.2, ?_, h.2.1⟩
  rw [h.2.2.2.1]
  exact Nat.mod_lt _ (rx_size_pos cfg k hk)

/-- C5, scenario: capacity 8, eight deliver-then-read cycles; every read
returns the byte just delivered and head has wrapped to 0 after the eighth. -/
theorem rx_ring_is_fifo_witness :
    (cfg8.RX_BUFFER_SIZE = 2 ^ 3 ∧ 1 ≤ 3 ∧ 3 ≤ 16 ∧
      fifoBounded (cfg8.RX_BUFFER_SIZE - 1) [] eightCycles) ∧
    (rxRun cfg8 (withTriggers (-1) (-1) (serial_dma_begin init)) eightCycles).2
      = [1, 2, 3, 4, 5, 6, 7, 8] ∧
    (rxRun cfg8 (withTriggers (-1) (-1) (serial_dma_begin init))
      (eightCycles.take 14)).1.rx_buffer_head = 7 ∧
    (rxRun cfg8 (withTriggers (-1) (-1) (serial_dma_begin init)) eightCycles).1.rx_buffer_head
      = 0 := by
  have hb : fifoBounded (cfg8.RX_BUFFER_SIZE - 1) [] eightCycles := by
    simp [fifoBounded, fifoStep, eightCycles, cfg8]
  refine ⟨⟨by decide, by decide, by decide, hb⟩, ?_, ?_, ?_⟩
  · rw [(rx_ring_is_fifo cfg8 3 (by decide) (by decide) (by decide) (-1) (-1) eightCycles hb).1]
    rfl
  · decide
  · decide

/-! ## Receive side: index/engine agreement within a session -/

theorem rxSync_begin (cfg : Config) (k : Nat) (hk : cfg.RX_BUFFER_SIZE = 2 ^ k) (hk1 : 1 ≤ k)
    (N t : Int) : RxSync cfg (withTriggers N t (serial_dma_begin init)) := by
  have h := rxHolds_begin cfg k hk hk1 N t
  exact ⟨h.1, h.1, h.2.2.2.1⟩

theorem rxStep_keeps (cfg : Config) (k : Nat) (hk : cfg.RX_BUFFER_SIZE = 2 ^ k)
    (hk16 : k ≤ 16) (s : State) (e : RxEvent) (h : RxSync cfg s) :
    RxSync cfg (rxStep cfg s e).1 ∧
    (rxStep cfg s e).1.rxBufferSizeTrigger = s.rxBufferSizeTrigger ∧
    (rxStep cfg s e).1.rxTermCharacterTrigger = s.rxTermCharacterTrigger := by
  obtain ⟨ht, hh, hd⟩ := h
  have hpos := rx_size_pos cfg k hk
  cases e with
  | deliver b =>
    have hf := rx_deliver_frame cfg k hk hk16 s b
    refine ⟨⟨?_, ?_, ?_⟩, hf.2.2.2.2.1, hf.2.2.2.2.2.1⟩
    · show (dma_rx_deliver cfg s b).rx_buffer_tail < _
      rw [hf.2.1]; exact ht
    · show (dma_rx_deliver cfg s b).rx_buffer_head < _
      rw [hf.1]; exact Nat.mod_lt _ hpos
    · show (dma_rx_deliver cfg s b).rx_daddr = ((dma_rx_deliver cfg s b).rx_buffer_head + 1) % _
      rw [hf.2.2.2.1, hf.1, hd]
  | getchar =>
    show RxSync cfg (serial_dma_getchar cfg s).2 ∧
      (serial_dma_getchar cfg s).2.rxBufferSizeTrigger = s.rxBufferSizeTrigger ∧
      (serial_dma_getchar cfg s).2.rxTermCharacterTrigger = s.rxTermCharacterTrigger
    rw [getchar_eq cfg k hk hk16 s]
    by_cases he : s.rx_buffer_head = s.rx_buffer_tail
    · rw [if_pos he]
      exact ⟨⟨ht, hh, hd⟩, rfl, rfl⟩
    · rw [if_neg he]
      exact ⟨⟨Nat.mod_lt _ hpos, hh, hd⟩, rfl, rfl⟩
  | peek =>
    show RxSync cfg (serial_dma_peek cfg s).2 ∧
      (serial_dma_peek cfg s).2.rxBufferSizeTrigger = s.rxBufferSizeTrigger ∧
      (serial_dma_peek cfg s).2.rxTermCharacterTrigger = s.rxTermCharacterTrigger
    rw [peek_state cfg s]
    exact ⟨⟨ht, hh, hd⟩, rfl, rfl⟩
  | clear =>
    exact ⟨⟨hh, hh, hd⟩, rfl, rfl⟩

theorem rxRun_keeps (cfg : Config) (k : Nat) (hk : cfg.RX_BUFFER_SIZE = 2 ^ k)
    (hk16 : k ≤ 16) (evs : List RxEvent) :
    ∀ s : State, RxSync cfg s →
      RxSync cfg (rxRun cfg s evs).1 ∧
      (rxRun cfg s evs).1.rxBufferSizeTrigger = s.rxBufferSizeTrigger ∧
      (rxRun cfg s evs).1.rxTermCharacterTrigger = s.rxTermCharacterTrigger := by
  induction evs with
  | nil =>
    intro s h
    exact ⟨h, rfl, rfl⟩
  | cons e es ih =>
    intro s h
    have h1 := rxStep_keeps cfg k hk hk16 s e h
    have h2 := ih (rxStep cfg s e).1 h1.1
    simp only [rxRun]
    exact ⟨h2.1, h2.2.1.trans h1.2.1, h2.2.2.trans h1.2.2⟩

/-- C8. With the size trigger disabled and a terminator `t` (not `-1`), at any
point of a session started by `serial_dma_begin` on the initial state (after
any deliveries and reads), a completion started with the data-ready bit clear
raises the notification exactly when the byte the DMA engine stored for that
completion equals `t`: the slot the handler inspects, `rx_buffer[new head]`,
is the slot the engine has just written and holds that byte. -/
theorem terminator_alone (cfg : Config) (k : Nat) (hk : cfg.RX_BUFFER_SIZE = 2 ^ k)
    (hk1 : 1 ≤ k) (hk16 : k ≤ 16) (t : Int) (ht : t ≠ -1) (evs : List RxEvent) (b : Byte) :
    ((dma_rx_deliver cfg
        { (rxRun cfg (withTriggers (-1) t (serial_dma_begin init)) evs).1 with
          pending_UART1_STATUS := false } b).pending_UART1_STATUS = true
      ↔ ((b.val : Nat) : Int) = t) ∧
    (rxRun cfg (withTriggers (-1) t (serial_dma_begin init)) evs).1.rx_daddr
      = (dma_rx_deliver cfg (rxRun cfg (withTriggers (-1) t (serial_dma_begin init)) evs).1
          b).rx_buffer_head ∧
    (dma_rx_deliver cfg (rxRun cfg (withTriggers (-1) t (serial_dma_begin init)) evs).1
        b).rx_buffer
      (dma_rx_deliver cfg (rxRun cfg (withTriggers (-1) t (serial_dma_begin init)) evs).1
        b).rx_buffer_head = b := by
  have hrun := rxRun_keeps cfg k hk hk16 evs (withTriggers (-1) t (serial_dma_begin init))
    (rxSync_begin cfg k hk hk1 (-1) t)
  obtain ⟨⟨htl, _, hd⟩, hN, hT⟩ := hrun
  have hN1 : (rxRun cfg (withTriggers (-1) t (serial_dma_begin init)) evs).1.rxBufferSizeTrigger
      = -1 := hN
  have hT1 : (rxRun cfg (withTriggers (-1) t (serial_dma_begin init)) evs).1.rxTermCharacterTrigger
      = t := hT
  generalize (rxRun cfg (withTriggers (-1) t (serial_dma_begin init)) evs).1 = s at htl hd hN1 hT1 ⊢
  have hf := rx_deliver_frame cfg k hk hk16 s b
  refine ⟨?_, ?_, ?_⟩
  · have hp := rx_deliver_pending cfg k hk hk16 { s with pending_UART1_STATUS := false } b htl
    constructor
    · intro h
      rcases hp.mp h with h1 | ⟨h1, -⟩ | ⟨-, h1⟩ | ⟨-, h1⟩
      · exact absurd h1 Bool.false_ne_true
      · exact absurd hN1 h1
      · rw [if_pos hd.symm] at h1
        exact h1.trans hT1
      · exact absurd (hT1.symm.trans h1) ht
    · intro h1
      refine hp.mpr (Or.inr (Or.inr (Or.inl ⟨?_, ?_⟩)))
      · show s.rxTermCharacterTrigger ≠ -1
        rw [hT1]; exact ht
      · rw [if_pos hd.symm]
        exact h1.trans hT1.symm
  · rw [hf.1, hd]
  · rw [hf.2.2.1, hf.1, hd]
    simp

/-- C8, instance: capacity 8, terminator 10 (newline), size trigger disabled;
after the byte 65 has been delivered and read, delivering 10 raises the
notification and delivering 66 does not. -/
theorem terminator_alone_witness :
    (cfg8.RX_BUFFER_SIZE = 2 ^ 3 ∧ 1 ≤ 3 ∧ 3 ≤ 16 ∧ (10 : Int) ≠ -1) ∧
    (dma_rx_deliver cfg8
        { (rxRun cfg8 (withTriggers (-1) 10 (serial_dma_begin init))
            [RxEvent.deliver 65, RxEvent.getchar]).1 with
          pending_UART1_STATUS := false } 10).pending_UART1_STATUS = true ∧
    ¬ (dma_rx_deliver cfg8
        { (rxRun cfg8 (withTriggers (-1) 10 (serial_dma_begin init))
            [RxEvent.deliver 65, RxEvent.getchar]).1 with
          pending_UART1_STATUS := false } 66).pending_UART1_STATUS = true :=
  ⟨⟨by decide, by decide, by decide, by decide⟩,
   (terminator_alone cfg8 3 (by decide) (by decide) (by decide) 10 (by decide)
      [RxEvent.deliver 65, RxEvent.getchar] 10).1.mpr (by decide),
   fun h => absurd
     ((terminator_alone cfg8 3 (by decide) (by decide) (by decide) 10 (by decide)
        [RxEvent.deliver 65, RxEvent.getchar] 66).1.mp h) (by decide)⟩

/-! ## Transmit side: one write -/

theorem mod_two (x n : Nat) (h : x < 2 * n) : x % n = if x < n then x else x - n := by
  split
  · exact Nat.mod_eq_of_lt (by assumption)
  · rw [Nat.mod_eq_sub_mod (by omega)]
    exact Nat.mod_eq_of_lt (by omega)

theorem sub32_of_le (a b : Nat) (hb : b ≤ a) (ha : a < 4294967296) : sub32 a b = a - b := by
  unfold sub32
  have h1 : a % 4294967296 = a := Nat.mod_eq_of_lt ha
  have h2 : b % 4294967296 = b := Nat.mod_eq_of_lt (by omega)
  rw [h1, h2]
  omega

theorem add32_of_lt (a b : Nat) (h : a + b < 4294967296) : add32 a b = a + b := by
  unfold add32
  exact Nat.mod_eq_of_lt h

theorem add32_sub32_wrap (t l n : Nat) (h1 : n ≤ t + l) (h2 : t + l < 4294967296)
    (hn : n < 4294967296) : add32 t (sub32 l n) = t + l - n := by
  unfold add32 sub32
  have h3 : l % 4294967296 = l := Nat.mod_eq_of_lt (by omega)
  have h4 : n % 4294967296 = n := Nat.mod_eq_of_lt hn
  rw [h3, h4]
  omega

theorem reg16_of_lt (v : Nat) (h : v < 65536) : reg16 v = v := by
  unfold reg16
  exact Nat.mod_eq_of_lt h

theorem txIndex_of_lt (cfg : Config) (hle : cfg.TX_BUFFER_SIZE ≤ 65536) (v : Nat)
    (hv : v < cfg.TX_BUFFER_SIZE) : txIndex cfg v = v := by
  unfold txIndex
  split
  · exact Nat.mod_eq_of_lt (by omega)
  · exact Nat.mod_eq_of_lt (by omega)

theorem free_eq (cfg : Config) (hle : cfg.TX_BUFFER_SIZE ≤ 65536) (s : State) (n : Nat)
    (hh : s.tx_buffer_head < cfg.TX_BUFFER_SIZE) (ht : s.tx_buffer_tail < cfg.TX_BUFFER_SIZE)
    (hn : n ≤ cfg.TX_BUFFER_SIZE)
    (hpos : s.tx_buffer_head = s.tx_buffer_tail + n ∨
      s.tx_buffer_head + cfg.TX_BUFFER_SIZE = s.tx_buffer_tail + n)
    (he : s.tx_buffer_empty = true ↔ n = 0) :
    serial_dma_write_buffer_free cfg s = cfg.TX_BUFFER_SIZE - n := by
  unfold serial_dma_write_buffer_free
  simp only []
  have hb : s.tx_buffer_empty = false ↔ n ≠ 0 := by
    rw [Ne, ← he]; simp
  by_cases h1 : s.tx_buffer_head = s.tx_buffer_tail ∧ s.tx_buffer_empty = false
  · rw [if_pos h1]
    have := hb.mp h1.2
    omega
  · rw [if_neg h1]
    by_cases h2 : s.tx_buffer_head ≥ s.tx_buffer_tail
    · rw [if_pos h2, sub32_of_le _ _ (by omega) (by omega), add32_of_lt _ _ (by omega)]
      by_cases h3 : n = 0
      · omega
      · have := hb.mpr h3
        have h4 : s.tx_buffer_head ≠ s.tx_buffer_tail := fun h => h1 ⟨h, this⟩
        omega
    · rw [if_neg h2, sub32_of_le _ _ (by omega) (by omega)]
      omega

theorem write_cnt (count free : Nat) : (if count > free then free else count) = min count free := by
  split <;> omega

theorem write_nowrap (cfg : Config) (hle : cfg.TX_BUFFER_SIZE ≤ 65536) (s : State)
    (buf : Nat → Byte) (count : Nat) (hc : count ≠ 0)
    (hw : s.tx_buffer_head + min count (serial_dma_write_buffer_free cfg s)
      < cfg.TX_BUFFER_SIZE) :
    serial_dma_write cfg s buf count =
      (min count (serial_dma_write_buffer_free cfg s),
       if s.transmitting = false then
        { s with
          tx_buffer := memcpy_fast s.tx_buffer s.tx_buffer_head buf
            (min count (serial_dma_write_buffer_free cfg s))
          tx_buffer_head := s.tx_buffer_head + min count (serial_dma_write_buffer_free cfg s)
          tx_buffer_empty := false
          transmitting := true
          tx_CITER := min count (serial_dma_write_buffer_free cfg s)
          tx_BITER := min count (serial_dma_write_buffer_free cfg s)
          tx_enabled := true }
       else
        { s with
          tx_buffer := memcpy_fast s.tx_buffer s.tx_buffer_head buf
            (min count (serial_dma_write_buffer_free cfg s))
          tx_buffer_head := s.tx_buffer_head + min count (serial_dma_write_buffer_free cfg s)
          tx_buffer_empty := false }) := by
  unfold serial_dma_write
  rw [if_neg hc]
  simp only []
  have hnw : ¬ (s.tx_buffer_head + min count (serial_dma_write_buffer_free cfg s)
      ≥ cfg.TX_BUFFER_SIZE) := by omega
  have hr : reg16 (min count (serial_dma_write_buffer_free cfg s))
      = min count (serial_dma_write_buffer_free cfg s) := reg16_of_lt _ (by omega)
  rw [write_cnt, add32_of_lt _ _ (by omega), if_neg hnw, txIndex_of_lt cfg hle _ hw, hr]

theorem write_wrap (cfg : Config) (hle : cfg.TX_BUFFER_SIZE ≤ 65536) (s : State)
    (buf : Nat → Byte) (count : Nat) (hc : count ≠ 0)
    (hh : s.tx_buffer_head < cfg.TX_BUFFER_SIZE)
    (hf : serial_dma_write_buffer_free cfg s ≤ cfg.TX_BUFFER_SIZE)
    (hw : cfg.TX_BUFFER_SIZE ≤
      s.tx_buffer_head + min count (serial_dma_write_buffer_free cfg s)) :
    serial_dma_write cfg s buf count =
      (min count (serial_dma_write_buffer_free cfg s),
       if s.transmitting = false then
        { s with
          tx_buffer := memcpy_fast
            (memcpy_fast s.tx_buffer s.tx_buffer_head buf
              (cfg.TX_BUFFER_SIZE - s.tx_buffer_head)) 0
            (fun i => buf (cfg.TX_BUFFER_SIZE - s.tx_buffer_head + i))
            (s.tx_buffer_head + min count (serial_dma_write_buffer_free cfg s)
              - cfg.TX_BUFFER_SIZE)
          tx_buffer_head := s.tx_buffer_head + min count (serial_dma_write_buffer_free cfg s)
              - cfg.TX_BUFFER_SIZE
          tx_buffer_empty := false
          transmitting := true
          tx_CITER := reg16 (min count (serial_dma_write_buffer_free cfg s))
          tx_BITER := reg16 (min count (serial_dma_write_buffer_free cfg s))
          tx_enabled := true }
       else
        { s with
          tx_buffer := memcpy_fast
            (memcpy_fast s.tx_buffer s.tx_buffer_head buf
              (cfg.TX_BUFFER_SIZE - s.tx_buffer_head)) 0
            (fun i => buf (cfg.TX_BUFFER_SIZE - s.tx_buffer_head + i))
            (s.tx_buffer_head + min count (serial_dma_write_buffer_free cfg s)
              - cfg.TX_BUFFER_SIZE)
          tx_buffer_head := s.tx_buffer_head + min count (serial_dma_write_buffer_free cfg s)
              - cfg.TX_BUFFER_SIZE
          tx_buffer_empty := false }) := by
  have hm : min count (serial_dma_write_buffer_free cfg s) ≤ cfg.TX_BUFFER_SIZE :=
    le_trans (Nat.min_le_right _ _) hf
  unfold serial_dma_write
  rw [if_neg hc]
  simp only []
  have hw1 : s.tx_buffer_head + min count (serial_dma_write_buffer_free cfg s)
      ≥ cfg.TX_BUFFER_SIZE := hw
  rw [write_cnt, add32_of_lt _ _ (by omega), if_pos hw1,
    sub32_of_le _ _ hw (by omega), sub32_of_le _ _ (by omega) (by omega),
    txIndex_of_lt cfg hle _ (by omega)]

theorem write_fields (cfg : Config) (hle : cfg.TX_BUFFER_SIZE ≤ 65536) (s : State)
    (buf : Nat → Byte) (count : Nat) (hc : count ≠ 0)
    (hh : s.tx_buffer_head < cfg.TX_BUFFER_SIZE)
    (hf : serial_dma_write_buffer_free cfg s ≤ cfg.TX_BUFFER_SIZE) :
    (serial_dma_write cfg s buf count).1 = min count (serial_dma_write_buffer_free cfg s) ∧
    (serial_dma_write cfg s buf count).2.tx_buffer =
      (if cfg.TX_BUFFER_SIZE ≤ s.tx_buffer_head + min count (serial_dma_write_buffer_free cfg s)
       then memcpy_fast
            (memcpy_fast s.tx_buffer s.tx_buffer_head buf
              (cfg.TX_BUFFER_SIZE - s.tx_buffer_head)) 0
            (fun i => buf (cfg.TX_BUFFER_SIZE - s.tx_buffer_head + i))
            (s.tx_buffer_head + min count (serial_dma_write_buffer_free cfg s)
              - cfg.TX_BUFFER_SIZE)
       else memcpy_fast s.tx_buffer s.tx_buffer_head buf
            (min count (serial_dma_write_buffer_free cfg s))) ∧
    (serial_dma_write cfg s buf count).2.tx_buffer_head =
      (if cfg.TX_BUFFER_SIZE ≤ s.tx_buffer_head + min count (serial_dma_write_buffer_free cfg s)
       then s.tx_buffer_head + min count (serial_dma_write_buffer_free cfg s)
              - cfg.TX_BUFFER_SIZE
       else s.tx_buffer_head + min count (serial_dma_write_buffer_free cfg s)) ∧
    (serial_dma_write cfg s buf count).2.tx_buffer_tail = s.tx_buffer_tail ∧
    (serial_dma_write cfg s buf count).2.tx_buffer_empty = false ∧
    (serial_dma_write cfg s buf count).2.transmitting = true ∧
    (serial_dma_write cfg s buf count).2.tx_CITER =
      (if s.transmitting = false then reg16 (min count (serial_dma_write_buffer_free cfg s))
       else s.tx_CITER) ∧
    (serial_dma_write cfg s buf count).2.tx_BITER =
      (if s.transmitting = false then reg16 (min count (serial_dma_write_buffer_free cfg s))
       else s.tx_BITER) ∧
    (serial_dma_write cfg s buf count).2.tx_enabled =
      (if s.transmitting = false then true else s.tx_enabled) ∧
    (serial_dma_write cfg s buf count).2.tx_saddr = s.tx_saddr := by
  by_cases hw : cfg.TX_BUFFER_SIZE ≤
      s.tx_buffer_head + min count (serial_dma_write_buffer_free cfg s)
  · rw [write_wrap cfg hle s buf count hc hh hf hw]
    by_cases htr : s.transmitting = false
    · rw [if_pos htr, if_pos htr, if_pos htr, if_pos htr, if_pos hw, if_pos hw]
      exact ⟨rfl, rfl, rfl, rfl, rfl, rfl, rfl, rfl, rfl, rfl⟩
    · have htr1 : s.transmitting = true := by simpa using htr
      rw [if_neg htr, if_neg htr, if_neg htr, if_neg htr, if_pos hw, if_pos hw]
      exact ⟨rfl, rfl, rfl, rfl, rfl, htr1, rfl, rfl, rfl, rfl⟩
  · have hr : reg16 (min count (serial_dma_write_buffer_free cfg s))
        = min count (serial_dma_write_buffer_free cfg s) := reg16_of_lt _ (by omega)
    rw [write_nowrap cfg hle s buf count hc (by omega), hr]
    by_cases htr : s.transmitting = false
    · rw [if_pos htr, if_pos htr, if_pos htr, if_pos htr, if_neg hw, if_neg hw]
      exact ⟨rfl, rfl, rfl, rfl, rfl, rfl, rfl, rfl, rfl, rfl⟩
    · have htr1 : s.transmitting = true := by simpa using htr
      rw [if_neg htr, if_neg htr, if_neg htr, if_neg htr, if_neg hw, if_neg hw]
      exact ⟨rfl, rfl, rfl, rfl, rfl, htr1, rfl, rfl, rfl, rfl⟩

theorem ring_copy_new (size head n : Nat) (mem buf : Nat → Byte) (hh : head < size)
    (hn : n ≤ size) (i : Nat) (hi : i < n) :
    (if size ≤ head + n
       then memcpy_fast (memcpy_fast mem head buf (size - head)) 0
            (fun i => buf (size - head + i)) (head + n - size)
       else memcpy_fast mem head buf n) ((head + i) % size) = buf i := by
  rw [mod_two (head + i) size (by omega)]
  unfold memcpy_fast
  by_cases hw : size ≤ head + n
  · rw [if_pos hw]
    by_cases h1 : head + i < size
    · rw [if_pos h1]
      have c1 : ¬ (0 ≤ head + i ∧ head + i < 0 + (head + n - size)) := by omega
      have c2 : head ≤ head + i ∧ head + i < head + (size - head) := by omega
      beta_reduce
      rw [if_neg c1, if_pos c2]
      congr 1
      omega
    · rw [if_neg h1]
      have c1 : 0 ≤ head + i - size ∧ head + i - size < 0 + (head + n - size) := by omega
      beta_reduce
      rw [if_pos c1]
      congr 1
      omega
  · rw [if_neg hw]
    have h1 : head + i < size := by omega
    rw [if_pos h1]
    have c2 : head ≤ head + i ∧ head + i < head + n := by omega
    rw [if_pos c2]
    congr 1
    omega

theorem ring_copy_old (size head n : Nat) (mem buf : Nat → Byte) (hh : head < size)
    (hn : n ≤ size) (j : Nat) (hj : ∀ i, i < n → j ≠ (head + i) % size) :
    (if size ≤ head + n
       then memcpy_fast (memcpy_fast mem head buf (size - head)) 0
            (fun i => buf (size - head + i)) (head + n - size)
       else memcpy_fast mem head buf n) j = mem j := by
  unfold memcpy_fast
  by_cases hw : size ≤ head + n
  · rw [if_pos hw]
    have c1 : ¬ (0 ≤ j ∧ j < 0 + (head + n - size)) := by
      intro hc
      have h2 := hj (j + size - head) (by omega)
      rw [mod_two _ size (by omega)] at h2
      have h3 : ¬ (head + (j + size - head) < size) := by omega
      rw [if_neg h3] at h2
      omega
    have c2 : ¬ (head ≤ j ∧ j < head + (size - head)) := by
      intro hc
      have h2 := hj (j - head) (by omega)
      rw [mod_two _ size (by omega)] at h2
      have h3 : head + (j - head) < size := by omega
      rw [if_pos h3] at h2
      omega
    beta_reduce
    rw [if_neg c1, if_neg c2]
  · rw [if_neg hw]
    have c2 : ¬ (head ≤ j ∧ j < head + n) := by
      intro hc
      have h2 := hj (j - head) (by omega)
      rw [mod_two _ size (by omega)] at h2
      have h3 : head + (j - head) < size := by omega
      rw [if_pos h3] at h2
      omega
    rw [if_neg c2]

theorem ring_pos_mod (size head tail len i : Nat)
    (hpos : head = tail + len ∨ head + size = tail + len) :
    (head + i) % size = (tail + (len + i)) % size := by
  rcases hpos with h | h
  · rw [h, Nat.add_assoc]
  · have h1 : tail + (len + i) = head + i + size := by omega
    rw [h1, Nat.add_mod_right]

theorem write_zero (cfg : Config) (s : State) (buf : Nat → Byte) :
    serial_dma_write cfg s buf 0 = (0, s) := by
  unfold serial_dma_write
  rw [if_pos rfl]

theorem txHolds_free (cfg : Config) (hle : cfg.TX_BUFFER_SIZE ≤ 65536) (s : State)
    (q : List Byte) (h : TxHolds cfg s q) :
    serial_dma_write_buffer_free cfg s = cfg.TX_BUFFER_SIZE - q.length :=
  free_eq cfg hle s q.length h.1 h.2.1 h.2.2.1 h.2.2.2.1 h.2.2.2.2.1

theorem txHolds_write (cfg : Config) (hsz : 0 < cfg.TX_BUFFER_SIZE)
    (hlt : cfg.TX_BUFFER_SIZE < 65536) (s : State) (q : List Byte) (buf : Nat → Byte)
    (count : Nat) (h : TxHolds cfg s q) :
    (serial_dma_write cfg s buf count).1 = min count (cfg.TX_BUFFER_SIZE - q.length) ∧
    TxHolds cfg (serial_dma_write cfg s buf count).2
      (q ++ (List.range (min count (cfg.TX_BUFFER_SIZE - q.length))).map buf) := by
  have hle : cfg.TX_BUFFER_SIZE ≤ 65536 := Nat.le_of_lt hlt
  by_cases hc : count = 0
  · subst hc
    rw [write_zero]
    simp only [Nat.zero_min, List.range_zero, List.map_nil, List.append_nil]
    exact ⟨trivial, h⟩
  · have hfree := txHolds_free cfg hle s q h
    obtain ⟨hh, ht, hl, hpos, hemp, htr, hen, hcit, hsa, hq⟩ := h
    have hf := write_fields cfg hle s buf count hc hh (by rw [hfree]; omega)
    rw [hfree] at hf
    obtain ⟨f1, fbuf, fhead, ftail, fempty, ftrans, fciter, _, fen, fsaddr⟩ := hf
    generalize hn : min count (cfg.TX_BUFFER_SIZE - q.length) = n at *
    have hn1 : n ≤ cfg.TX_BUFFER_SIZE - q.length := by rw [← hn]; exact Nat.min_le_right _ _
    have hn2 : q.length = 0 → 1 ≤ n := by
      intro h0
      rw [← hn, h0]
      exact Nat.le_min.mpr ⟨by omega, by omega⟩
    rw [reg16_of_lt n (by omega)] at fciter
    refine ⟨f1, ?_, ?_, ?_, ?_, ?_, ?_, ?_, ?_, ?_, ?_⟩
    · rw [fhead]; split <;> omega
    · rw [ftail]; exact ht
    · rw [List.length_append, List.length_map, List.length_range]; omega
    · rw [fhead, ftail, List.length_append, List.length_map, List.length_range]
      split <;> omega
    · rw [fempty, List.length_append, List.length_map, List.length_range]
      constructor
      · intro hb
        exact absurd hb (by decide)
      · intro h0
        have := hn2 (by omega)
        omega
    · rw [ftrans, List.length_append, List.length_map, List.length_range]
      constructor
      · intro _ h0
        have := hn2 (by omega)
        omega
      · intro _
        rfl
    · rw [fen, ftrans]
      by_cases hts : s.transmitting = false
      · rw [if_pos hts]
      · rw [if_neg hts, hen]
        simpa using hts
    · intro _
      rw [fciter, List.length_append, List.length_map, List.length_range]
      by_cases hts : s.transmitting = false
      · rw [if_pos hts]
        have h0 : q.length = 0 := by
          by_contra hne
          have := htr.mpr hne
          rw [hts] at this
          exact absurd this (by decide)
        have := hn2 h0
        omega
      · rw [if_neg hts]
        have := hcit (by simpa using hts)
        omega
    · rw [fsaddr, ftail]; exact hsa
    · rw [fbuf, ftail, List.length_append, List.length_map, List.length_range, List.range_add,
        List.map_append, List.map_map]
      congr 1
      · nth_rewrite 1 [hq]
        apply List.map_congr_left
        intro i hi
        rw [List.mem_range] at hi
        symm
        apply ring_copy_old cfg.TX_BUFFER_SIZE s.tx_buffer_head n s.tx_buffer buf hh (by omega)
        intro i2 hi2 hc2
        rw [ring_pos_mod cfg.TX_BUFFER_SIZE s.tx_buffer_head s.tx_buffer_tail q.length i2 hpos]
          at hc2
        have := mod_inj_of_lt cfg.TX_BUFFER_SIZE (s.tx_buffer_tail + i)
          (s.tx_buffer_tail + (q.length + i2)) (by omega) (by omega) hc2
        omega
      · apply List.map_congr_left
        intro i hi
        rw [List.mem_range] at hi
        show buf i = _
        rw [Function.comp_apply,
          ← ring_pos_mod cfg.TX_BUFFER_SIZE s.tx_buffer_head s.tx_buffer_tail q.length i hpos]
        exact (ring_copy_new cfg.TX_BUFFER_SIZE s.tx_buffer_head n s.tx_buffer buf hh
          (by omega) i hi).symm

theorem txIdx_of_holds (cfg : Config) (s : State) (q : List Byte) (h : TxHolds cfg s q) :
    TxIdx cfg s q.length := by
  obtain ⟨hh, ht, hl, hpos, hemp, htr, hen, hcit, -, -⟩ := h
  refine ⟨hh, ht, hl, hpos, hemp, htr, hen, ?_⟩
  intro hc
  have := hcit hc
  exact ⟨this.2, fun h0 => by omega⟩

theorem txIdx_free (cfg : Config) (hle : cfg.TX_BUFFER_SIZE ≤ 65536) (s : State) (n : Nat)
    (h : TxIdx cfg s n) : serial_dma_write_buffer_free cfg s = cfg.TX_BUFFER_SIZE - n :=
  free_eq cfg hle s n h.1 h.2.1 h.2.2.1 h.2.2.2.1 h.2.2.2.2.1

theorem reg16_le (v : Nat) : reg16 v ≤ v := by
  unfold reg16
  exact Nat.mod_le _ _

theorem reg16_zero (v : Nat) (h1 : 1 ≤ v) (h2 : v ≤ 65536) (h0 : reg16 v = 0) : v = 65536 := by
  unfold reg16 at h0
  omega

theorem txIdx_write (cfg : Config) (hsz : 0 < cfg.TX_BUFFER_SIZE)
    (hle : cfg.TX_BUFFER_SIZE ≤ 65536) (s : State) (n : Nat) (buf : Nat → Byte)
    (count : Nat) (h : TxIdx cfg s n) :
    (serial_dma_write cfg s buf count).1 = min count (cfg.TX_BUFFER_SIZE - n) ∧
    TxIdx cfg (serial_dma_write cfg s buf count).2 (n + min count (cfg.TX_BUFFER_SIZE - n)) := by
  by_cases hc : count = 0
  · subst hc
    rw [write_zero]
    simp only [Nat.zero_min, Nat.add_zero]
    exact ⟨trivial, h⟩
  · have hfree := txIdx_free cfg hle s n h
    obtain ⟨hh, ht, hl, hpos, hemp, htr, hen, hcit⟩ := h
    have hf := write_fields cfg hle s buf count hc hh (by rw [hfree]; omega)
    rw [hfree] at hf
    obtain ⟨f1, -, fhead, ftail, fempty, ftrans, fciter, -, fen, -⟩ := hf
    generalize hm : min count (cfg.TX_BUFFER_SIZE - n) = m at *
    have hm1 : m ≤ cfg.TX_BUFFER_SIZE - n := by rw [← hm]; exact Nat.min_le_right _ _
    have hm2 : n = 0 → 1 ≤ m := by
      intro h0
      rw [← hm, h0]
      exact Nat.le_min.mpr ⟨by omega, by omega⟩
    refine ⟨f1, ?_, ?_, ?_, ?_, ?_, ?_, ?_, ?_⟩
    · rw [fhead]; split <;> omega
    · rw [ftail]; exact ht
    · omega
    · rw [fhead, ftail]
      split <;> omega
    · rw [fempty]
      constructor
      · intro hb
        exact absurd hb (by decide)
      · intro h0
        have := hm2 (by omega)
        omega
    · rw [ftrans]
      constructor
      · intro _ h0
        have := hm2 (by omega)
        omega
      · intro _
        rfl
    · rw [fen, ftrans]
      by_cases hts : s.transmitting = false
      · rw [if_pos hts]
      · rw [if_neg hts, hen]
        simpa using hts
    · intro _
      rw [fciter]
      by_cases hts : s.transmitting = false
      · rw [if_pos hts]
        have h0 : n = 0 := by
          by_contra hne
          have := htr.mpr hne
          rw [hts] at this
          exact absurd this (by decide)
        have h1 := hm2 h0
        have h2 := reg16_le m
        refine ⟨by omega, ?_⟩
        intro hz
        have := reg16_zero m h1 (by omega) hz
        omega
      · rw [if_neg hts]
        have := hcit (by simpa using hts)
        refine ⟨by omega, ?_⟩
        intro hz
        have := this.2 hz
        omega

/-! ## Transmit side: one completion -/

theorem tx_isr_tail (cfg : Config) (hle : cfg.TX_BUFFER_SIZE ≤ 65536) (tail len : Nat)
    (ht : tail < cfg.TX_BUFFER_SIZE) (hl : len ≤ cfg.TX_BUFFER_SIZE) :
    (if add32 tail len ≥ cfg.TX_BUFFER_SIZE then add32 tail (sub32 len cfg.TX_BUFFER_SIZE)
      else add32 tail len)
      = (if cfg.TX_BUFFER_SIZE ≤ tail + len then tail + len - cfg.TX_BUFFER_SIZE
         else tail + len) := by
  rw [add32_of_lt tail len (by omega)]
  by_cases h : cfg.TX_BUFFER_SIZE ≤ tail + len
  · have h1 : tail + len ≥ cfg.TX_BUFFER_SIZE := h
    rw [if_pos h1, if_pos h, add32_sub32_wrap tail len cfg.TX_BUFFER_SIZE h (by omega) (by omega)]
  · have h1 : ¬ (tail + len ≥ cfg.TX_BUFFER_SIZE) := h
    rw [if_neg h1, if_neg h]

theorem tx_isr_size (cfg : Config) (hle : cfg.TX_BUFFER_SIZE ≤ 65536) (head tail : Nat)
    (hh : head < cfg.TX_BUFFER_SIZE) (ht : tail < cfg.TX_BUFFER_SIZE) :
    (if tail > head then add32 (sub32 cfg.TX_BUFFER_SIZE tail) head else sub32 head tail)
      = (if tail > head then cfg.TX_BUFFER_SIZE - tail + head else head - tail) := by
  by_cases h : tail > head
  · rw [if_pos h, if_pos h, sub32_of_le _ _ (by omega) (by omega), add32_of_lt _ _ (by omega)]
  · rw [if_neg h, if_neg h, sub32_of_le _ _ (by omega) (by omega)]

theorem tx_isr_more (cfg : Config) (hle : cfg.TX_BUFFER_SIZE ≤ 65536) (s : State)
    (hh : s.tx_buffer_head < cfg.TX_BUFFER_SIZE) (ht : s.tx_buffer_tail < cfg.TX_BUFFER_SIZE)
    (hl : s.tx_CITER ≤ cfg.TX_BUFFER_SIZE) (tail1 : Nat)
    (htail : tail1 = (if cfg.TX_BUFFER_SIZE ≤ s.tx_buffer_tail + s.tx_CITER
        then s.tx_buffer_tail + s.tx_CITER - cfg.TX_BUFFER_SIZE
        else s.tx_buffer_tail + s.tx_CITER))
    (hne : tail1 ≠ s.tx_buffer_head) (hemp : s.tx_buffer_empty = false) :
    (serial_dma_tx_isr cfg s).tx_buffer_tail = tail1 ∧
    (serial_dma_tx_isr cfg s).tx_buffer_head = s.tx_buffer_head ∧
    (serial_dma_tx_isr cfg s).tx_buffer = s.tx_buffer ∧
    (serial_dma_tx_isr cfg s).tx_saddr = s.tx_saddr ∧
    (serial_dma_tx_isr cfg s).tx_buffer_empty = false ∧
    (serial_dma_tx_isr cfg s).transmitting = true ∧
    (serial_dma_tx_isr cfg s).tx_enabled = true ∧
    (serial_dma_tx_isr cfg s).tx_CITER =
      (if tail1 > s.tx_buffer_head then cfg.TX_BUFFER_SIZE - tail1 + s.tx_buffer_head
       else s.tx_buffer_head - tail1) ∧
    (serial_dma_tx_isr cfg s).tx_BITER = (serial_dma_tx_isr cfg s).tx_CITER ∧
    (serial_dma_tx_isr cfg s).pending_UART1_ERROR = s.pending_UART1_ERROR := by
  have hlt : tail1 < cfg.TX_BUFFER_SIZE := by rw [htail]; split <;> omega
  have hr : reg16 (if tail1 > s.tx_buffer_head then cfg.TX_BUFFER_SIZE - tail1 + s.tx_buffer_head
      else s.tx_buffer_head - tail1)
      = (if tail1 > s.tx_buffer_head then cfg.TX_BUFFER_SIZE - tail1 + s.tx_buffer_head
         else s.tx_buffer_head - tail1) := reg16_of_lt _ (by split <;> omega)
  unfold serial_dma_tx_isr
  simp only []
  rw [tx_isr_tail cfg hle _ _ ht hl, ← htail, if_neg hne, if_pos hemp,
    tx_isr_size cfg hle _ _ hh hlt, txIndex_of_lt cfg hle _ hlt, hr]
  cases s.transmit_pin <;> simp [hemp]

theorem tx_isr_done (cfg : Config) (hle : cfg.TX_BUFFER_SIZE ≤ 65536) (s : State)
    (ht : s.tx_buffer_tail < cfg.TX_BUFFER_SIZE)
    (hl : s.tx_CITER ≤ cfg.TX_BUFFER_SIZE) (tail1 : Nat)
    (htail : tail1 = (if cfg.TX_BUFFER_SIZE ≤ s.tx_buffer_tail + s.tx_CITER
        then s.tx_buffer_tail + s.tx_CITER - cfg.TX_BUFFER_SIZE
        else s.tx_buffer_tail + s.tx_CITER))
    (heq : tail1 = s.tx_buffer_head) :
    (serial_dma_tx_isr cfg s).tx_buffer_tail = tail1 ∧
    (serial_dma_tx_isr cfg s).tx_buffer_head = s.tx_buffer_head ∧
    (serial_dma_tx_isr cfg s).tx_buffer = s.tx_buffer ∧
    (serial_dma_tx_isr cfg s).tx_saddr = s.tx_saddr ∧
    (serial_dma_tx_isr cfg s).tx_buffer_empty = true ∧
    (serial_dma_tx_isr cfg s).transmitting = false ∧
    (serial_dma_tx_isr cfg s).tx_enabled = s.tx_enabled ∧
    (serial_dma_tx_isr cfg s).tx_CITER = s.tx_CITER ∧
    (serial_dma_tx_isr cfg s).tx_BITER = s.tx_BITER ∧
    (serial_dma_tx_isr cfg s).pending_UART1_ERROR = true := by
  have hlt : tail1 < cfg.TX_BUFFER_SIZE := by rw [htail]; split <;> omega
  unfold serial_dma_tx_isr
  simp only []
  rw [tx_isr_tail cfg hle _ _ ht hl, ← htail, if_pos heq, txIndex_of_lt cfg hle _ hlt]
  have hnf : ¬ ((true : Bool) = false) := by decide
  rw [if_neg hnf]
  cases s.transmit_pin <;> simp

theorem ring_split (size tail len l : Nat) (mem : Nat → Byte) (q : List Byte)
    (hl : l ≤ len) (hlen : q.length = len)
    (hq : q = (List.range len).map (fun i => mem ((tail + i) % size))) :
    q.take l = (List.range l).map (fun i => mem ((tail + i) % size)) ∧
    q.drop l = (List.range (len - l)).map (fun i => mem ((tail + (l + i)) % size)) := by
  have hsplit : q = (List.range l).map (fun i => mem ((tail + i) % size)) ++
      (List.range (len - l)).map (fun i => mem ((tail + (l + i)) % size)) := by
    have h1 : len = l + (len - l) := by omega
    nth_rewrite 1 [hq]
    nth_rewrite 1 [h1]
    rw [List.range_add, List.map_append, List.map_map]
    rfl
  have hA : ((List.range l).map (fun i => mem ((tail + i) % size))).length = l := by
    rw [List.length_map, List.length_range]
  constructor
  · nth_rewrite 1 [hsplit]
    exact List.take_left' hA
  · nth_rewrite 1 [hsplit]
    exact List.drop_left' hA

theorem tx_complete_idle (cfg : Config) (s : State) (h : ¬ s.tx_enabled = true) :
    dma_tx_complete cfg s = ([], s) := by
  unfold dma_tx_complete
  rw [if_neg h]

theorem tx_complete_busy (cfg : Config) (s : State) (h : s.tx_enabled = true) :
    dma_tx_complete cfg s =
      ((List.range s.tx_CITER).map
          (fun i => s.tx_buffer ((s.tx_saddr + i) % cfg.TX_BUFFER_SIZE)),
       serial_dma_tx_isr cfg
         { s with
           tx_saddr := (s.tx_saddr + s.tx_CITER) % cfg.TX_BUFFER_SIZE
           tx_enabled := false }) := by
  unfold dma_tx_complete
  rw [if_pos h]

theorem txHolds_complete (cfg : Config) (hle : cfg.TX_BUFFER_SIZE ≤ 65536) (s : State)
    (q : List Byte) (h : TxHolds cfg s q) :
    (dma_tx_complete cfg s).1 = q.take (if s.tx_enabled = true then s.tx_CITER else 0) ∧
    TxHolds cfg (dma_tx_complete cfg s).2
      (q.drop (if s.tx_enabled = true then s.tx_CITER else 0)) ∧
    (s.tx_enabled = true → (dma_tx_complete cfg s).2.transmitting = true →
      (dma_tx_complete cfg s).2.tx_CITER = q.length - s.tx_CITER) := by
  by_cases hen1 : s.tx_enabled = true
  · rw [tx_complete_busy cfg s hen1, if_pos hen1]
    obtain ⟨hh, ht, hl, hpos, hemp, htr, hen, hcit, hsa, hq⟩ := h
    have htrans : s.transmitting = true := by rw [← hen]; exact hen1
    have hL := hcit htrans
    have hsplit := ring_split cfg.TX_BUFFER_SIZE s.tx_buffer_tail q.length s.tx_CITER
      s.tx_buffer q hL.2 rfl hq
    have hne0 := htr.mp htrans
    have hempf : s.tx_buffer_empty = false := by
      have : ¬ s.tx_buffer_empty = true := fun hb => hne0 (hemp.mp hb)
      simpa using this
    have hsad : (s.tx_saddr + s.tx_CITER) % cfg.TX_BUFFER_SIZE =
        (if cfg.TX_BUFFER_SIZE ≤ s.tx_buffer_tail + s.tx_CITER
         then s.tx_buffer_tail + s.tx_CITER - cfg.TX_BUFFER_SIZE
         else s.tx_buffer_tail + s.tx_CITER) := by
      rw [hsa, mod_two _ _ (by omega)]
      split_ifs <;> omega
    refine ⟨?_, ?_⟩
    · show (List.range s.tx_CITER).map
          (fun i => s.tx_buffer ((s.tx_saddr + i) % cfg.TX_BUFFER_SIZE)) = _
      rw [hsplit.1, hsa]
    · show TxHolds cfg (serial_dma_tx_isr cfg
         { s with
           tx_saddr := (s.tx_saddr + s.tx_CITER) % cfg.TX_BUFFER_SIZE
           tx_enabled := false }) _ ∧
        (s.tx_enabled = true → (serial_dma_tx_isr cfg
         { s with
           tx_saddr := (s.tx_saddr + s.tx_CITER) % cfg.TX_BUFFER_SIZE
           tx_enabled := false }).transmitting = true → (serial_dma_tx_isr cfg
         { s with
           tx_saddr := (s.tx_saddr + s.tx_CITER) % cfg.TX_BUFFER_SIZE
           tx_enabled := false }).tx_CITER = q.length - s.tx_CITER)
      by_cases hall : s.tx_CITER = q.length
      · have hd := tx_isr_done cfg hle
          { s with
            tx_saddr := (s.tx_saddr + s.tx_CITER) % cfg.TX_BUFFER_SIZE
            tx_enabled := false } ht (by show s.tx_CITER ≤ _; omega) s.tx_buffer_head
          (by show s.tx_buffer_head = if cfg.TX_BUFFER_SIZE ≤ s.tx_buffer_tail + s.tx_CITER
                then s.tx_buffer_tail + s.tx_CITER - cfg.TX_BUFFER_SIZE
                else s.tx_buffer_tail + s.tx_CITER
              split_ifs <;> omega) rfl
        dsimp only at hd
        obtain ⟨g1, g2, _, g4, g5, g6, g7, _, _, _⟩ := hd
        have hdl : (q.drop s.tx_CITER).length = 0 := by rw [List.length_drop]; omega
        refine ⟨⟨?_, ?_, ?_, ?_, ?_, ?_, ?_, ?_, ?_, ?_⟩, ?_⟩
        · rw [g2]; exact hh
        · rw [g1]; exact hh
        · rw [hdl]; omega
        · rw [g1, g2, hdl]; left; rfl
        · rw [g5, hdl]; simp
        · rw [g6, hdl]; simp
        · rw [g7, g6]
        · rw [g6]; intro hc; exact absurd hc (by decide)
        · rw [g4, g1]
          show (s.tx_saddr + s.tx_CITER) % cfg.TX_BUFFER_SIZE = s.tx_buffer_head
          rw [hsad]
          split_ifs <;> omega
        · rw [hdl, List.range_zero, List.map_nil]
          exact List.length_eq_zero.mp hdl
        · intro _ hc
          rw [g6] at hc
          exact absurd hc (by decide)
      · have hlt : s.tx_CITER < q.length := by omega
        have hm := tx_isr_more cfg hle
          { s with
            tx_saddr := (s.tx_saddr + s.tx_CITER) % cfg.TX_BUFFER_SIZE
            tx_enabled := false } hh ht (by show s.tx_CITER ≤ _; omega)
          (if cfg.TX_BUFFER_SIZE ≤ s.tx_buffer_tail + s.tx_CITER
            then s.tx_buffer_tail + s.tx_CITER - cfg.TX_BUFFER_SIZE
            else s.tx_buffer_tail + s.tx_CITER) rfl
          (by show (if cfg.TX_BUFFER_SIZE ≤ s.tx_buffer_tail + s.tx_CITER
                then s.tx_buffer_tail + s.tx_CITER - cfg.TX_BUFFER_SIZE
                else s.tx_buffer_tail + s.tx_CITER) ≠ s.tx_buffer_head
              split_ifs <;> omega) hempf
        dsimp only at hm
        obtain ⟨g1, g2, g3, g4, g5, g6, g7, g8, _, _⟩ := hm
        have hdl : (q.drop s.tx_CITER).length = q.length - s.tx_CITER := List.length_drop _ _
        have hcase : (if cfg.TX_BUFFER_SIZE ≤ s.tx_buffer_tail + s.tx_CITER
            then s.tx_buffer_tail + s.tx_CITER - cfg.TX_BUFFER_SIZE
            else s.tx_buffer_tail + s.tx_CITER) = s.tx_buffer_tail + s.tx_CITER ∨
            (if cfg.TX_BUFFER_SIZE ≤ s.tx_buffer_tail + s.tx_CITER
            then s.tx_buffer_tail + s.tx_CITER - cfg.TX_BUFFER_SIZE
            else s.tx_buffer_tail + s.tx_CITER) + cfg.TX_BUFFER_SIZE
              = s.tx_buffer_tail + s.tx_CITER := by
          split_ifs <;> omega
        have hlt1 : (if cfg.TX_BUFFER_SIZE ≤ s.tx_buffer_tail + s.tx_CITER
            then s.tx_buffer_tail + s.tx_CITER - cfg.TX_BUFFER_SIZE
            else s.tx_buffer_tail + s.tx_CITER) < cfg.TX_BUFFER_SIZE := by
          split_ifs <;> omega
        generalize (if cfg.TX_BUFFER_SIZE ≤ s.tx_buffer_tail + s.tx_CITER
            then s.tx_buffer_tail + s.tx_CITER - cfg.TX_BUFFER_SIZE
            else s.tx_buffer_tail + s.tx_CITER) = tail1 at g1 g8 hcase hsad hlt1
        refine ⟨⟨?_, ?_, ?_, ?_, ?_, ?_, ?_, ?_, ?_, ?_⟩, ?_⟩
        · rw [g2]; exact hh
        · rw [g1]; omega
        · rw [hdl]; omega
        · rw [g1, g2, hdl]; omega
        · rw [g5, hdl]
          constructor
          · intro hc; exact absurd hc (by decide)
          · intro hc; omega
        · rw [g6, hdl]
          constructor
          · intro _; omega
          · intro _; rfl
        · rw [g7, g6]
        · intro _
          rw [g8, hdl]
          split_ifs <;> omega
        · rw [g4, g1]
          exact hsad
        · rw [g3, g1, hdl, hsplit.2]
          apply List.map_congr_left
          intro i _
          show s.tx_buffer _ = s.tx_buffer _
          rw [ring_pos_mod cfg.TX_BUFFER_SIZE tail1 s.tx_buffer_tail s.tx_CITER i hcase]
        · intro _ _
          rw [g8]
          split_ifs <;> omega
  · rw [tx_complete_idle cfg s hen1, if_neg hen1, List.take_zero, List.drop_zero]
    exact ⟨rfl, h, fun hc => absurd hc hen1⟩

theorem txIdx_complete (cfg : Config) (hle : cfg.TX_BUFFER_SIZE ≤ 65536) (s : State) (n : Nat)
    (h : TxIdx cfg s n) :
    ∃ n1 : Nat, n1 ≤ n ∧ TxIdx cfg (dma_tx_complete cfg s).2 n1 ∧
      ((dma_tx_complete cfg s).2.transmitting = true →
        (dma_tx_complete cfg s).2.tx_CITER = n1) ∧
      ((s.transmitting = true → s.tx_CITER = n) → n1 = 0) := by
  by_cases hen1 : s.tx_enabled = true
  · rw [tx_complete_busy cfg s hen1]
    obtain ⟨hh, ht, hl, hpos, hemp, htr, hen, hcit⟩ := h
    have htrans : s.transmitting = true := by rw [← hen]; exact hen1
    have hL := hcit htrans
    have hne0 := htr.mp htrans
    have hempf : s.tx_buffer_empty = false := by
      have : ¬ s.tx_buffer_empty = true := fun hb => hne0 (hemp.mp hb)
      simpa using this
    show ∃ n1 : Nat, n1 ≤ n ∧ TxIdx cfg (serial_dma_tx_isr cfg
         { s with
           tx_saddr := (s.tx_saddr + s.tx_CITER) % cfg.TX_BUFFER_SIZE
           tx_enabled := false }) n1 ∧
        ((serial_dma_tx_isr cfg
         { s with
           tx_saddr := (s.tx_saddr + s.tx_CITER) % cfg.TX_BUFFER_SIZE
           tx_enabled := false }).transmitting = true → (serial_dma_tx_isr cfg
         { s with
           tx_saddr := (s.tx_saddr + s.tx_CITER) % cfg.TX_BUFFER_SIZE
           tx_enabled := false }).tx_CITER = n1) ∧
        ((s.transmitting = true → s.tx_CITER = n) → n1 = 0)
    by_cases hdone : s.tx_CITER = n ∨ s.tx_CITER = 0
    · have hd := tx_isr_done cfg hle
        { s with
          tx_saddr := (s.tx_saddr + s.tx_CITER) % cfg.TX_BUFFER_SIZE
          tx_enabled := false } ht (by show s.tx_CITER ≤ _; omega) s.tx_buffer_head
        (by show s.tx_buffer_head = if cfg.TX_BUFFER_SIZE ≤ s.tx_buffer_tail + s.tx_CITER
              then s.tx_buffer_tail + s.tx_CITER - cfg.TX_BUFFER_SIZE
              else s.tx_buffer_tail + s.tx_CITER
            split_ifs <;> omega) rfl
      dsimp only at hd
      obtain ⟨g1, g2, _, _, g5, g6, g7, _, _, _⟩ := hd
      refine ⟨0, Nat.zero_le _, ⟨?_, ?_, ?_, ?_, ?_, ?_, ?_, ?_⟩, ?_, fun _ => rfl⟩
      · rw [g2]; exact hh
      · rw [g1]; exact hh
      · exact Nat.zero_le _
      · rw [g1, g2]; left; rfl
      · rw [g5]; simp
      · rw [g6]; simp
      · rw [g7, g6]
      · rw [g6]; intro hc; exact absurd hc (by decide)
      · intro hc
        rw [g6] at hc
        exact absurd hc (by decide)
    · have hlt : s.tx_CITER < n := by omega
      have hpos1 : 0 < s.tx_CITER := by omega
      have hm := tx_isr_more cfg hle
        { s with
          tx_saddr := (s.tx_saddr + s.tx_CITER) % cfg.TX_BUFFER_SIZE
          tx_enabled := false } hh ht (by show s.tx_CITER ≤ _; omega)
        (if cfg.TX_BUFFER_SIZE ≤ s.tx_buffer_tail + s.tx_CITER
          then s.tx_buffer_tail + s.tx_CITER - cfg.TX_BUFFER_SIZE
          else s.tx_buffer_tail + s.tx_CITER) rfl
        (by show (if cfg.TX_BUFFER_SIZE ≤ s.tx_buffer_tail + s.tx_CITER
              then s.tx_buffer_tail + s.tx_CITER - cfg.TX_BUFFER_SIZE
              else s.tx_buffer_tail + s.tx_CITER) ≠ s.tx_buffer_head
            split_ifs <;> omega) hempf
      dsimp only at hm
      obtain ⟨g1, g2, _, _, g5, g6, g7, g8, _, _⟩ := hm
      have hcase : (if cfg.TX_BUFFER_SIZE ≤ s.tx_buffer_tail + s.tx_CITER
          then s.tx_buffer_tail + s.tx_CITER - cfg.TX_BUFFER_SIZE
          else s.tx_buffer_tail + s.tx_CITER) = s.tx_buffer_tail + s.tx_CITER ∨
          (if cfg.TX_BUFFER_SIZE ≤ s.tx_buffer_tail + s.tx_CITER
          then s.tx_buffer_tail + s.tx_CITER - cfg.TX_BUFFER_SIZE
          else s.tx_buffer_tail + s.tx_CITER) + cfg.TX_BUFFER_SIZE
            = s.tx_buffer_tail + s.tx_CITER := by
        split_ifs <;> omega
      have hlt1 : (if cfg.TX_BUFFER_SIZE ≤ s.tx_buffer_tail + s.tx_CITER
          then s.tx_buffer_tail + s.tx_CITER - cfg.TX_BUFFER_SIZE
          else s.tx_buffer_tail + s.tx_CITER) < cfg.TX_BUFFER_SIZE := by
        split_ifs <;> omega
      generalize (if cfg.TX_BUFFER_SIZE ≤ s.tx_buffer_tail + s.tx_CITER
          then s.tx_buffer_tail + s.tx_CITER - cfg.TX_BUFFER_SIZE
          else s.tx_buffer_tail + s.tx_CITER) = tail1 at g1 g8 hcase hlt1
      have hc8 : (serial_dma_tx_isr cfg
         { s with
           tx_saddr := (s.tx_saddr + s.tx_CITER) % cfg.TX_BUFFER_SIZE
           tx_enabled := false }).tx_CITER = n - s.tx_CITER := by
        rw [g8]
        split_ifs <;> omega
      refine ⟨n - s.tx_CITER, Nat.sub_le _ _, ⟨?_, ?_, ?_, ?_, ?_, ?_, ?_, ?_⟩, ?_, ?_⟩
      · rw [g2]; exact hh
      · rw [g1]; omega
      · omega
      · rw [g1, g2]; omega
      · rw [g5]
        constructor
        · intro hc; exact absurd hc (by decide)
        · intro hc; omega
      · rw [g6]
        constructor
        · intro _; omega
        · intro _; rfl
      · rw [g7, g6]
      · intro _
        rw [hc8]
        exact ⟨Nat.le_refl _, fun hz => by omega⟩
      · intro _
        exact hc8
      · intro hall
        have := hall htrans
        omega
  · rw [tx_complete_idle cfg s hen1]
    have hnt : ¬ s.transmitting = true := by
      rw [← h.2.2.2.2.2.2.1]; exact hen1
    have hn0 : n = 0 := by
      by_contra hne
      exact hnt (h.2.2.2.2.2.1.mpr hne)
    exact ⟨n, Nat.le_refl _, h, fun hc => absurd hc hnt, fun _ => hn0⟩

/-! ## Transmit side: reachable states -/

theorem txHolds_init (cfg : Config) (hsz : 0 < cfg.TX_BUFFER_SIZE) : TxHolds cfg init [] := by
  refine ⟨hsz, hsz, Nat.zero_le _, Or.inl rfl, ?_, ?_, rfl, ?_, rfl, rfl⟩
  · exact ⟨fun _ => rfl, fun _ => rfl⟩
  · constructor
    · intro h; exact absurd h (by decide)
    · intro h; exact absurd rfl h
  · intro h; exact absurd h (by decide)

theorem txStep_ok (cfg : Config) (hsz : 0 < cfg.TX_BUFFER_SIZE)
    (hlt : cfg.TX_BUFFER_SIZE < 65536) (t : TxTrace) (e : TxEvent) (h : TxTraceOk cfg t) :
    TxTraceOk cfg (txStep cfg t e) := by
  have hle : cfg.TX_BUFFER_SIZE ≤ 65536 := Nat.le_of_lt hlt
  obtain ⟨q, hq, hacc⟩ := h
  cases e with
  | write buf count =>
    have hw := txHolds_write cfg hsz hlt t.st q buf count hq
    refine ⟨q ++ (List.range (min count (cfg.TX_BUFFER_SIZE - q.length))).map buf, hw.2, ?_⟩
    show t.accepted ++ (List.range (serial_dma_write cfg t.st buf count).1).map buf
      = t.emitted ++ _
    rw [hw.1, hacc, List.append_assoc]
  | complete =>
    have hc := txHolds_complete cfg hle t.st q hq
    refine ⟨q.drop (if t.st.tx_enabled = true then t.st.tx_CITER else 0), hc.2.1, ?_⟩
    show t.accepted = (t.emitted ++ (dma_tx_complete cfg t.st).1) ++ _
    rw [hc.1, hacc, List.append_assoc, List.take_append_drop]

theorem txRun_ok (cfg : Config) (hsz : 0 < cfg.TX_BUFFER_SIZE)
    (hlt : cfg.TX_BUFFER_SIZE < 65536) (evs : List TxEvent) :
    ∀ t : TxTrace, TxTraceOk cfg t → TxTraceOk cfg (txRun cfg t evs) := by
  induction evs with
  | nil => intro t h; exact h
  | cons e es ih =>
    intro t h
    exact ih (txStep cfg t e) (txStep_ok cfg hsz hlt t e h)

theorem txReach_ok (cfg : Config) (hsz : 0 < cfg.TX_BUFFER_SIZE)
    (hlt : cfg.TX_BUFFER_SIZE < 65536) (evs : List TxEvent) :
    TxTraceOk cfg (txRun cfg txStart evs) :=
  txRun_ok cfg hsz hlt evs txStart ⟨[], txHolds_init cfg hsz, rfl⟩

theorem txIdx_run (cfg : Config) (hsz : 0 < cfg.TX_BUFFER_SIZE)
    (hle : cfg.TX_BUFFER_SIZE ≤ 65536) (evs : List TxEvent) :
    ∀ (t : TxTrace) (n : Nat), TxIdx cfg t.st n → ∃ n1 : Nat, TxIdx cfg (txRun cfg t evs).st n1 := by
  induction evs with
  | nil => intro t n h; exact ⟨n, h⟩
  | cons e es ih =>
    intro t n h
    cases e with
    | write buf count =>
      exact ih (txStep cfg t (TxEvent.write buf count)) _
        (txIdx_write cfg hsz hle t.st n buf count h).2
    | complete =>
      obtain ⟨n1, -, hn1, -⟩ := txIdx_complete cfg hle t.st n h
      exact ih (txStep cfg t TxEvent.complete) n1 hn1

theorem txIdx_reach (cfg : Config) (hsz : 0 < cfg.TX_BUFFER_SIZE)
    (hle : cfg.TX_BUFFER_SIZE ≤ 65536) (evs : List TxEvent) :
    ∃ n : Nat, TxIdx cfg (txRun cfg txStart evs).st n :=
  txIdx_run cfg hsz hle evs txStart 0 (txIdx_of_holds cfg init [] (txHolds_init cfg hsz))

/-- C3. For a capacity below 65536 (every length the code programs then fits
the 16-bit `CITER`), in every transmit state reached from the initial state by
writes and DMA completions, `serial_dma_write_buffer_free()` plus the occupied
count (the bytes accepted by the writes minus the bytes drained by the
completions) equals `TX_BUFFER_SIZE`; so it returns `TX_BUFFER_SIZE` when
nothing is occupied (which is exactly when the empty flag is set) and 0 when
the ring is full. -/
theorem free_plus_occupied (cfg : Config) (hsz : 0 < cfg.TX_BUFFER_SIZE)
    (hlt : cfg.TX_BUFFER_SIZE < 65536) (evs : List TxEvent) :
    (txRun cfg txStart evs).emitted.length ≤ (txRun cfg txStart evs).accepted.length ∧
    serial_dma_write_buffer_free cfg (txRun cfg txStart evs).st
      + ((txRun cfg txStart evs).accepted.length - (txRun cfg txStart evs).emitted.length)
      = cfg.TX_BUFFER_SIZE ∧
    ((txRun cfg txStart evs).st.tx_buffer_empty = true ↔
      (txRun cfg txStart evs).accepted.length - (txRun cfg txStart evs).emitted.length = 0) ∧
    ((txRun cfg txStart evs).accepted.length - (txRun cfg txStart evs).emitted.length = 0 →
      serial_dma_write_buffer_free cfg (txRun cfg txStart evs).st = cfg.TX_BUFFER_SIZE) ∧
    ((txRun cfg txStart evs).accepted.length - (txRun cfg txStart evs).emitted.length
        = cfg.TX_BUFFER_SIZE →
      serial_dma_write_buffer_free cfg (txRun cfg txStart evs).st = 0) := by
  have hle : cfg.TX_BUFFER_SIZE ≤ 65536 := Nat.le_of_lt hlt
  obtain ⟨q, hq, hacc⟩ := txReach_ok cfg hsz hlt evs
  have hfree := txHolds_free cfg hle _ q hq
  have hlen : (txRun cfg txStart evs).accepted.length
      = (txRun cfg txStart evs).emitted.length + q.length := by
    rw [hacc, List.length_append]
  have hl := hq.2.2.1
  have hemp := hq.2.2.2.2.1
  rw [hfree, hlen]
  refine ⟨by omega, by omega, ?_, ?_, ?_⟩
  · rw [hemp]; omega
  · intro h; omega
  · intro h; omega

/-- C3, instance: capacity 8, five bytes written from the initial state and
not yet drained: 3 free plus 5 occupied. -/
theorem free_plus_occupied_witness :
    (0 < cfg8.TX_BUFFER_SIZE ∧ cfg8.TX_BUFFER_SIZE < 65536) ∧
    (txRun cfg8 txStart [TxEvent.write bufABCDE 5]).accepted.length
      - (txRun cfg8 txStart [TxEvent.write bufABCDE 5]).emitted.length = 5 ∧
    serial_dma_write_buffer_free cfg8 (txRun cfg8 txStart [TxEvent.write bufABCDE 5]).st + 5
      = cfg8.TX_BUFFER_SIZE := by
  have h := (free_plus_occupied cfg8 (by decide) (by decide) [TxEvent.write bufABCDE 5]).2.1
  have h5 : (txRun cfg8 txStart [TxEvent.write bufABCDE 5]).accepted.length
      - (txRun cfg8 txStart [TxEvent.write bufABCDE 5]).emitted.length = 5 := by decide
  rw [h5] at h
  exact ⟨⟨by decide, by decide⟩, h5, h⟩

theorem write_spec_of_idx (cfg : Config) (hsz : 0 < cfg.TX_BUFFER_SIZE)
    (hle : cfg.TX_BUFFER_SIZE ≤ 65536) (s : State) (n : Nat) (buf : Nat → Byte)
    (count : Nat) (h : TxIdx cfg s n) :
    (serial_dma_write cfg s buf count).1 = min count (serial_dma_write_buffer_free cfg s) ∧
    (∀ i, i < (serial_dma_write cfg s buf count).1 →
      (serial_dma_write cfg s buf count).2.tx_buffer
        ((s.tx_buffer_head + i) % cfg.TX_BUFFER_SIZE) = buf i) ∧
    (serial_dma_write cfg s buf count).2.tx_buffer_head
      = (s.tx_buffer_head + (serial_dma_write cfg s buf count).1) % cfg.TX_BUFFER_SIZE ∧
    serial_dma_write_buffer_free cfg (serial_dma_write cfg s buf count).2
      + (serial_dma_write cfg s buf count).1 = serial_dma_write_buffer_free cfg s ∧
    (∀ j, (∀ i, i < (serial_dma_write cfg s buf count).1 →
        j ≠ (s.tx_buffer_head + i) % cfg.TX_BUFFER_SIZE) →
      (serial_dma_write cfg s buf count).2.tx_buffer j = s.tx_buffer j) := by
  have hfree := txIdx_free cfg hle s n h
  have hw := txIdx_write cfg hsz hle s n buf count h
  have hfree2 := txIdx_free cfg hle _ _ hw.2
  have hh := h.1
  have hl := h.2.2.1
  by_cases hc : count = 0
  · subst hc
    rw [write_zero]
    refine ⟨by simp, ?_, ?_, ?_, ?_⟩
    · intro i hi
      exact absurd hi (Nat.not_lt_zero i)
    · show s.tx_buffer_head = (s.tx_buffer_head + 0) % cfg.TX_BUFFER_SIZE
      rw [Nat.add_zero, Nat.mod_eq_of_lt hh]
    · rfl
    · intro j _
      rfl
  · have hf := write_fields cfg hle s buf count hc hh (by rw [hfree]; omega)
    obtain ⟨f1, fbuf, fhead, -⟩ := hf
    have hn : min count (serial_dma_write_buffer_free cfg s) ≤ cfg.TX_BUFFER_SIZE := by
      rw [hfree]
      exact le_trans (Nat.min_le_right _ _) (Nat.sub_le _ _)
    refine ⟨f1, ?_, ?_, ?_, ?_⟩
    · intro i hi
      rw [f1] at hi
      rw [fbuf]
      exact ring_copy_new cfg.TX_BUFFER_SIZE s.tx_buffer_head _ s.tx_buffer buf hh hn i hi
    · rw [fhead, f1, mod_two _ _ (by omega)]
      split_ifs <;> omega
    · rw [hfree2, hfree, hw.1]
      have := Nat.min_le_right count (cfg.TX_BUFFER_SIZE - n)
      omega
    · intro j hj
      rw [f1] at hj
      rw [fbuf]
      exact ring_copy_old cfg.TX_BUFFER_SIZE s.tx_buffer_head _ s.tx_buffer buf hh hn j hj

/-- C2. In every transmit state reached from the initial state by writes and
DMA completions, for every buffer and count, `serial_dma_write` returns
`min(count, free)` where `free` is `serial_dma_write_buffer_free()` before the
call, stores the first that-many bytes of the buffer at the ring positions
`(head + i) mod TX_BUFFER_SIZE`, advances head by that number modulo
`TX_BUFFER_SIZE`, lowers `serial_dma_write_buffer_free()` by exactly that
number, and leaves every other ring slot as it was. -/
theorem write_accepts (cfg : Config) (hsz : 0 < cfg.TX_BUFFER_SIZE)
    (hle : cfg.TX_BUFFER_SIZE ≤ 65536) (evs : List TxEvent) (buf : Nat → Byte) (count : Nat) :
    (serial_dma_write cfg (txRun cfg txStart evs).st buf count).1
      = min count (serial_dma_write_buffer_free cfg (txRun cfg txStart evs).st) ∧
    (∀ i, i < (serial_dma_write cfg (txRun cfg txStart evs).st buf count).1 →
      (serial_dma_write cfg (txRun cfg txStart evs).st buf count).2.tx_buffer
        (((txRun cfg txStart evs).st.tx_buffer_head + i) % cfg.TX_BUFFER_SIZE) = buf i) ∧
    (serial_dma_write cfg (txRun cfg txStart evs).st buf count).2.tx_buffer_head
      = ((txRun cfg txStart evs).st.tx_buffer_head
          + (serial_dma_write cfg (txRun cfg txStart evs).st buf count).1)
        % cfg.TX_BUFFER_SIZE ∧
    serial_dma_write_buffer_free cfg (serial_dma_write cfg (txRun cfg txStart evs).st buf count).2
      + (serial_dma_write cfg (txRun cfg txStart evs).st buf count).1
      = serial_dma_write_buffer_free cfg (txRun cfg txStart evs).st ∧
    (∀ j, (∀ i, i < (serial_dma_write cfg (txRun cfg txStart evs).st buf count).1 →
        j ≠ ((txRun cfg txStart evs).st.tx_buffer_head + i) % cfg.TX_BUFFER_SIZE) →
      (serial_dma_write cfg (txRun cfg txStart evs).st buf count).2.tx_buffer j
        = (txRun cfg txStart evs).st.tx_buffer j) := by
  obtain ⟨n, hn⟩ := txIdx_reach cfg hsz hle evs
  exact write_spec_of_idx cfg hsz hle _ n buf count hn

/-- C2, scenario: capacity 8, head 0, empty ring; writing the five bytes
`A B C D E` returns 5, head becomes 5 and the free space becomes 3. -/
theorem write_accepts_witness :
    (0 < cfg8.TX_BUFFER_SIZE ∧ cfg8.TX_BUFFER_SIZE ≤ 65536) ∧
    (serial_dma_write cfg8 (txRun cfg8 txStart []).st bufABCDE 5).1 = 5 ∧
    (serial_dma_write cfg8 (txRun cfg8 txStart []).st bufABCDE 5).2.tx_buffer_head = 5 ∧
    serial_dma_write_buffer_free cfg8
      (serial_dma_write cfg8 (txRun cfg8 txStart []).st bufABCDE 5).2 = 3 := by
  have h := write_accepts cfg8 (by decide) (by decide) [] bufABCDE 5
  have h1 : (serial_dma_write cfg8 (txRun cfg8 txStart []).st bufABCDE 5).1 = 5 := by
    rw [h.1]; decide
  refine ⟨⟨by decide, by decide⟩, h1, ?_, ?_⟩
  · rw [h.2.2.1, h1]; decide
  · have h4 := h.2.2.2.1
    rw [h1] at h4
    have h5 : serial_dma_write_buffer_free cfg8 (txRun cfg8 txStart []).st = 8 := by decide
    omega

/-! ## Transmit side: write then drain -/

theorem written_length (ws : List ((Nat → Byte) × Nat)) :
    (written ws).length = (ws.map (fun w => w.2)).sum := by
  induction ws with
  | nil => rfl
  | cons w ws ih =>
    simp only [written, List.length_append, List.length_map, List.length_range, List.map_cons,
      List.sum_cons, ih]

theorem tx_completions_idx (cfg : Config) (hle : cfg.TX_BUFFER_SIZE ≤ 65536) (k : Nat) :
    ∀ (s : State) (n : Nat), TxIdx cfg s n →
      ∃ n1 : Nat, TxIdx cfg (tx_completions cfg k s) n1 := by
  induction k with
  | zero => intro s n h; exact ⟨n, h⟩
  | succ k ih =>
    intro s n h
    obtain ⟨n1, -, hn1, -⟩ := txIdx_complete cfg hle s n h
    exact ih (dma_tx_complete cfg s).2 n1 hn1

theorem txIdx_idle_of_free (cfg : Config) (hsz : 0 < cfg.TX_BUFFER_SIZE)
    (hle : cfg.TX_BUFFER_SIZE ≤ 65536) (s : State) (n : Nat) (h : TxIdx cfg s n)
    (hf : serial_dma_write_buffer_free cfg s = cfg.TX_BUFFER_SIZE) : s.transmitting = false := by
  have hfree := txIdx_free cfg hle s n h
  have hn0 : n = 0 := by omega
  have hnt : ¬ s.transmitting = true := fun hc => h.2.2.2.2.2.1.mp hc hn0
  simpa using hnt

theorem txIdx_zero_idle (cfg : Config) (s : State) (h : TxIdx cfg s 0) :
    s.tx_buffer_empty = true ∧ s.transmitting = false ∧ s.tx_enabled = false := by
  have he : s.tx_buffer_empty = true := h.2.2.2.2.1.mpr rfl
  have hnt : ¬ s.transmitting = true := fun hc => h.2.2.2.2.2.1.mp hc rfl
  have htf : s.transmitting = false := by simpa using hnt
  exact ⟨he, htf, by rw [h.2.2.2.2.2.2.1]; exact htf⟩

theorem flush_wait_free_post (cfg : Config) (hle : cfg.TX_BUFFER_SIZE ≤ 65536)
    (sched : List Nat) :
    ∀ (s : State) (n : Nat), TxIdx cfg s n →
      ∀ r : State × List Nat, flush_wait_free cfg sched s = some r →
        serial_dma_write_buffer_free cfg r.1 = cfg.TX_BUFFER_SIZE ∧
        ∃ n1 : Nat, TxIdx cfg r.1 n1 := by
  induction sched with
  | nil =>
    intro s n h r hr
    by_cases hc : serial_dma_write_buffer_free cfg s ≠ cfg.TX_BUFFER_SIZE
    · simp only [flush_wait_free, if_pos hc] at hr
      exact absurd hr (by simp)
    · simp only [flush_wait_free, if_neg hc] at hr
      have hr1 : (s, ([] : List Nat)) = r := Option.some.inj hr
      rw [← hr1]
      exact ⟨not_not.mp hc, n, h⟩
  | cons k sched ih =>
    intro s n h r hr
    by_cases hc : serial_dma_write_buffer_free cfg s ≠ cfg.TX_BUFFER_SIZE
    · simp only [flush_wait_free, if_pos hc] at hr
      obtain ⟨n1, hn1⟩ := tx_completions_idx cfg hle k s n h
      exact ih (tx_completions cfg k s) n1 hn1 r hr
    · simp only [flush_wait_free, if_neg hc] at hr
      have hr1 : (s, k :: sched) = r := Option.some.inj hr
      rw [← hr1]
      exact ⟨not_not.mp hc, n, h⟩

theorem flush_wait_idle_now (cfg : Config) (sched : List Nat) (s : State)
    (h : s.transmitting = false) : flush_wait_idle cfg sched s = some (s, sched) := by
  have hnt : ¬ s.transmitting = true := by rw [h]; decide
  cases sched with
  | nil => simp only [flush_wait_idle, if_neg hnt]
  | cons n sched => simp only [flush_wait_idle, if_neg hnt]

theorem flush_wait_free_now (cfg : Config) (sched : List Nat) (s : State)
    (h : serial_dma_write_buffer_free cfg s = cfg.TX_BUFFER_SIZE) :
    flush_wait_free cfg sched s = some (s, sched) := by
  have hn : ¬ serial_dma_write_buffer_free cfg s ≠ cfg.TX_BUFFER_SIZE := not_not.mpr h
  cases sched with
  | nil => simp only [flush_wait_free, if_neg hn]
  | cons n sched => simp only [flush_wait_free, if_neg hn]

theorem flush_now (cfg : Config) (sched : List Nat) (s : State)
    (hf : serial_dma_write_buffer_free cfg s = cfg.TX_BUFFER_SIZE)
    (ht : s.transmitting = false) : serial_dma_flush cfg sched s = some (s, sched) := by
  unfold serial_dma_flush
  rw [flush_wait_free_now cfg sched s hf]
  exact flush_wait_idle_now cfg sched s ht

theorem flush_post_of_idx (cfg : Config) (hsz : 0 < cfg.TX_BUFFER_SIZE)
    (hle : cfg.TX_BUFFER_SIZE ≤ 65536) (sched : List Nat) (s : State) (n : Nat)
    (h : TxIdx cfg s n) (r : State × List Nat) (hr : serial_dma_flush cfg sched s = some r) :
    serial_dma_write_buffer_free cfg r.1 = cfg.TX_BUFFER_SIZE ∧ r.1.transmitting = false := by
  unfold serial_dma_flush at hr
  cases h1 : flush_wait_free cfg sched s with
  | none =>
    rw [h1] at hr
    exact absurd hr (by simp)
  | some r1 =>
    rw [h1] at hr
    obtain ⟨hf1, n1, hn1⟩ := flush_wait_free_post cfg hle sched s n h r1 h1
    have hidle := txIdx_idle_of_free cfg hsz hle r1.1 n1 hn1 hf1
    have hr2 : flush_wait_idle cfg r1.2 r1.1 = some r := hr
    rw [flush_wait_idle_now cfg r1.2 r1.1 hidle] at hr2
    have hr3 : (r1.1, r1.2) = r := Option.some.inj hr2
    rw [← hr3]
    exact ⟨hf1, hidle⟩

theorem tx_completions_idle (cfg : Config) (n : Nat) (s : State) (h : s.tx_enabled = false) :
    tx_completions cfg n s = s := by
  have hne : ¬ s.tx_enabled = true := by rw [h]; decide
  induction n with
  | zero => rfl
  | succ n ih =>
    simp only [tx_completions, tx_complete_idle cfg s hne]
    exact ih

theorem two_completions_drain (cfg : Config) (hle : cfg.TX_BUFFER_SIZE ≤ 65536) (s : State)
    (n : Nat) (h : TxIdx cfg s n) :
    TxIdx cfg (dma_tx_complete cfg (dma_tx_complete cfg s).2).2 0 := by
  obtain ⟨n1, -, hn1, hall, -⟩ := txIdx_complete cfg hle s n h
  obtain ⟨n2, -, hn2, -, hz⟩ := txIdx_complete cfg hle _ n1 hn1
  rw [hz hall] at hn2
  exact hn2

theorem flush_two_yields (cfg : Config) (hsz : 0 < cfg.TX_BUFFER_SIZE)
    (hle : cfg.TX_BUFFER_SIZE ≤ 65536) (s : State) (n : Nat) (h : TxIdx cfg s n)
    (rest : List Nat) :
    ∃ r : State × List Nat, serial_dma_flush cfg (1 :: 1 :: rest) s = some r ∧
      (r.2 = 1 :: 1 :: rest ∨ r.2 = 1 :: rest ∨ r.2 = rest) ∧
      (∃ k, k ≤ 2 ∧ r.1 = tx_completions cfg k s) := by
  by_cases hf0 : serial_dma_write_buffer_free cfg s = cfg.TX_BUFFER_SIZE
  · exact ⟨_, flush_now cfg _ s hf0 (txIdx_idle_of_free cfg hsz hle s n h hf0),
      Or.inl rfl, 0, by omega, rfl⟩
  · obtain ⟨n1, -, hn1, -⟩ := txIdx_complete cfg hle s n h
    have hc0 : serial_dma_write_buffer_free cfg s ≠ cfg.TX_BUFFER_SIZE := hf0
    unfold serial_dma_flush
    by_cases hf1 : serial_dma_write_buffer_free cfg (dma_tx_complete cfg s).2
        = cfg.TX_BUFFER_SIZE
    · have hw : flush_wait_free cfg (1 :: 1 :: rest) s
          = some ((dma_tx_complete cfg s).2, 1 :: rest) := by
        simp only [flush_wait_free, if_pos hc0, tx_completions]
        exact flush_wait_free_now cfg (1 :: rest) _ hf1
      rw [hw]
      exact ⟨_, flush_wait_idle_now cfg (1 :: rest) _
        (txIdx_idle_of_free cfg hsz hle _ n1 hn1 hf1), Or.inr (Or.inl rfl), 1, by omega, rfl⟩
    · have hc1 : serial_dma_write_buffer_free cfg (dma_tx_complete cfg s).2
          ≠ cfg.TX_BUFFER_SIZE := hf1
      have h2 := two_completions_drain cfg hle s n h
      have hfree2 := txIdx_free cfg hle _ _ h2
      have hf2 : serial_dma_write_buffer_free cfg
          (dma_tx_complete cfg (dma_tx_complete cfg s).2).2 = cfg.TX_BUFFER_SIZE := by
        rw [hfree2]; rfl
      have hw : flush_wait_free cfg (1 :: 1 :: rest) s
          = some ((dma_tx_complete cfg (dma_tx_complete cfg s).2).2, rest) := by
        simp only [flush_wait_free, if_pos hc0, if_pos hc1, tx_completions]
        exact flush_wait_free_now cfg rest _ hf2
      rw [hw]
      exact ⟨_, flush_wait_idle_now cfg rest _ (txIdx_zero_idle cfg _ h2).2.1,
        Or.inr (Or.inr rfl), 2, by omega, rfl⟩

/-- C10. With each yield inside `serial_dma_flush` letting DMA completions run
and no write occurring, from every transmit state reached from the initial
state by writes and completions: whenever `serial_dma_flush` returns, the
state it returns in has `serial_dma_write_buffer_free()` equal to
`TX_BUFFER_SIZE` and `transmitting` false, and calling it again in that state
returns at once, using no yield and changing nothing; and it does return when
the first two yields each let one completion run. In any state whatsoever with
free space `TX_BUFFER_SIZE` and `transmitting` false, it returns at once with
the state and the schedule of yields untouched. -/
theorem flush_spec (cfg : Config) (hsz : 0 < cfg.TX_BUFFER_SIZE)
    (hle : cfg.TX_BUFFER_SIZE ≤ 65536) (evs : List TxEvent) :
    (∀ (sched : List Nat) (r : State × List Nat),
      serial_dma_flush cfg sched (txRun cfg txStart evs).st = some r →
        serial_dma_write_buffer_free cfg r.1 = cfg.TX_BUFFER_SIZE ∧
        r.1.transmitting = false ∧
        ∀ sched2 : List Nat, serial_dma_flush cfg sched2 r.1 = some (r.1, sched2)) ∧
    (∃ r : State × List Nat,
      serial_dma_flush cfg [1, 1] (txRun cfg txStart evs).st = some r) ∧
    (∀ (s : State) (sched : List Nat),
      serial_dma_write_buffer_free cfg s = cfg.TX_BUFFER_SIZE → s.transmitting = false →
        serial_dma_flush cfg sched s = some (s, sched)) := by
  obtain ⟨n, hn⟩ := txIdx_reach cfg hsz hle evs
  refine ⟨?_, ?_, ?_⟩
  · intro sched r hr
    have hp := flush_post_of_idx cfg hsz hle sched _ n hn r hr
    exact ⟨hp.1, hp.2, fun sched2 => flush_now cfg sched2 r.1 hp.1 hp.2⟩
  · obtain ⟨r, hr, -⟩ := flush_two_yields cfg hsz hle _ n hn []
    exact ⟨r, hr⟩
  · intro s sched hf ht
    exact flush_now cfg sched s hf ht

/-- C10, scenario: capacity 8, five bytes written from the initial state; flush
with one completion per yield returns after one yield with 8 bytes free and
`transmitting` false. -/
theorem flush_spec_witness :
    (0 < cfg8.TX_BUFFER_SIZE ∧ cfg8.TX_BUFFER_SIZE ≤ 65536) ∧
    (∃ r : State × List Nat,
      serial_dma_flush cfg8 [1, 1] (txRun cfg8 txStart [TxEvent.write bufABCDE 5]).st = some r ∧
      r.2 = [1] ∧
      serial_dma_write_buffer_free cfg8 r.1 = cfg8.TX_BUFFER_SIZE ∧
      r.1.transmitting = false) := by
  refine ⟨⟨by decide, by decide⟩, ?_⟩
  have hs : serial_dma_flush cfg8 [1, 1] (txRun cfg8 txStart [TxEvent.write bufABCDE 5]).st
      = some ((dma_tx_complete cfg8 (txRun cfg8 txStart [TxEvent.write bufABCDE 5]).st).2,
          [1]) := by
    rfl
  have h := (flush_spec cfg8 (by decide) (by decide) [TxEvent.write bufABCDE 5]).1 [1, 1] _ hs
  exact ⟨_, hs, rfl, h.1, h.2.1⟩

/-! ## Receive side: clear -/

theorem getchar_of_eq (cfg : Config) (s : State) (h : s.rx_buffer_head = s.rx_buffer_tail) :
    serial_dma_getchar cfg s = (-1, s) := by
  unfold serial_dma_getchar
  simp only []
  rw [if_pos h]

theorem peek_of_eq (cfg : Config) (s : State) (h : s.rx_buffer_head = s.rx_buffer_tail) :
    serial_dma_peek cfg s = (-1, s) := by
  unfold serial_dma_peek
  simp only []
  rw [if_pos h]

theorem available_of_eq (cfg : Config) (s : State) (h : s.rx_buffer_head = s.rx_buffer_tail) :
    serial_dma_available cfg s = 0 := by
  unfold serial_dma_available sub32
  simp only []
  rw [h, if_pos (Nat.le_refl _)]
  omega

theorem rxRun_reads_of_eq (cfg : Config) (evs : List RxEvent) :
    ∀ s : State, s.rx_buffer_head = s.rx_buffer_tail →
      (∀ e ∈ evs, isDelivery e = false) →
      (rxRun cfg s evs).1 = s ∧ ∀ r ∈ (rxRun cfg s evs).2, r = -1 := by
  induction evs with
  | nil =>
    intro s _ _
    exact ⟨rfl, fun r hr => absurd hr (List.not_mem_nil r)⟩
  | cons e es ih =>
    intro s h hev
    have hes : ∀ e ∈ es, isDelivery e = false := fun x hx => hev x (List.mem_cons_of_mem e hx)
    have he : isDelivery e = false := hev e (List.mem_cons_self e es)
    cases e with
    | deliver b => exact absurd he (by simp [isDelivery])
    | getchar =>
      have hg := getchar_of_eq cfg s h
      have hrec := ih s h hes
      simp only [rxRun, rxStep, hg]
      refine ⟨hrec.1, ?_⟩
      intro r hr
      simp only [Option.toList, List.singleton_append, List.mem_cons] at hr
      rcases hr with hr | hr
      · exact hr
      · exact hrec.2 r hr
    | peek =>
      have hg := peek_of_eq cfg s h
      have hrec := ih s h hes
      simp only [rxRun, rxStep, hg]
      refine ⟨hrec.1, ?_⟩
      intro r hr
      simp only [Option.toList, List.singleton_append, List.mem_cons] at hr
      rcases hr with hr | hr
      · exact hr
      · exact hrec.2 r hr
    | clear =>
      have hc : serial_dma_clear s = s := by
        cases s
        simp only at h
        subst h
        rfl
      have hrec := ih s h hes
      simp only [rxRun, rxStep, hc]
      refine ⟨hrec.1, ?_⟩
      intro r hr
      simp only [Option.toList, List.nil_append] at hr
      exact hrec.2 r hr

/-- C11. In every receive state, after `serial_dma_clear` the function
`serial_dma_available` returns 0 and `serial_dma_getchar` and
`serial_dma_peek` return `-1` without changing the state; through any further
reads and clears, as long as no completion is delivered, the state stays the
same, every read returns `-1` and `serial_dma_available` stays 0. Clear itself
changes nothing but the receive tail, which becomes the receive head. -/
theorem clear_spec (cfg : Config) (s : State) :
    serial_dma_available cfg (serial_dma_clear s) = 0 ∧
    serial_dma_getchar cfg (serial_dma_clear s) = (-1, serial_dma_clear s) ∧
    serial_dma_peek cfg (serial_dma_clear s) = (-1, serial_dma_clear s) ∧
    serial_dma_clear s = { s with rx_buffer_tail := s.rx_buffer_head } ∧
    (∀ evs : List RxEvent, (∀ e ∈ evs, isDelivery e = false) →
      (rxRun cfg (serial_dma_clear s) evs).1 = serial_dma_clear s ∧
      (∀ r ∈ (rxRun cfg (serial_dma_clear s) evs).2, r = -1) ∧
      serial_dma_available cfg (rxRun cfg (serial_dma_clear s) evs).1 = 0) := by
  have h : (serial_dma_clear s).rx_buffer_head = (serial_dma_clear s).rx_buffer_tail := rfl
  refine ⟨available_of_eq cfg _ h, getchar_of_eq cfg _ h, peek_of_eq cfg _ h, rfl, ?_⟩
  intro evs hev
  have hr := rxRun_reads_of_eq cfg evs (serial_dma_clear s) h hev
  refine ⟨hr.1, hr.2, ?_⟩
  rw [hr.1]
  exact available_of_eq cfg _ h

/-- C11, instance: capacity 8, three unread bytes; after clear, a peek and two
reads return `-1` and nothing is available. -/
theorem clear_spec_witness :
    serial_dma_available cfg8 (rx_deliver_all cfg8 (serial_dma_begin init) [1, 2, 3]) = 3 ∧
    serial_dma_available cfg8
      (serial_dma_clear (rx_deliver_all cfg8 (serial_dma_begin init) [1, 2, 3])) = 0 ∧
    (rxRun cfg8 (serial_dma_clear (rx_deliver_all cfg8 (serial_dma_begin init) [1, 2, 3]))
      [RxEvent.peek, RxEvent.getchar, RxEvent.getchar]).2 = [-1, -1, -1] :=
  ⟨by decide,
   (clear_spec cfg8 (rx_deliver_all cfg8 (serial_dma_begin init) [1, 2, 3])).1,
   by decide⟩

/-! ## Receive side: a size trigger at or above the capacity -/

theorem rx_deliver_all_quiet (cfg : Config) (k : Nat) (hk : cfg.RX_BUFFER_SIZE = 2 ^ k)
    (hk16 : k ≤ 16) (s : State) (ht : s.rx_buffer_tail < cfg.RX_BUFFER_SIZE)
    (hp : s.pending_UART1_STATUS = false) (hT : s.rxTermCharacterTrigger = -1)
    (hN : (cfg.RX_BUFFER_SIZE : Int) ≤ s.rxBufferSizeTrigger) (bs : List Byte) :
    (rx_deliver_all cfg s bs).pending_UART1_STATUS = false := by
  have hpos := rx_size_pos cfg k hk
  induction bs using List.reverseRecOn with
  | nil => exact hp
  | append_singleton bs b ih =>
    have hkeep := rx_deliver_all_keeps cfg k hk hk16 s bs
    have hpend := rx_deliver_pending cfg k hk hk16 (rx_deliver_all cfg s bs) b
      (by rw [hkeep.1]; exact ht)
    rw [hkeep.2.1, hkeep.2.2, ih, hT] at hpend
    rw [rx_deliver_all_snoc]
    by_contra hc
    have hc1 : (dma_rx_deliver cfg (rx_deliver_all cfg s bs) b).pending_UART1_STATUS = true := by
      simpa using hc
    have hlt := Int.emod_lt_of_pos
      (((((rx_deliver_all cfg s bs).rx_buffer_head + 1) % cfg.RX_BUFFER_SIZE : Nat) : Int)
        - ((rx_deliver_all cfg s bs).rx_buffer_tail : Int))
      (show (0 : Int) < (cfg.RX_BUFFER_SIZE : Int) by omega)
    rcases hpend.mp hc1 with h | ⟨-, h⟩ | ⟨h, -⟩ | ⟨h, -⟩
    · exact absurd h Bool.false_ne_true
    · omega
    · exact h rfl
    · omega

/-- C18. With the terminator trigger disabled and a size trigger `N` of at
least `RX_BUFFER_SIZE`, a run of `serial_dma_rx_isr` started with the
data-ready bit clear leaves it clear, in every receive state whose tail is a
ring index, and so does every run of deliveries with no reads, however long:
the occupied count the handler compares with `N` (the value of its local
`bufferFree`) equals `(new head - tail) mod RX_BUFFER_SIZE` and is at most
`RX_BUFFER_SIZE - 1`. -/
theorem oversize_trigger_silent (cfg : Config) (k : Nat) (hk : cfg.RX_BUFFER_SIZE = 2 ^ k)
    (hk16 : k ≤ 16) (s : State) (ht : s.rx_buffer_tail < cfg.RX_BUFFER_SIZE)
    (hp : s.pending_UART1_STATUS = false) (hT : s.rxTermCharacterTrigger = -1)
    (hN : (cfg.RX_BUFFER_SIZE : Int) ≤ s.rxBufferSizeTrigger) :
    (serial_dma_rx_isr cfg s).pending_UART1_STATUS = false ∧
    (∀ bs : List Byte, (rx_deliver_all cfg s bs).pending_UART1_STATUS = false) ∧
    (((if (s.rx_buffer_head + 1) % cfg.RX_BUFFER_SIZE ≥ s.rx_buffer_tail
        then (sub32 ((s.rx_buffer_head + 1) % cfg.RX_BUFFER_SIZE) s.rx_buffer_tail) % 65536
        else (sub32 (add32 cfg.RX_BUFFER_SIZE ((s.rx_buffer_head + 1) % cfg.RX_BUFFER_SIZE))
                s.rx_buffer_tail) % 65536 : Nat) : Int)
      = ((((s.rx_buffer_head + 1) % cfg.RX_BUFFER_SIZE : Nat) : Int)
          - (s.rx_buffer_tail : Int)) % (cfg.RX_BUFFER_SIZE : Int)) ∧
    ((((s.rx_buffer_head + 1) % cfg.RX_BUFFER_SIZE : Nat) : Int)
          - (s.rx_buffer_tail : Int)) % (cfg.RX_BUFFER_SIZE : Int)
      ≤ (cfg.RX_BUFFER_SIZE : Int) - 1 := by
  have hpos := rx_size_pos cfg k hk
  have hlt := Int.emod_lt_of_pos
    ((((s.rx_buffer_head + 1) % cfg.RX_BUFFER_SIZE : Nat) : Int) - (s.rx_buffer_tail : Int))
    (show (0 : Int) < (cfg.RX_BUFFER_SIZE : Int) by omega)
  have hbf := rx_bufferFree_eq cfg.RX_BUFFER_SIZE ((s.rx_buffer_head + 1) % cfg.RX_BUFFER_SIZE)
    s.rx_buffer_tail (Nat.mod_lt _ hpos) ht (rx_size_le cfg k hk hk16)
  refine ⟨?_, fun bs => rx_deliver_all_quiet cfg k hk hk16 s ht hp hT hN bs, hbf, by omega⟩
  have hpend := rx_isr_pending cfg k hk hk16 s ht
  rw [hp, hT] at hpend
  by_contra hc
  have hc1 : (serial_dma_rx_isr cfg s).pending_UART1_STATUS = true := by simpa using hc
  rcases hpend.mp hc1 with h | ⟨-, h⟩ | ⟨h, -⟩ | ⟨h, -⟩
  · exact absurd h Bool.false_ne_true
  · omega
  · exact h rfl
  · omega

/-- C18, instance: capacity 8 and size trigger 8; twenty deliveries with no
read raise nothing. -/
theorem oversize_trigger_silent_witness :
    (cfg8.RX_BUFFER_SIZE = 2 ^ 3 ∧ 3 ≤ 16 ∧
      (withTriggers 8 (-1) (serial_dma_begin init)).rx_buffer_tail < cfg8.RX_BUFFER_SIZE ∧
      (withTriggers 8 (-1) (serial_dma_begin init)).pending_UART1_STATUS = false ∧
      (withTriggers 8 (-1) (serial_dma_begin init)).rxTermCharacterTrigger = -1 ∧
      (cfg8.RX_BUFFER_SIZE : Int) ≤ (withTriggers 8 (-1) (serial_dma_begin init)).rxBufferSizeTrigger) ∧
    (rx_deliver_all cfg8 (withTriggers 8 (-1) (serial_dma_begin init))
      (List.replicate 20 7)).pending_UART1_STATUS = false :=
  ⟨⟨by decide, by decide, by decide, rfl, rfl, by decide⟩,
   (oversize_trigger_silent cfg8 3 (by decide) (by decide)
      (withTriggers 8 (-1) (serial_dma_begin init)) (by decide) rfl rfl (by decide)).2.1
      (List.replicate 20 7)⟩

/-! ## Receive side: what `serial_dma_available` counts -/

theorem available_eq (cfg : Config) (hle : cfg.RX_BUFFER_SIZE ≤ 65536) (s : State)
    (hh : s.rx_buffer_head < cfg.RX_BUFFER_SIZE) (ht : s.rx_buffer_tail < cfg.RX_BUFFER_SIZE) :
    serial_dma_available cfg s =
      if s.rx_buffer_head ≥ s.rx_buffer_tail then s.rx_buffer_head - s.rx_buffer_tail
      else cfg.RX_BUFFER_SIZE + s.rx_buffer_head - s.rx_buffer_tail := by
  unfold serial_dma_available
  simp only []
  by_cases h : s.rx_buffer_head ≥ s.rx_buffer_tail
  · rw [if_pos h, if_pos h, sub32_of_le _ _ h (by omega)]
  · rw [if_neg h, if_neg h, add32_of_lt _ _ (by omega), sub32_of_le _ _ (by omega) (by omega)]

theorem occ_succ_head (n h t : Nat) (hh : h < n) (ht : t < n) :
    (if (h + 1) % n ≥ t then (h + 1) % n - t else n + (h + 1) % n - t)
      = ((if h ≥ t then h - t else n + h - t) + 1) % n := by
  rw [mod_two (h + 1) n (by omega)]
  rw [mod_two ((if h ≥ t then h - t else n + h - t) + 1) n (by split <;> omega)]
  split_ifs <;> omega

theorem occ_succ_tail (n h t : Nat) (hh : h < n) (ht : t < n) (hne : h ≠ t) :
    (if h ≥ (t + 1) % n then h - (t + 1) % n else n + h - (t + 1) % n) + 1
      = (if h ≥ t then h - t else n + h - t) := by
  rw [mod_two (t + 1) n (by omega)]
  split_ifs <;> omega

theorem tally_step_up (n a a1 c r af : Nat) (ha : a < n) (h1 : a1 = (a + 1) % n)
    (hr : r ≤ a1 + c) (hf : af = (a1 + c - r) % n) :
    r ≤ a + (c + 1) ∧ af = (a + (c + 1) - r) % n := by
  rw [mod_two (a + 1) n (by omega)] at h1
  by_cases hlt : a + 1 < n
  · rw [if_pos hlt] at h1
    subst h1
    refine ⟨by omega, ?_⟩
    rw [hf]
    congr 1
    omega
  · rw [if_neg hlt] at h1
    refine ⟨by omega, ?_⟩
    have h2 : a + (c + 1) - r = (a1 + c - r) + n := by omega
    rw [h2, Nat.add_mod_right, hf]

theorem rx_tally_general (cfg : Config) (k : Nat) (hk : cfg.RX_BUFFER_SIZE = 2 ^ k)
    (hk16 : k ≤ 16) (evs : List RxEvent) :
    ∀ s : State, s.rx_buffer_head < cfg.RX_BUFFER_SIZE →
      s.rx_buffer_tail < cfg.RX_BUFFER_SIZE → (∀ e ∈ evs, isClear e = false) →
      (rxRun cfg s evs).1.rx_buffer_head < cfg.RX_BUFFER_SIZE ∧
      (rxRun cfg s evs).1.rx_buffer_tail < cfg.RX_BUFFER_SIZE ∧
      (rxTally cfg s evs).2 ≤ serial_dma_available cfg s + (rxTally cfg s evs).1 ∧
      serial_dma_available cfg (rxRun cfg s evs).1
        = (serial_dma_available cfg s + (rxTally cfg s evs).1 - (rxTally cfg s evs).2)
            % cfg.RX_BUFFER_SIZE := by
  have hpos := rx_size_pos cfg k hk
  have hle := rx_size_le cfg k hk hk16
  induction evs with
  | nil =>
    intro s hh ht _
    have ha := available_eq cfg hle s hh ht
    have hlt : serial_dma_available cfg s < cfg.RX_BUFFER_SIZE := by
      rw [ha]; split <;> omega
    simp only [rxRun, rxTally, Nat.add_zero, Nat.sub_zero]
    exact ⟨hh, ht, Nat.zero_le _, (Nat.mod_eq_of_lt hlt).symm⟩
  | cons e es ih =>
    intro s hh ht hev
    have hes : ∀ e ∈ es, isClear e = false := fun x hx => hev x (List.mem_cons_of_mem e hx)
    have he : isClear e = false := hev e (List.mem_cons_self e es)
    have ha := available_eq cfg hle s hh ht
    have hlt : serial_dma_available cfg s < cfg.RX_BUFFER_SIZE := by
      rw [ha]; split <;> omega
    cases e with
    | deliver b =>
      have hf := rx_deliver_frame cfg k hk hk16 s b
      have hh1 : (dma_rx_deliver cfg s b).rx_buffer_head < cfg.RX_BUFFER_SIZE := by
        rw [hf.1]; exact Nat.mod_lt _ hpos
      have ht1 : (dma_rx_deliver cfg s b).rx_buffer_tail < cfg.RX_BUFFER_SIZE := by
        rw [hf.2.1]; exact ht
      have ha1 : serial_dma_available cfg (dma_rx_deliver cfg s b)
          = (serial_dma_available cfg s + 1) % cfg.RX_BUFFER_SIZE := by
        rw [available_eq cfg hle _ hh1 ht1, hf.1, hf.2.1, ha]
        exact occ_succ_head cfg.RX_BUFFER_SIZE _ _ hh ht
      have hrec := ih (dma_rx_deliver cfg s b) hh1 ht1 hes
      have hst := tally_step_up cfg.RX_BUFFER_SIZE _ _ _ _ _ hlt ha1 hrec.2.2.1 hrec.2.2.2
      simp only [rxRun, rxStep, rxTally]
      exact ⟨hrec.1, hrec.2.1, hst.1, hst.2⟩
    | getchar =>
      by_cases heq : s.rx_buffer_head = s.rx_buffer_tail
      · have hg := getchar_of_eq cfg s heq
        have hrec := ih s hh ht hes
        simp only [rxRun, rxStep, rxTally, hg, if_true, Nat.add_zero]
        exact hrec
      · have hg := getchar_eq cfg k hk hk16 s
        rw [if_neg heq] at hg
        have hb := (s.rx_buffer ((s.rx_buffer_tail + 1) % cfg.RX_BUFFER_SIZE)).isLt
        have hne : ¬ (((s.rx_buffer ((s.rx_buffer_tail + 1) % cfg.RX_BUFFER_SIZE)).val : Nat)
            : Int) = -1 := by omega
        have ht1 : (s.rx_buffer_tail + 1) % cfg.RX_BUFFER_SIZE < cfg.RX_BUFFER_SIZE :=
          Nat.mod_lt _ hpos
        have hrec := ih
          { s with rx_buffer_tail := (s.rx_buffer_tail + 1) % cfg.RX_BUFFER_SIZE } hh ht1 hes
        have ha1 := available_eq cfg hle
          { s with rx_buffer_tail := (s.rx_buffer_tail + 1) % cfg.RX_BUFFER_SIZE } hh ht1
        have hocc := occ_succ_tail cfg.RX_BUFFER_SIZE s.rx_buffer_head s.rx_buffer_tail hh ht heq
        simp only [] at ha1
        rw [← ha] at hocc
        rw [← ha1] at hocc
        simp only [rxRun, rxStep, rxTally, hg, if_neg hne]
        refine ⟨hrec.1, hrec.2.1, by omega, ?_⟩
        rw [hrec.2.2.2]
        congr 1
        omega
    | peek =>
      have hp := peek_state cfg s
      have hrec := ih s hh ht hes
      simp only [rxRun, rxStep, rxTally, hp]
      exact hrec
    | clear => exact absurd he (by simp [isClear])

theorem rx_deliver_all_full (cfg : Config) (k : Nat) (hk : cfg.RX_BUFFER_SIZE = 2 ^ k)
    (hk16 : k ≤ 16) (s : State) (hh : s.rx_buffer_head < cfg.RX_BUFFER_SIZE)
    (bs : List Byte) (hl : bs.length = cfg.RX_BUFFER_SIZE) :
    (rx_deliver_all cfg s bs).rx_buffer_head = s.rx_buffer_head := by
  rcases rx_deliver_all_frame cfg k hk hk16 s bs with h | ⟨-, h⟩
  · rw [h, hl, Nat.add_mod_right, Nat.mod_eq_of_lt hh]
  · exact h

/-- C19. In every receive state whose head and tail are ring indices,
`serial_dma_available` returns a value below `RX_BUFFER_SIZE`. Along any run of
deliveries, `serial_dma_getchar` and `serial_dma_peek` calls that starts with
the ring empty (head = tail), the successful reads never outnumber the
completions and `serial_dma_available` returns
`(completions - successful reads) mod RX_BUFFER_SIZE`. In particular, after
exactly `RX_BUFFER_SIZE` completions with no read from an empty ring it
returns 0 and `serial_dma_getchar` returns `-1` and leaves the state as it
is: none of the bytes received can be read. -/
theorem available_counts (cfg : Config) (k : Nat) (hk : cfg.RX_BUFFER_SIZE = 2 ^ k)
    (hk16 : k ≤ 16) (s : State) (ht : s.rx_buffer_tail < cfg.RX_BUFFER_SIZE)
    (heq : s.rx_buffer_head = s.rx_buffer_tail) :
    (∀ s1 : State, s1.rx_buffer_head < cfg.RX_BUFFER_SIZE →
      s1.rx_buffer_tail < cfg.RX_BUFFER_SIZE →
      serial_dma_available cfg s1 < cfg.RX_BUFFER_SIZE) ∧
    (∀ evs : List RxEvent, (∀ e ∈ evs, isClear e = false) →
      (rxTally cfg s evs).2 ≤ (rxTally cfg s evs).1 ∧
      serial_dma_available cfg (rxRun cfg s evs).1
        = ((rxTally cfg s evs).1 - (rxTally cfg s evs).2) % cfg.RX_BUFFER_SIZE ∧
      serial_dma_available cfg (rxRun cfg s evs).1 < cfg.RX_BUFFER_SIZE) ∧
    (∀ bs : List Byte, bs.length = cfg.RX_BUFFER_SIZE →
      serial_dma_available cfg (rx_deliver_all cfg s bs) = 0 ∧
      serial_dma_getchar cfg (rx_deliver_all cfg s bs) = (-1, rx_deliver_all cfg s bs)) := by
  have hpos := rx_size_pos cfg k hk
  have hle := rx_size_le cfg k hk hk16
  have hh : s.rx_buffer_head < cfg.RX_BUFFER_SIZE := by rw [heq]; exact ht
  have h0 := available_of_eq cfg s heq
  refine ⟨?_, ?_, ?_⟩
  · intro s1 hh1 ht1
    rw [available_eq cfg hle s1 hh1 ht1]
    split <;> omega
  · intro evs hev
    have hg := rx_tally_general cfg k hk hk16 evs s hh ht hev
    rw [h0, Nat.zero_add] at hg
    refine ⟨hg.2.2.1, hg.2.2.2, ?_⟩
    rw [hg.2.2.2]
    exact Nat.mod_lt _ hpos
  · intro bs hl
    have hhead := rx_deliver_all_full cfg k hk hk16 s hh bs hl
    have htail := (rx_deliver_all_keeps cfg k hk hk16 s bs).1
    have he : (rx_deliver_all cfg s bs).rx_buffer_head
        = (rx_deliver_all cfg s bs).rx_buffer_tail := by
      rw [hhead, htail, heq]
    exact ⟨available_of_eq cfg _ he, getchar_of_eq cfg _ he⟩

/-- C19, instance: capacity 8, empty ring after begin; after three deliveries
and one read 2 bytes are available, and after eight deliveries with no read
nothing is available and the read returns `-1`. -/
theorem available_counts_witness :
    (cfg8.RX_BUFFER_SIZE = 2 ^ 3 ∧ 3 ≤ 16 ∧
      (serial_dma_begin init).rx_buffer_tail < cfg8.RX_BUFFER_SIZE ∧
      (serial_dma_begin init).rx_buffer_head = (serial_dma_begin init).rx_buffer_tail) ∧
    serial_dma_available cfg8
      (rxRun cfg8 (serial_dma_begin init)
        [RxEvent.deliver 1, RxEvent.deliver 2, RxEvent.getchar, RxEvent.deliver 3]).1 = 2 ∧
    serial_dma_available cfg8
      (rx_deliver_all cfg8 (serial_dma_begin init) [1, 2, 3, 4, 5, 6, 7, 8]) = 0 ∧
    (serial_dma_getchar cfg8
      (rx_deliver_all cfg8 (serial_dma_begin init) [1, 2, 3, 4, 5, 6, 7, 8])).1 = -1 := by
  have h := available_counts cfg8 3 (by decide) (by decide) (serial_dma_begin init)
    (by decide) rfl
  have h8 := h.2.2 [1, 2, 3, 4, 5, 6, 7, 8] (by decide)
  refine ⟨⟨by decide, by decide, by decide, rfl⟩, ?_, h8.1, ?_⟩
  · rw [(h.2.1 [RxEvent.deliver 1, RxEvent.deliver 2, RxEvent.getchar, RxEvent.deliver 3]
      (by decide)).2.1]
    decide
  · rw [h8.2]

/-! ## Transmit side: completions without writes -/

/-- C17. For a capacity below 65536 (every length the code programs then fits
the 16-bit `CITER`), from every transmit state reached from the initial state
by writes and DMA completions, if no further write occurs: a completion that
leaves `transmitting` true has programmed the engine for all the bytes left;
after two completions, and after any larger number, the empty flag is set,
`transmitting` is false and the whole ring is free; and `serial_dma_flush`
with one completion per yield returns, having used at most two yields, in a
state reached by at most two completions. -/
theorem drain_within_two (cfg : Config) (hsz : 0 < cfg.TX_BUFFER_SIZE)
    (hlt : cfg.TX_BUFFER_SIZE < 65536) (evs : List TxEvent) :
    ((txStep cfg (txRun cfg txStart evs) TxEvent.complete).st.transmitting = true →
      (txStep cfg (txRun cfg txStart evs) TxEvent.complete).st.tx_CITER
        = (txStep cfg (txRun cfg txStart evs) TxEvent.complete).accepted.length
          - (txStep cfg (txRun cfg txStart evs) TxEvent.complete).emitted.length) ∧
    (∀ n, 2 ≤ n →
      (tx_completions cfg n (txRun cfg txStart evs).st).tx_buffer_empty = true ∧
      (tx_completions cfg n (txRun cfg txStart evs).st).transmitting = false ∧
      serial_dma_write_buffer_free cfg (tx_completions cfg n (txRun cfg txStart evs).st)
        = cfg.TX_BUFFER_SIZE) ∧
    (∀ m : Nat, ∃ r : State × List Nat,
      serial_dma_flush cfg (List.replicate (m + 2) 1) (txRun cfg txStart evs).st = some r ∧
      m ≤ r.2.length ∧
      (∃ n, n ≤ 2 ∧ r.1 = tx_completions cfg n (txRun cfg txStart evs).st) ∧
      serial_dma_write_buffer_free cfg r.1 = cfg.TX_BUFFER_SIZE ∧
      r.1.transmitting = false) := by
  have hle : cfg.TX_BUFFER_SIZE ≤ 65536 := Nat.le_of_lt hlt
  obtain ⟨q, hq, hacc⟩ := txReach_ok cfg hsz hlt evs
  have hidx := txIdx_of_holds cfg _ q hq
  refine ⟨?_, ?_, ?_⟩
  · intro ht
    have hc := txHolds_complete cfg hle _ q hq
    have ht1 : (dma_tx_complete cfg (txRun cfg txStart evs).st).2.transmitting = true := ht
    have hen : (txRun cfg txStart evs).st.tx_enabled = true := by
      by_contra hne
      rw [tx_complete_idle cfg _ hne, ← hq.2.2.2.2.2.2.1] at ht1
      exact hne ht1
    have htr : (txRun cfg txStart evs).st.transmitting = true := by
      rw [← hq.2.2.2.2.2.2.1]; exact hen
    have hL := hq.2.2.2.2.2.2.2.1 htr
    rw [if_pos hen] at hc
    show (dma_tx_complete cfg (txRun cfg txStart evs).st).2.tx_CITER
      = (txRun cfg txStart evs).accepted.length
        - ((txRun cfg txStart evs).emitted
            ++ (dma_tx_complete cfg (txRun cfg txStart evs).st).1).length
    rw [hc.2.2 hen ht1, hc.1, hacc, List.length_append, List.length_append, List.length_take]
    omega
  · intro n hn
    obtain ⟨j, rfl⟩ : ∃ j, n = j + 2 := ⟨n - 2, by omega⟩
    have h2 : TxIdx cfg (tx_completions cfg 2 (txRun cfg txStart evs).st) 0 :=
      two_completions_drain cfg hle _ q.length hidx
    have hidle := txIdx_zero_idle cfg _ h2
    have hsplit : tx_completions cfg (j + 2) (txRun cfg txStart evs).st
        = tx_completions cfg 2 (txRun cfg txStart evs).st := by
      show tx_completions cfg j (tx_completions cfg 2 (txRun cfg txStart evs).st) = _
      exact tx_completions_idle cfg j _ hidle.2.2
    rw [hsplit]
    have hfree := txIdx_free cfg hle _ _ h2
    exact ⟨hidle.1, hidle.2.1, by rw [hfree]; rfl⟩
  · intro m
    obtain ⟨r, hr, hused, hn⟩ := flush_two_yields cfg hsz hle _ q.length hidx
      (List.replicate m 1)
    have hp := flush_post_of_idx cfg hsz hle _ _ q.length hidx r hr
    refine ⟨r, hr, ?_, hn, hp.1, hp.2⟩
    rcases hused with h | h | h <;> rw [h] <;>
      simp only [List.length_cons, List.length_replicate] <;> omega

/-- C17, instance: capacity 8, `A B C` and `D E` written before any
completion: the first completion leaves `transmitting` true with the two
bytes left programmed, the second empties the ring, and flush with one
completion per yield returns after two yields. -/
theorem drain_within_two_witness :
    (0 < cfg8.TX_BUFFER_SIZE ∧ cfg8.TX_BUFFER_SIZE < 65536) ∧
    (tx_completions cfg8 1 (txRun cfg8 txStart twoWriteEvents).st).transmitting = true ∧
    (tx_completions cfg8 1 (txRun cfg8 txStart twoWriteEvents).st).tx_CITER = 2 ∧
    (tx_completions cfg8 2 (txRun cfg8 txStart twoWriteEvents).st).tx_buffer_empty = true ∧
    (tx_completions cfg8 2 (txRun cfg8 txStart twoWriteEvents).st).transmitting = false ∧
    serial_dma_flush cfg8 [1, 1, 1] (txRun cfg8 txStart twoWriteEvents).st
      = some (tx_completions cfg8 2 (txRun cfg8 txStart twoWriteEvents).st, [1]) := by
  have h := (drain_within_two cfg8 (by decide) (by decide) twoWriteEvents).2.1 2 (by decide)
  exact ⟨⟨by decide, by decide⟩, by decide, by decide, h.1, h.2.1, rfl⟩

/-! ## Transmit side: the ring is a FIFO -/

/-- C16. For a capacity below 65536 (every length the code programs then fits
the 16-bit `CITER`), for every interleaving of `serial_dma_write` calls and DMA
completions from the initial state, with `accepted` the concatenation of the bytes the
writes accepted (for each write its first returned-count bytes) and `emitted`
the bytes the engine has emitted so far: `accepted` is `emitted` followed by
the bytes `q` held in the ring from tail on, in order (so `emitted` is an
initial segment of `accepted`, and nothing accepted has been lost, duplicated,
reordered or overwritten), `q` is empty exactly when the empty flag is set, in
which case `emitted` equals `accepted`; and the next completion emits an
initial segment of `q`. -/
theorem tx_ring_is_fifo (cfg : Config) (hsz : 0 < cfg.TX_BUFFER_SIZE)
    (hlt : cfg.TX_BUFFER_SIZE < 65536) (evs : List TxEvent) :
    (∃ q : List Byte,
      (txRun cfg txStart evs).accepted = (txRun cfg txStart evs).emitted ++ q ∧
      q.length ≤ cfg.TX_BUFFER_SIZE ∧
      q = (List.range q.length).map
            (fun i => (txRun cfg txStart evs).st.tx_buffer
              (((txRun cfg txStart evs).st.tx_buffer_tail + i) % cfg.TX_BUFFER_SIZE)) ∧
      ((txRun cfg txStart evs).st.tx_buffer_empty = true ↔ q = []) ∧
      (∃ rest : List Byte, q = (dma_tx_complete cfg (txRun cfg txStart evs).st).1 ++ rest)) ∧
    ((txRun cfg txStart evs).st.tx_buffer_empty = true →
      (txRun cfg txStart evs).emitted = (txRun cfg txStart evs).accepted) := by
  have hle : cfg.TX_BUFFER_SIZE ≤ 65536 := Nat.le_of_lt hlt
  obtain ⟨q, hq, hacc⟩ := txReach_ok cfg hsz hlt evs
  have hemp : (txRun cfg txStart evs).st.tx_buffer_empty = true ↔ q = [] := by
    rw [hq.2.2.2.2.1]
    exact List.length_eq_zero
  refine ⟨⟨q, hacc, hq.2.2.1, hq.2.2.2.2.2.2.2.2.2, hemp, ?_⟩, ?_⟩
  · have hc := txHolds_complete cfg hle _ q hq
    exact ⟨_, by rw [hc.1, List.take_append_drop]⟩
  · intro he
    rw [hacc, hemp.mp he, List.append_nil]

/-- C16, instance: capacity 8; `A B C` written, then `D E` while the first
transfer is in flight, then one completion: `A B C` has been emitted and
`D E` is still in the ring; after the second completion everything accepted
has been emitted. -/
theorem tx_ring_is_fifo_witness :
    (0 < cfg8.TX_BUFFER_SIZE ∧ cfg8.TX_BUFFER_SIZE < 65536) ∧
    (txRun cfg8 txStart (twoWriteEvents ++ [TxEvent.complete])).accepted
      = [65, 66, 67, 68, 69] ∧
    (txRun cfg8 txStart (twoWriteEvents ++ [TxEvent.complete])).emitted = [65, 66, 67] ∧
    (txRun cfg8 txStart (twoWriteEvents ++ [TxEvent.complete, TxEvent.complete])).emitted
      = (txRun cfg8 txStart (twoWriteEvents ++ [TxEvent.complete, TxEvent.complete])).accepted :=
  ⟨⟨by decide, by decide⟩, by decide, by decide,
   (tx_ring_is_fifo cfg8 (by decide) (by decide)
      (twoWriteEvents ++ [TxEvent.complete, TxEvent.complete])).2 (by decide)⟩

/-! ## Transmit side: what the completion handler programs -/

theorem int_ring_dist (n h t : Nat) (hh : h < n) (ht : t < n) :
    ((h : Int) - (t : Int)) % (n : Int)
      = (((if t > h then n - t + h else h - t) : Nat) : Int) := by
  by_cases hc : t > h
  · rw [if_pos hc]
    have h2 : ((h : Int) - (t : Int)) % (n : Int)
        = ((h : Int) - (t : Int) + (n : Int)) % (n : Int) := by
      rw [Int.add_emod_self]
    rw [h2, Int.emod_eq_of_lt (by omega) (by omega)]
    omega
  · rw [if_neg hc, Int.emod_eq_of_lt (by omega) (by omega)]
    omega

theorem tx_complete_cases (cfg : Config) (hle : cfg.TX_BUFFER_SIZE ≤ 65536) (s : State)
    (q : List Byte) (h : TxHolds cfg s q) (hen : s.tx_enabled = true) :
    (dma_tx_complete cfg s).2 = serial_dma_tx_isr cfg
      { s with
        tx_saddr := (s.tx_saddr + s.tx_CITER) % cfg.TX_BUFFER_SIZE
        tx_enabled := false } ∧
    (dma_tx_complete cfg s).2.tx_buffer_tail
      = (s.tx_buffer_tail + s.tx_CITER) % cfg.TX_BUFFER_SIZE ∧
    (dma_tx_complete cfg s).2.tx_buffer_head = s.tx_buffer_head ∧
    (((dma_tx_complete cfg s).2.tx_buffer_tail = s.tx_buffer_head ∧
      s.tx_CITER = q.length ∧
      (dma_tx_complete cfg s).2.tx_buffer_empty = true ∧
      (dma_tx_complete cfg s).2.transmitting = false ∧
      (dma_tx_complete cfg s).2.tx_enabled = false ∧
      (dma_tx_complete cfg s).2.pending_UART1_ERROR = true ∧
      (dma_tx_complete cfg s).2.tx_CITER = s.tx_CITER ∧
      (dma_tx_complete cfg s).2.tx_BITER = s.tx_BITER) ∨
     ((dma_tx_complete cfg s).2.tx_buffer_tail ≠ s.tx_buffer_head ∧
      s.tx_CITER < q.length ∧
      (dma_tx_complete cfg s).2.tx_buffer_empty = false ∧
      (dma_tx_complete cfg s).2.transmitting = true ∧
      (dma_tx_complete cfg s).2.tx_enabled = true ∧
      (dma_tx_complete cfg s).2.pending_UART1_ERROR = s.pending_UART1_ERROR ∧
      (dma_tx_complete cfg s).2.tx_CITER = q.length - s.tx_CITER ∧
      (dma_tx_complete cfg s).2.tx_BITER = (dma_tx_complete cfg s).2.tx_CITER ∧
      (dma_tx_complete cfg s).2.tx_CITER
        = (if (dma_tx_complete cfg s).2.tx_buffer_tail > s.tx_buffer_head
           then cfg.TX_BUFFER_SIZE - (dma_tx_complete cfg s).2.tx_buffer_tail + s.tx_buffer_head
           else s.tx_buffer_head - (dma_tx_complete cfg s).2.tx_buffer_tail))) := by
  obtain ⟨hh, ht, hl, hpos, hemp, htr, hent, hcit, hsa, hq⟩ := h
  have htrans : s.transmitting = true := by rw [← hent]; exact hen
  have hL := hcit htrans
  have hne0 := htr.mp htrans
  have hempf : s.tx_buffer_empty = false := by
    have : ¬ s.tx_buffer_empty = true := fun hb => hne0 (hemp.mp hb)
    simpa using this
  have htl : (s.tx_buffer_tail + s.tx_CITER) % cfg.TX_BUFFER_SIZE =
      (if cfg.TX_BUFFER_SIZE ≤ s.tx_buffer_tail + s.tx_CITER
       then s.tx_buffer_tail + s.tx_CITER - cfg.TX_BUFFER_SIZE
       else s.tx_buffer_tail + s.tx_CITER) := by
    rw [mod_two _ _ (by omega)]
    split_ifs <;> omega
  rw [tx_complete_busy cfg s hen]
  refine ⟨rfl, ?_⟩
  show (serial_dma_tx_isr cfg
      { s with
        tx_saddr := (s.tx_saddr + s.tx_CITER) % cfg.TX_BUFFER_SIZE
        tx_enabled := false }).tx_buffer_tail = _ ∧ _
  by_cases hall : s.tx_CITER = q.length
  · have hd := tx_isr_done cfg hle
      { s with
        tx_saddr := (s.tx_saddr + s.tx_CITER) % cfg.TX_BUFFER_SIZE
        tx_enabled := false } ht (by show s.tx_CITER ≤ _; omega) s.tx_buffer_head
      (by show s.tx_buffer_head = if cfg.TX_BUFFER_SIZE ≤ s.tx_buffer_tail + s.tx_CITER
            then s.tx_buffer_tail + s.tx_CITER - cfg.TX_BUFFER_SIZE
            else s.tx_buffer_tail + s.tx_CITER
          split_ifs <;> omega) rfl
    dsimp only at hd
    obtain ⟨g1, g2, _, _, g5, g6, g7, g8, g9, g10⟩ := hd
    refine ⟨?_, g2, Or.inl ⟨g1, hall, g5, g6, g7, g10, g8, g9⟩⟩
    rw [g1, htl]
    split_ifs <;> omega
  · have hm := tx_isr_more cfg hle
      { s with
        tx_saddr := (s.tx_saddr + s.tx_CITER) % cfg.TX_BUFFER_SIZE
        tx_enabled := false } hh ht (by show s.tx_CITER ≤ _; omega)
      (if cfg.TX_BUFFER_SIZE ≤ s.tx_buffer_tail + s.tx_CITER
        then s.tx_buffer_tail + s.tx_CITER - cfg.TX_BUFFER_SIZE
        else s.tx_buffer_tail + s.tx_CITER) rfl
      (by show (if cfg.TX_BUFFER_SIZE ≤ s.tx_buffer_tail + s.tx_CITER
            then s.tx_buffer_tail + s.tx_CITER - cfg.TX_BUFFER_SIZE
            else s.tx_buffer_tail + s.tx_CITER) ≠ s.tx_buffer_head
          split_ifs <;> omega) hempf
    dsimp only at hm
    obtain ⟨g1, g2, _, _, g5, g6, g7, g8, g9, g10⟩ := hm
    rw [← htl] at g1 g8
    refine ⟨g1, g2, Or.inr ⟨?_, by omega, g5, g6, g7, g10, ?_, g9, ?_⟩⟩
    · rw [g1, htl]
      split_ifs <;> omega
    · rw [g8, htl]
      split_ifs <;> omega
    · rw [g8, g1]

/-- C14. For a capacity below 65536 (every length the code programs then fits
the 16-bit `CITER`), let `s` be a transmit state reached from the initial state
by writes and DMA completions in which a transfer is in flight (`transmitting` true),
with programmed length `L = CITER`, and let `s1` be the state after the
completion of that transfer, that is after `serial_dma_tx_isr` has run. Then
tail has become `(tail + L) mod TX_BUFFER_SIZE`. If the new tail differs from
head, `CITER = BITER = (head - new tail) mod TX_BUFFER_SIZE` (`head - tail`
when tail is below head, `TX_BUFFER_SIZE - tail + head` when it is above),
which is the number of accepted bytes not yet drained and lies between 1 and
`TX_BUFFER_SIZE - 1`, the channel is enabled and `transmitting` is true. If
the new tail equals head, the empty flag is set, `transmitting` is false, the
transmit notification is pending and `CITER` and `BITER` are unchanged. -/
theorem tx_isr_reprograms (cfg : Config) (hsz : 0 < cfg.TX_BUFFER_SIZE)
    (hlt : cfg.TX_BUFFER_SIZE < 65536) (evs : List TxEvent) (s s1 : State) (occ1 : Nat)
    (hs : s = (txRun cfg txStart evs).st) (htr : s.transmitting = true)
    (hs1 : s1 = (txStep cfg (txRun cfg txStart evs) TxEvent.complete).st)
    (hocc : occ1 = (txStep cfg (txRun cfg txStart evs) TxEvent.complete).accepted.length
      - (txStep cfg (txRun cfg txStart evs) TxEvent.complete).emitted.length) :
    s1 = serial_dma_tx_isr cfg
      { s with
        tx_saddr := (s.tx_saddr + s.tx_CITER) % cfg.TX_BUFFER_SIZE
        tx_enabled := false } ∧
    s1.tx_buffer_tail = (s.tx_buffer_tail + s.tx_CITER) % cfg.TX_BUFFER_SIZE ∧
    s1.tx_buffer_head = s.tx_buffer_head ∧
    (s1.tx_buffer_tail ≠ s.tx_buffer_head →
      s1.tx_CITER = s1.tx_BITER ∧
      (s1.tx_CITER : Int)
        = ((s.tx_buffer_head : Int) - (s1.tx_buffer_tail : Int)) % (cfg.TX_BUFFER_SIZE : Int) ∧
      (s1.tx_buffer_tail < s.tx_buffer_head →
        s1.tx_CITER = s.tx_buffer_head - s1.tx_buffer_tail) ∧
      (s1.tx_buffer_tail > s.tx_buffer_head →
        s1.tx_CITER = cfg.TX_BUFFER_SIZE - s1.tx_buffer_tail + s.tx_buffer_head) ∧
      s1.tx_CITER = occ1 ∧
      1 ≤ s1.tx_CITER ∧ s1.tx_CITER ≤ cfg.TX_BUFFER_SIZE - 1 ∧
      s1.tx_enabled = true ∧ s1.transmitting = true) ∧
    (s1.tx_buffer_tail = s.tx_buffer_head →
      s1.tx_buffer_empty = true ∧ s1.transmitting = false ∧
      s1.pending_UART1_ERROR = true ∧
      s1.tx_CITER = s.tx_CITER ∧ s1.tx_BITER = s.tx_BITER) := by
  have hle : cfg.TX_BUFFER_SIZE ≤ 65536 := Nat.le_of_lt hlt
  obtain ⟨q, hq, hacc⟩ := txReach_ok cfg hsz hlt evs
  rw [← hs] at hq
  have hen : s.tx_enabled = true := by rw [hq.2.2.2.2.2.2.1]; exact htr
  have hL := hq.2.2.2.2.2.2.2.1 htr
  have hlen := hq.2.2.1
  have hh := hq.1
  have hc := txHolds_complete cfg hle s q hq
  rw [if_pos hen] at hc
  have hs1' : s1 = (dma_tx_complete cfg s).2 := by rw [hs1, hs]; rfl
  have hocc' : occ1 = q.length - s.tx_CITER := by
    rw [hocc]
    show (txRun cfg txStart evs).accepted.length
        - ((txRun cfg txStart evs).emitted
            ++ (dma_tx_complete cfg (txRun cfg txStart evs).st).1).length = _
    rw [← hs, hc.1, hacc, List.length_append, List.length_append, List.length_take]
    omega
  obtain ⟨c1, c2, c3, hcase⟩ := tx_complete_cases cfg hle s q hq hen
  rw [← hs1'] at c1 c2 c3 hcase
  have ht1 : s1.tx_buffer_tail < cfg.TX_BUFFER_SIZE := by
    rw [c2]; exact Nat.mod_lt _ hsz
  refine ⟨c1, c2, c3, ?_, ?_⟩
  · intro hne
    rcases hcase with ⟨heq, -⟩ | ⟨-, hlt, -, g6, g7, -, g8, g9, g10⟩
    · exact absurd heq hne
    · have hd := int_ring_dist cfg.TX_BUFFER_SIZE s.tx_buffer_head s1.tx_buffer_tail hh ht1
      refine ⟨g9.symm, ?_, ?_, ?_, by omega, by omega, by omega, g7, g6⟩
      · rw [hd, ← g10]
      · intro hlt1
        rw [g10, if_neg (by omega)]
      · intro hgt
        rw [g10, if_pos hgt]
  · intro heq
    rcases hcase with ⟨-, -, g5, g6, -, g10, g8, g9⟩ | ⟨hne, -⟩
    · exact ⟨g5, g6, g10, g8, g9⟩
    · exact absurd heq hne

/-- C14, instance: capacity 8, `A B C` and `D E` written before any
completion, so a transfer of 3 bytes is in flight with 5 bytes in the ring:
the handler moves tail to 3 and programs `CITER = BITER = 2`, with the channel
enabled and `transmitting` true. -/
theorem tx_isr_reprograms_witness :
    (0 < cfg8.TX_BUFFER_SIZE ∧ cfg8.TX_BUFFER_SIZE < 65536 ∧
      (txRun cfg8 txStart twoWriteEvents).st.transmitting = true) ∧
    (txStep cfg8 (txRun cfg8 txStart twoWriteEvents) TxEvent.complete).st.tx_buffer_tail = 3 ∧
    (txStep cfg8 (txRun cfg8 txStart twoWriteEvents) TxEvent.complete).st.tx_CITER = 2 ∧
    (txStep cfg8 (txRun cfg8 txStart twoWriteEvents) TxEvent.complete).st.tx_BITER = 2 ∧
    (txStep cfg8 (txRun cfg8 txStart twoWriteEvents) TxEvent.complete).st.transmitting
      = true := by
  have h := tx_isr_reprograms cfg8 (by decide) (by decide) twoWriteEvents
    (txRun cfg8 txStart twoWriteEvents).st
    (txStep cfg8 (txRun cfg8 txStart twoWriteEvents) TxEvent.complete).st 2
    rfl (by decide) rfl (by decide)
  have hne : (txStep cfg8 (txRun cfg8 txStart twoWriteEvents) TxEvent.complete).st.tx_buffer_tail
      ≠ (txRun cfg8 txStart twoWriteEvents).st.tx_buffer_head := by decide
  have h4 := h.2.2.2.1 hne
  refine ⟨⟨by decide, by decide, by decide⟩, ?_, h4.2.2.2.2.1, ?_, h4.2.2.2.2.2.2.2.2⟩
  · rw [h.2.1]; decide
  · rw [← h4.1]; exact h4.2.2.2.2.1

/-! ## Transmit side: the state invariant -/

/-- C15. For a capacity below 65536 (every length the code programs then fits
the 16-bit `CITER`), in every transmit state reached from the initial state by
`serial_dma_write` calls and DMA completions: head and tail are below
`TX_BUFFER_SIZE`; the empty flag implies head = tail; `transmitting` is true
exactly when the empty flag is clear, which is exactly when some accepted byte
is undrained; while transmitting the programmed length `CITER` is at least 1
and at most the number of undrained bytes, and the channel enabled means
`CITER` is at least 1. A write from idle with a non-zero count accepts at
least one byte and programs `CITER = BITER =` the count it returns; a write
while transmitting leaves `CITER` and `BITER` as they are; a write with count
0 changes nothing. -/
theorem tx_state_invariant (cfg : Config) (hsz : 0 < cfg.TX_BUFFER_SIZE)
    (hlt : cfg.TX_BUFFER_SIZE < 65536) (evs : List TxEvent) :
    (txRun cfg txStart evs).st.tx_buffer_head < cfg.TX_BUFFER_SIZE ∧
    (txRun cfg txStart evs).st.tx_buffer_tail < cfg.TX_BUFFER_SIZE ∧
    ((txRun cfg txStart evs).st.tx_buffer_empty = true →
      (txRun cfg txStart evs).st.tx_buffer_head = (txRun cfg txStart evs).st.tx_buffer_tail) ∧
    ((txRun cfg txStart evs).st.transmitting = true ↔
      (txRun cfg txStart evs).st.tx_buffer_empty = false) ∧
    ((txRun cfg txStart evs).st.transmitting = true ↔
      (txRun cfg txStart evs).accepted.length - (txRun cfg txStart evs).emitted.length ≠ 0) ∧
    ((txRun cfg txStart evs).st.transmitting = true →
      1 ≤ (txRun cfg txStart evs).st.tx_CITER ∧
      (txRun cfg txStart evs).st.tx_CITER
        ≤ (txRun cfg txStart evs).accepted.length - (txRun cfg txStart evs).emitted.length) ∧
    ((txRun cfg txStart evs).st.tx_enabled = true → 1 ≤ (txRun cfg txStart evs).st.tx_CITER) ∧
    (∀ (buf : Nat → Byte) (count : Nat),
      (txRun cfg txStart evs).st.transmitting = false → count ≠ 0 →
        1 ≤ (serial_dma_write cfg (txRun cfg txStart evs).st buf count).1 ∧
        (serial_dma_write cfg (txRun cfg txStart evs).st buf count).2.tx_CITER
          = (serial_dma_write cfg (txRun cfg txStart evs).st buf count).1 ∧
        (serial_dma_write cfg (txRun cfg txStart evs).st buf count).2.tx_BITER
          = (serial_dma_write cfg (txRun cfg txStart evs).st buf count).1) ∧
    (∀ (buf : Nat → Byte) (count : Nat),
      (txRun cfg txStart evs).st.transmitting = true →
        (serial_dma_write cfg (txRun cfg txStart evs).st buf count).2.tx_CITER
          = (txRun cfg txStart evs).st.tx_CITER ∧
        (serial_dma_write cfg (txRun cfg txStart evs).st buf count).2.tx_BITER
          = (txRun cfg txStart evs).st.tx_BITER) ∧
    (∀ buf : Nat → Byte,
      (serial_dma_write cfg (txRun cfg txStart evs).st buf 0).2 = (txRun cfg txStart evs).st) := by
  have hle : cfg.TX_BUFFER_SIZE ≤ 65536 := Nat.le_of_lt hlt
  obtain ⟨q, hq, hacc⟩ := txReach_ok cfg hsz hlt evs
  have hocc : (txRun cfg txStart evs).accepted.length
      - (txRun cfg txStart evs).emitted.length = q.length := by
    rw [hacc, List.length_append]
    omega
  have hfree := txHolds_free cfg hle _ q hq
  obtain ⟨hh, ht, hl, hpos, hemp, htr, hen, hcit, -, -⟩ := hq
  rw [hocc]
  refine ⟨hh, ht, ?_, ?_, htr, hcit, ?_, ?_, ?_, ?_⟩
  · intro he
    have := hemp.mp he
    omega
  · rw [htr]
    constructor
    · intro hne
      have : ¬ (txRun cfg txStart evs).st.tx_buffer_empty = true := fun hb => hne (hemp.mp hb)
      simpa using this
    · intro hf hq0
      have := hemp.mpr hq0
      rw [hf] at this
      exact absurd this (by decide)
  · intro he
    rw [hen] at he
    exact (hcit he).1
  · intro buf count hidle hc
    have hq0 : q.length = 0 := by
      by_contra hne
      have := htr.mpr hne
      rw [hidle] at this
      exact absurd this (by decide)
    have hf := write_fields cfg hle _ buf count hc hh (by rw [hfree]; omega)
    have hmin : min count (cfg.TX_BUFFER_SIZE - 0) < 65536 :=
      lt_of_le_of_lt (Nat.min_le_right _ _) (by omega)
    rw [hf.1, hf.2.2.2.2.2.2.1, hf.2.2.2.2.2.2.2.1, if_pos hidle, if_pos hidle, hfree, hq0,
      reg16_of_lt _ hmin]
    exact ⟨Nat.le_min.mpr ⟨by omega, by omega⟩, rfl, rfl⟩
  · intro buf count hbusy
    by_cases hc : count = 0
    · rw [hc, write_zero]
      exact ⟨rfl, rfl⟩
    · have hnf : ¬ (txRun cfg txStart evs).st.transmitting = false := by
        rw [hbusy]; decide
      have hf := write_fields cfg hle _ buf count hc hh (by rw [hfree]; omega)
      rw [hf.2.2.2.2.2.2.1, hf.2.2.2.2.2.2.2.1, if_neg hnf, if_neg hnf]
      exact ⟨rfl, rfl⟩
  · intro buf
    rw [write_zero]

/-- C15, instance: capacity 8, `A B C` written from idle programs
`CITER = BITER = 3`; `D E` written while transmitting leaves them at 3. -/
theorem tx_state_invariant_witness :
    (0 < cfg8.TX_BUFFER_SIZE ∧ cfg8.TX_BUFFER_SIZE < 65536) ∧
    (serial_dma_write cfg8 (txRun cfg8 txStart []).st bufABCDE 3).2.tx_CITER = 3 ∧
    (txRun cfg8 txStart twoWriteEvents).st.tx_CITER = 3 ∧
    (txRun cfg8 txStart twoWriteEvents).st.tx_buffer_head = 5 ∧
    1 ≤ (txRun cfg8 txStart twoWriteEvents).st.tx_CITER := by
  have h := tx_state_invariant cfg8 (by decide) (by decide) twoWriteEvents
  have h0 := (tx_state_invariant cfg8 (by decide) (by decide) []).2.2.2.2.2.2.2.1 bufABCDE 3
    (by decide) (by decide)
  refine ⟨⟨by decide, by decide⟩, ?_, by decide, by decide, (h.2.2.2.2.2.1 (by decide)).1⟩
  rw [h0.2.1]
  decide

/-! ## The transmit-enable pin -/

theorem write_keeps_pin (cfg : Config) (s : State) (buf : Nat → Byte) (count : Nat) :
    (serial_dma_write cfg s buf count).2.pin_output = s.pin_output ∧
    (serial_dma_write cfg s buf count).2.transmit_pin = s.transmit_pin := by
  unfold serial_dma_write
  simp only []
  split_ifs <;> exact ⟨rfl, rfl⟩

theorem tx_isr_pin_low (cfg : Config) (s : State) (p : Nat) (h : s.transmit_pin = some p) :
    (serial_dma_tx_isr cfg s).pin_output p = false := by
  unfold serial_dma_tx_isr
  simp only []
  split_ifs <;> simp [h]

/-- C12, evaluated on the code: with pin 13 configured by
`serial_dma_set_transmit_pin` on the idle initial state (capacity 8), writing
`A B C D E` starts a transfer (`transmitting` true, channel enabled) and the
pin output is still low; in general `serial_dma_write` never changes a pin
output, and `serial_dma_tx_isr` writes the configured pin low on every run,
also when it leaves `transmitting` true (here after `A B C` and `D E` were
written and the first transfer completed). -/
theorem transmit_pin_never_high :
    (∃ s : State, serial_dma_set_transmit_pin cfg8 [] init 13 = some (s, []) ∧
      s.transmit_pin = some 13 ∧
      (serial_dma_write cfg8 s bufABCDE 5).2.transmitting = true ∧
      (serial_dma_write cfg8 s bufABCDE 5).2.tx_enabled = true ∧
      (serial_dma_write cfg8 s bufABCDE 5).2.pin_output 13 = false ∧
      (dma_tx_complete cfg8
        (serial_dma_write cfg8 (serial_dma_write cfg8 s bufABCDE 3).2
          (fun i => bufABCDE (3 + i)) 2).2).2.transmitting = true ∧
      (dma_tx_complete cfg8
        (serial_dma_write cfg8 (serial_dma_write cfg8 s bufABCDE 3).2
          (fun i => bufABCDE (3 + i)) 2).2).2.pin_output 13 = false) ∧
    (∀ (cfg : Config) (s : State) (buf : Nat → Byte) (count : Nat),
      (serial_dma_write cfg s buf count).2.pin_output = s.pin_output) ∧
    (∀ (cfg : Config) (s : State) (p : Nat), s.transmit_pin = some p →
      (serial_dma_tx_isr cfg s).pin_output p = false) :=
  ⟨⟨_, rfl, rfl, by decide, by decide, by decide, by decide, by decide⟩,
   fun cfg s buf count => (write_keeps_pin cfg s buf count).1,
   fun cfg s p h => tx_isr_pin_low cfg s p h⟩

/-! ## Session teardown and restart -/

theorem tx_isr_keeps_rx (cfg : Config) (s : State) :
    (serial_dma_tx_isr cfg s).rx_buffer_head = s.rx_buffer_head ∧
    (serial_dma_tx_isr cfg s).rx_buffer_tail = s.rx_buffer_tail := by
  unfold serial_dma_tx_isr
  simp only []
  split_ifs <;> cases s.transmit_pin <;> exact ⟨rfl, rfl⟩

theorem tx_complete_keeps_rx (cfg : Config) (s : State) :
    (dma_tx_complete cfg s).2.rx_buffer_head = s.rx_buffer_head ∧
    (dma_tx_complete cfg s).2.rx_buffer_tail = s.rx_buffer_tail := by
  by_cases hen : s.tx_enabled = true
  · rw [tx_complete_busy cfg s hen]
    exact tx_isr_keeps_rx cfg _
  · rw [tx_complete_idle cfg s hen]
    exact ⟨rfl, rfl⟩

theorem tx_completions_keep_rx (cfg : Config) (n : Nat) :
    ∀ s : State, (tx_completions cfg n s).rx_buffer_head = s.rx_buffer_head ∧
      (tx_completions cfg n s).rx_buffer_tail = s.rx_buffer_tail := by
  induction n with
  | zero => intro s; exact ⟨rfl, rfl⟩
  | succ n ih =>
    intro s
    have h1 := tx_complete_keeps_rx cfg s
    have h2 := ih (dma_tx_complete cfg s).2
    exact ⟨h2.1.trans h1.1, h2.2.trans h1.2⟩

theorem flush_wait_free_keeps_rx (cfg : Config) (sched : List Nat) :
    ∀ (s : State) (r : State × List Nat), flush_wait_free cfg sched s = some r →
      r.1.rx_buffer_head = s.rx_buffer_head ∧ r.1.rx_buffer_tail = s.rx_buffer_tail := by
  induction sched with
  | nil =>
    intro s r hr
    by_cases hc : serial_dma_write_buffer_free cfg s ≠ cfg.TX_BUFFER_SIZE
    · simp only [flush_wait_free, if_pos hc] at hr
      exact absurd hr (by simp)
    · simp only [flush_wait_free, if_neg hc] at hr
      have hr1 : (s, ([] : List Nat)) = r := Option.some.inj hr
      rw [← hr1]
      exact ⟨rfl, rfl⟩
  | cons n sched ih =>
    intro s r hr
    by_cases hc : serial_dma_write_buffer_free cfg s ≠ cfg.TX_BUFFER_SIZE
    · simp only [flush_wait_free, if_pos hc] at hr
      have h1 := tx_completions_keep_rx cfg n s
      have h2 := ih _ r hr
      exact ⟨h2.1.trans h1.1, h2.2.trans h1.2⟩
    · simp only [flush_wait_free, if_neg hc] at hr
      have hr1 : (s, n :: sched) = r := Option.some.inj hr
      rw [← hr1]
      exact ⟨rfl, rfl⟩

theorem flush_wait_idle_keeps_rx (cfg : Config) (sched : List Nat) :
    ∀ (s : State) (r : State × List Nat), flush_wait_idle cfg sched s = some r →
      r.1.rx_buffer_head = s.rx_buffer_head ∧ r.1.rx_buffer_tail = s.rx_buffer_tail := by
  induction sched with
  | nil =>
    intro s r hr
    by_cases hc : s.transmitting = true
    · simp only [flush_wait_idle, if_pos hc] at hr
      exact absurd hr (by simp)
    · simp only [flush_wait_idle, if_neg hc] at hr
      have hr1 : (s, ([] : List Nat)) = r := Option.some.inj hr
      rw [← hr1]
      exact ⟨rfl, rfl⟩
  | cons n sched ih =>
    intro s r hr
    by_cases hc : s.transmitting = true
    · simp only [flush_wait_idle, if_pos hc] at hr
      have h1 := tx_completions_keep_rx cfg n s
      have h2 := ih _ r hr
      exact ⟨h2.1.trans h1.1, h2.2.trans h1.2⟩
    · simp only [flush_wait_idle, if_neg hc] at hr
      have hr1 : (s, n :: sched) = r := Option.some.inj hr
      rw [← hr1]
      exact ⟨rfl, rfl⟩

theorem flush_keeps_rx (cfg : Config) (sched : List Nat) (s : State) (r : State × List Nat)
    (hr : serial_dma_flush cfg sched s = some r) :
    r.1.rx_buffer_head = s.rx_buffer_head ∧ r.1.rx_buffer_tail = s.rx_buffer_tail := by
  unfold serial_dma_flush at hr
  cases h1 : flush_wait_free cfg sched s with
  | none =>
    rw [h1] at hr
    exact absurd hr (by simp)
  | some r1 =>
    rw [h1] at hr
    have hr2 : flush_wait_idle cfg r1.2 r1.1 = some r := hr
    have ha := flush_wait_free_keeps_rx cfg sched s r1 h1
    have hb := flush_wait_idle_keeps_rx cfg r1.2 r1.1 r hr2
    exact ⟨hb.1.trans ha.1, hb.2.trans ha.2⟩

theorem end_keeps_rx (cfg : Config) (sched : List Nat) (s : State) (r : State × List Nat)
    (hr : serial_dma_end cfg sched s = some r) :
    r.1.rx_buffer_head = s.rx_buffer_head ∧ r.1.rx_buffer_tail = s.rx_buffer_tail := by
  unfold serial_dma_end at hr
  split_ifs at hr with h1 h2 h3
  · have hr1 : (s, sched) = r := Option.some.inj hr
    rw [← hr1]
    exact ⟨rfl, rfl⟩
  · have hr1 : (s, sched) = r := Option.some.inj hr
    rw [← hr1]
    exact ⟨rfl, rfl⟩
  · have hr1 : (s, sched) = r := Option.some.inj hr
    rw [← hr1]
    exact ⟨rfl, rfl⟩
  · cases hf : serial_dma_flush cfg sched { s with irq_UART1_STATUS_enabled := false } with
    | none =>
      rw [hf] at hr
      exact absurd hr (by simp)
    | some r1 =>
      rw [hf] at hr
      have hk := flush_keeps_rx cfg sched _ r1 hf
      have hr1 := Option.some.inj hr
      rw [← hr1]
      exact ⟨hk.1, hk.2⟩

/-- C13, evaluated on the code: capacity 8; after `serial_dma_begin` on the
initial state and one received byte, with the three clock gates enabled,
`serial_dma_end` returns with the transmit indices zeroed and the empty flag
set, but with `rx_buffer_head` still 1. In general, whenever `serial_dma_end`
returns, `rx_buffer_head` and `rx_buffer_tail` are what they were before. -/
theorem end_keeps_rx_head :
    (dma_rx_deliver cfg8 (serial_dma_begin init) 65).SIM_SCGC7_DMA = true ∧
    (dma_rx_deliver cfg8 (serial_dma_begin init) 65).SIM_SCGC6_DMAMUX = true ∧
    (dma_rx_deliver cfg8 (serial_dma_begin init) 65).SIM_SCGC4_UART1 = true ∧
    (∃ s : State,
      serial_dma_end cfg8 [] (dma_rx_deliver cfg8 (serial_dma_begin init) 65) = some (s, []) ∧
      s.tx_buffer_head = 0 ∧ s.tx_buffer_tail = 0 ∧ s.tx_buffer_empty = true ∧
      s.rx_buffer_head = 1 ∧ s.rx_buffer_tail = 0) ∧
    (∀ (cfg : Config) (sched : List Nat) (s : State) (r : State × List Nat),
      serial_dma_end cfg sched s = some r →
        r.1.rx_buffer_head = s.rx_buffer_head ∧ r.1.rx_buffer_tail = s.rx_buffer_tail) :=
  ⟨rfl, rfl, rfl, ⟨_, rfl, rfl, rfl, rfl, by decide, by decide⟩,
   fun cfg sched s r hr => end_keeps_rx cfg sched s r hr⟩

/-- C20, evaluated on the code: capacity 8, terminator 66 configured and the
size trigger disabled; a first session receives the byte 65 and reads it,
`serial_dma_end` and a second `serial_dma_begin` follow. The DMA engine then
writes next at slot 1 while `(rx head + 1) mod 8` is 2; the byte 66 delivered
next is stored at slot 1, the handler advances head to 2 and, inspecting slot
2, does not raise the notification although 66 is the terminator, and
`serial_dma_getchar` returns the content of slot 2, which is 0 and was never
received. In general `serial_dma_begin` sets the engine's destination to slot
1 and leaves `rx_buffer_head` as it is. -/
theorem restart_breaks_rx_agreement :
    ∃ s : State,
      serial_dma_end cfg8 []
        (rxRun cfg8 (withTriggers (-1) 66 (serial_dma_begin init))
          [RxEvent.deliver 65, RxEvent.getchar]).1
        = some (s, []) ∧
      (serial_dma_begin s).rx_daddr = 1 ∧
      ((serial_dma_begin s).rx_buffer_head + 1) % cfg8.RX_BUFFER_SIZE = 2 ∧
      (dma_rx_deliver cfg8 (serial_dma_begin s) 66).rx_buffer 1 = 66 ∧
      (dma_rx_deliver cfg8 (serial_dma_begin s) 66).rx_buffer_head = 2 ∧
      (serial_dma_begin s).pending_UART1_STATUS = false ∧
      (dma_rx_deliver cfg8 (serial_dma_begin s) 66).pending_UART1_STATUS = false ∧
      (rxRun cfg8 (serial_dma_begin s) [RxEvent.deliver 66, RxEvent.getchar]).2 = [0] ∧
      (∀ s1 : State, (serial_dma_begin s1).rx_daddr = 1 ∧
        (serial_dma_begin s1).rx_buffer_head = s1.rx_buffer_head) :=
  ⟨_, rfl, by decide, by decide, by decide, by decide, by decide, by decide, by decide,
   fun _ => ⟨rfl, rfl⟩⟩

end UartEvent
